import Mathlib

/-! Gardener: shoot deletion flow and core helper functions.

A shallow embedding of parts of `dansible/gardener`:

* `pkg/gardenlet/controller/shoot/shoot_control_delete.go` (`runDeleteShootFlow`),
* `pkg/operation/botanist/infrastructure.go` (`WaitUntilInfrastructureDeleted`),
* `pkg/apis/core/v1beta1/helper/helper.go`.

The flow engine (`pkg/utils/flow`), the sequential step runner (`pkg/utils/errors`) and the
retry helpers (`pkg/utils/retry`) are other packages of the repository whose code is not
embedded here; the definitions that stand for them follow the specification of the
repository and are marked as modelled from it.
-/

set_option autoImplicit false

namespace Gardener

/-! ## The flow engine: graph builder -/

namespace flow

/-- Modelled from the spec: `TaskID` of package `pkg/utils/flow`, an engine-issued identity
assigned when a task is added to a graph. The graph is an append-only ordered collection,
so the identity issued by `Add` is the position of the task in that collection. -/
abbrev TaskID := Nat

/-- Modelled from the spec: a set of `TaskID`s (`flow.TaskIDs`), kept as a duplicate-free list. -/
abbrev TaskIDs := List TaskID

/-- Modelled from the spec: the unit of work of a task together with the policies that the
source attaches to it with `SkipIf`, `DoIf`, `Timeout`, `Retry` and `RetryUntilTimeout`.
`body` names the wrapped operation; durations are in seconds. -/
structure TaskFn where
  body : String
  skipIf : Bool := false
  doIf : Bool := true
  timeout : Option Nat := none
  retryInterval : Option Nat := none
  deriving Repr, DecidableEq

/-- Modelled from the spec: `flow.TaskFn(f)` and `flow.SimpleTaskFn(f)` of `pkg/utils/flow`, a plain unit of
work without policies. -/
def mkTaskFn (body : String) : TaskFn := { body := body }

/-- Modelled from the spec: `fn.SkipIf(condition)` of `pkg/utils/flow`, which sets `skipIf`. -/
def TaskFn.SkipIf (fn : TaskFn) (condition : Bool) : TaskFn := { fn with skipIf := fn.skipIf || condition }

/-- Modelled from the spec: `fn.DoIf(condition)` of `pkg/utils/flow`, which sets `doIf`. -/
def TaskFn.DoIf (fn : TaskFn) (condition : Bool) : TaskFn := { fn with doIf := fn.doIf && condition }

/-- Modelled from the spec: `fn.Timeout(timeout)` of `pkg/utils/flow`, which sets `timeout`. -/
def TaskFn.Timeout (fn : TaskFn) (timeout : Nat) : TaskFn := { fn with timeout := some timeout }

/-- Modelled from the spec: `fn.Retry(interval)` of `pkg/utils/flow`, which sets `retryInterval`. -/
def TaskFn.Retry (fn : TaskFn) (interval : Nat) : TaskFn := { fn with retryInterval := some interval }

/-- Modelled from the spec: `fn.RetryUntilTimeout(interval, timeout)` of `pkg/utils/flow`, which sets
`retryInterval` and `timeout`. -/
def TaskFn.RetryUntilTimeout (fn : TaskFn) (interval timeout : Nat) : TaskFn :=
  { fn with retryInterval := some interval, timeout := some timeout }

/-- Modelled from the spec: `flow.Task`, a named unit of work with a dependency set. -/
structure Task where
  Name : String
  Fn : TaskFn
  Dependencies : TaskIDs := []
  deriving Repr, DecidableEq

/-- Modelled from the spec: `flow.Graph`, the mutable builder, an append-only ordered
collection of tasks with the dependency edges declared at add-time. -/
structure Graph where
  name : String
  tasks : List Task := []
  deriving Repr, DecidableEq

/-- Modelled from the spec: `flow.NewGraph(name)` of `pkg/utils/flow`, the empty builder. -/
def NewGraph (name : String) : Graph := { name := name }

/-- Modelled from the spec: `g.Add(task)` appends the task and its edges to the internal
list of the builder and returns a fresh `TaskID`. -/
def Graph.Add (g : Graph) (task : Task) : TaskID × Graph :=
  (g.tasks.length, { g with tasks := g.tasks ++ [task] })

/-- Modelled from the spec: an argument of `flow.NewTaskIDs`, a single `TaskID` or a whole set of
them. -/
inductive TaskIDer where
  | id (t : TaskID)
  | ids (s : TaskIDs)
  deriving Repr, DecidableEq

instance : Coe TaskID TaskIDer := ⟨TaskIDer.id⟩
instance : Coe TaskIDs TaskIDer := ⟨TaskIDer.ids⟩

/-- Modelled from the spec: the `TaskID`s that one argument of `flow.NewTaskIDs` contributes. -/
def TaskIDer.TaskIDs : TaskIDer → TaskIDs
  | .id t => [t]
  | .ids s => s

/-- Modelled from the spec: the union of `TaskID` sets inside `flow.NewTaskIDs`, as the insertion of a
whole list into a duplicate-free list. -/
def insertAll (acc : TaskIDs) : TaskIDs → TaskIDs
  | [] => acc
  | t :: ts => insertAll (if t ∈ acc then acc else acc ++ [t]) ts

/-- Modelled from the spec: `flow.NewTaskIDs(ids...)`, a pure helper composing a dependency
set from prior results, including other sets. -/
def NewTaskIDs (ids : List TaskIDer) : TaskIDs :=
  ids.foldl (fun acc i => insertAll acc i.TaskIDs) []

/-- The direct dependency relation of a list of tasks: `DependsOn tasks t d` when the task issued the
identity `t` lists `d` in its dependency set. -/
def DependsOn (tasks : List Task) (t d : TaskID) : Prop :=
  ∃ task, tasks.get? t = some task ∧ d ∈ task.Dependencies

/-- Every dependency of every task was issued by an earlier `Add` on the same graph:
the task at position `i` only lists identities `d < i`. Checked along the list, `n` being
the number of tasks added before `ts`. -/
def depsIssuedEarlierFrom : Nat → List TaskIDs → Bool
  | _, [] => true
  | n, ds :: rest => ds.all (fun d => decide (d < n)) && depsIssuedEarlierFrom (n + 1) rest

/-- Every dependency of every task of `g` was returned by an earlier `Add` call on `g`. -/
def Graph.depsIssuedEarlier (g : Graph) : Bool :=
  depsIssuedEarlierFrom 0 (g.tasks.map (fun t => t.Dependencies))

end flow

/-! ## Errors -/

/-- An error value of the program; the Go type `error` is `Option Err`, `nil` being `none`. -/
inductive Err where
  /-- An ordinary error carrying a text, as made by `fmt.Errorf`. -/
  | message (text : String)
  /-- An API status error for which `apierrors.IsNotFound` holds. -/
  | notFound (text : String)
  /-- The Canceled signal made by `errors.Cancel()`. -/
  | cancelError
  /-- An error to which the sequential step runner attached the identifier of the failing step. -/
  | withID (id : String) (cause : Err)
  deriving Repr, DecidableEq

deriving instance DecidableEq for Except

/-- The method `Error()`: the text of an error. -/
def Err.Error : Err → String
  | .message text => text
  | .notFound text => text
  | .cancelError => "Canceled"
  | .withID _ cause => cause.Error

/-- `apierrors.IsNotFound(err)`. -/
def IsNotFound : Err → Bool
  | .notFound _ => true
  | _ => false

namespace flow

/-! ## The flow engine: compiler -/

/-- Modelled from the spec: the dependency set that a graph or flow of `pkg/utils/flow` keeps for the
task with identity `t`; empty when `t` was never issued. -/
def dependenciesOf (tasks : List Task) (t : TaskID) : TaskIDs :=
  match tasks.get? t with
  | some task => task.Dependencies
  | none => []

/-- Modelled from the spec: `flow.Flow`, the compiled immutable form of a graph: the validated
tasks plus, for each task, the computed set of its direct dependents (inverse edges). -/
structure Flow where
  name : String
  tasks : List Task
  dependents : List TaskIDs
  deriving Repr, DecidableEq

/-- Modelled from the spec: the construction-fatal errors of `Compile`. -/
inductive CompileError where
  /-- Task `task` lists the identity `dependency`, which does not exist in the graph. -/
  | unknownDependency (task dependency : TaskID)
  /-- The topological sort got stuck: the tasks outside `sorted` lie on or behind a cycle. -/
  | cyclicDependencies (sorted : List TaskID)
  deriving Repr, DecidableEq

/-- Modelled from the spec: check (a) of `Compile`, every dependency `TaskID` exists in the graph. The
result is the first dependency edge that names an identity not issued by the graph. -/
def danglingDependencyFrom (n : Nat) : Nat → List Task → Option (TaskID × TaskID)
  | _, [] => none
  | t, task :: rest =>
    match task.Dependencies.find? (fun d => decide (n ≤ d)) with
    | some d => some (t, d)
    | none => danglingDependencyFrom n (t + 1) rest

/-- Modelled from the spec: check (b) of `Compile`, one round of the topological sort. The result lists
the tasks that the sort can emit next: not yet sorted, every dependency already sorted. -/
def readyTasks (tasks : List Task) (sorted : List TaskID) : List TaskID :=
  (List.range tasks.length).filter
    (fun t => !sorted.contains t && (dependenciesOf tasks t).all (fun d => sorted.contains d))

/-- Modelled from the spec: check (b) of `Compile`, the topological sort, in rounds (Kahn): each round
appends the tasks all of whose dependencies are sorted already. -/
def topoSort (tasks : List Task) : Nat → List TaskID → List TaskID
  | 0, sorted => sorted
  | k + 1, sorted => topoSort tasks k (sorted ++ readyTasks tasks sorted)

/-- Modelled from the spec: the direct dependents (inverse edges) that `Compile` computes for `t`: the
tasks that list `t` in their dependency set. -/
def dependentsOf (tasks : List Task) (t : TaskID) : TaskIDs :=
  (List.range tasks.length).filter (fun u => (dependenciesOf tasks u).contains t)

/-- Modelled from the spec: `Compile(graph) -> (Flow, error)` validates that (a) every
dependency `TaskID` exists in the graph and (b) the dependency relation is acyclic, that is
the topological sort succeeds, and produces the flow with the dependents of every task. -/
def Graph.Compile (g : Graph) : Except CompileError Flow :=
  match danglingDependencyFrom g.tasks.length 0 g.tasks with
  | some (t, d) => .error (.unknownDependency t d)
  | none =>
    let sorted := topoSort g.tasks g.tasks.length []
    if sorted.length = g.tasks.length then
      .ok { name := g.name
            tasks := g.tasks
            dependents := (List.range g.tasks.length).map (dependentsOf g.tasks) }
    else
      .error (.cyclicDependencies sorted)

/-! ## The flow engine: executor -/

/-- Modelled from the spec: `ExecutionState`, per task and per run. -/
inductive ExecutionState where
  | Pending
  | Running
  | Succeeded
  | Skipped
  | Failed
  deriving Repr, DecidableEq

/-- Modelled from the spec: the terminal states of the executor, `Succeeded`, `Skipped` and `Failed`. -/
def ExecutionState.terminal : ExecutionState → Bool
  | .Succeeded => true
  | .Skipped => true
  | .Failed => true
  | _ => false

/-- Modelled from the spec: what an observer of a run of the executor sees, in the order in which it
happens. -/
inductive Event where
  /-- The unit of work `fn` of task `t` is invoked. -/
  | invoked (t : TaskID)
  /-- Task `t` reaches the terminal state `st`. -/
  | settled (t : TaskID) (st : ExecutionState)
  deriving Repr, DecidableEq

/-- Modelled from the spec: the state of one run of the executor, namely the `ExecutionState` of every
task, whether the run context was canceled, and the chronological trace of events. -/
structure RunState where
  state : TaskID → ExecutionState
  canceled : Bool
  trace : List Event

/-- Modelled from the spec: the start of a run of the executor, every task is created `Pending`. -/
def RunState.init : RunState :=
  { state := fun _ => .Pending, canceled := false, trace := [] }

/-- Modelled from the spec: the moves of the executor. Tasks are independent concurrent units of work,
so a run is an interleaving of these moves. -/
inductive Action where
  /-- The dispatch loop looks at task `t`. -/
  | dispatch (t : TaskID)
  /-- The unit of work of task `t` returns. -/
  | finish (t : TaskID)
  /-- The run context is canceled. -/
  | cancel
  deriving Repr, DecidableEq

/-- Modelled from the spec: policy (1) of the executor, whether the policies of task `t` say that it is
never invoked (`skipIf` true, or `doIf` false). -/
def skipsByPolicy (f : Flow) (t : TaskID) : Bool :=
  match f.tasks.get? t with
  | some task => task.Fn.skipIf || !task.Fn.doIf
  | none => false

/-- Modelled from the spec: the scheduling rule of the executor, a task becomes eligible to start the
instant every task in its dependency set has reached a terminal state. -/
def eligible (f : Flow) (s : RunState) (t : TaskID) : Bool :=
  decide (t < f.tasks.length) && decide (s.state t = .Pending) &&
    (dependenciesOf f.tasks t).all (fun d => (s.state d).terminal)

/-- Modelled from the spec: policies (1) and (2) of the executor, the task is marked `Skipped` without invoking its
unit of work if `skipIf` holds, if any dependency ended `Failed`, or if the run was canceled
before the task started. The spec adds that a failure prevents the execution of the skipped
descendants, without saying whether a task runs when a dependency of it was itself skipped
on account of a failure. Both readings are kept: with `skipDescendants` a dependency that is
`Skipped` although its own policy did not ask for it forces the skip as well, without it
only a `Failed` dependency does. -/
def mustSkip (skipDescendants : Bool) (f : Flow) (s : RunState) (t : TaskID) : Bool :=
  skipsByPolicy f t ||
    (dependenciesOf f.tasks t).any (fun d =>
      decide (s.state d = .Failed) ||
        (skipDescendants && decide (s.state d = .Skipped) && !skipsByPolicy f d))
    || s.canceled

/-- Modelled from the spec: policy (3) of the executor, the state in which `fn` leaves its task:
`outcome t` is what the unit of work of `t` finally returns (after the retries and within
the timeout that its policy asks for), `none` meaning success. -/
def settledState (outcome : TaskID → Option Err) (t : TaskID) : ExecutionState :=
  match outcome t with
  | none => .Succeeded
  | some _ => .Failed

/-- Modelled from the spec: one move of the executor. A move that is not enabled leaves
the state unchanged. -/
def step (skipDescendants : Bool) (f : Flow) (outcome : TaskID → Option Err) (s : RunState) :
    Action → RunState
  | .dispatch t =>
    if eligible f s t then
      if mustSkip skipDescendants f s t then
        { s with state := Function.update s.state t .Skipped
                 trace := s.trace ++ [.settled t .Skipped] }
      else
        { s with state := Function.update s.state t .Running
                 trace := s.trace ++ [.invoked t] }
    else s
  | .finish t =>
    if s.state t = .Running then
      { s with state := Function.update s.state t (settledState outcome t)
               trace := s.trace ++ [.settled t (settledState outcome t)] }
    else s
  | .cancel => { s with canceled := true }

/-- Modelled from the spec: a run of the executor, the state reached by a schedule of moves started with
every task `Pending`. -/
def exec (skipDescendants : Bool) (f : Flow) (outcome : TaskID → Option Err)
    (schedule : List Action) : RunState :=
  schedule.foldl (step skipDescendants f outcome) RunState.init

/-- Modelled from the spec: completion of a run of the executor, the run as a whole completes only once
every task has reached a terminal state. -/
def RunState.completed (f : Flow) (s : RunState) : Bool :=
  (List.range f.tasks.length).all (fun t => (s.state t).terminal)

/-- Modelled from the spec: the name under which the executor reports task `t`. -/
def taskName (f : Flow) (t : TaskID) : String :=
  match f.tasks.get? t with
  | some task => task.Name
  | none => ""

/-- Modelled from the spec: the result of a run. -/
inductive RunResult where
  /-- No task failed (empty aggregate). -/
  | success
  /-- The aggregate of the errors of the `Failed` tasks, each with the name of its task. -/
  | aggregate (errors : List (String × Err))
  /-- The run was canceled, which is reported distinctly from failure. -/
  | canceled
  deriving Repr, DecidableEq

/-- Modelled from the spec: the failures that the executor aggregates, the errors of the tasks that ended
`Failed`, in the order of the tasks. -/
def RunState.failures (f : Flow) (outcome : TaskID → Option Err) (s : RunState) :
    List (String × Err) :=
  (List.range f.tasks.length).filterMap (fun t =>
    if s.state t = .Failed then (outcome t).map (fun e => (taskName f t, e)) else none)

/-- Modelled from the spec: the final result of a run is the aggregate of the errors of all
`Failed` tasks (empty aggregate means success), unless the run was canceled. -/
def RunState.result (f : Flow) (outcome : TaskID → Option Err) (s : RunState) : RunResult :=
  if s.canceled then .canceled
  else
    match s.failures f outcome with
    | [] => .success
    | errs => .aggregate errs

/-- Modelled from the spec: a sequential schedule of the executor, the tasks in topological order, each
dispatched and then, if it was started, finished. -/
def Flow.schedule (f : Flow) : List Action :=
  (topoSort f.tasks f.tasks.length []).flatMap (fun t => [Action.dispatch t, Action.finish t])

/-- Modelled from the spec: `Run(flow, options)` under the sequential schedule, with no
cancellation of the run context. -/
def Flow.Run (f : Flow) (skipDescendants : Bool) (outcome : TaskID → Option Err) : RunState :=
  exec skipDescendants f outcome f.schedule

/-- The invariant of the executor, kept by every move: a terminal state is logged in the
trace; an invocation in the trace comes after the settling of every dependency; a task that
was started is not skipped by policy and has only succeeded or skipped dependencies; a
skipped task was never invoked and has a reason to be skipped: its policy, the cancellation
of the run, or a failed task on which it depends, directly or through other tasks; the
final state of a task agrees with what its unit of work returned; a pending task was never
invoked. -/
structure Inv (f : Flow) (outcome : TaskID → Option Err) (s : RunState) : Prop where
  settled_logged : ∀ t, (s.state t).terminal = true → Event.settled t (s.state t) ∈ s.trace
  never_early : ∀ pre post t, s.trace = pre ++ Event.invoked t :: post →
    ∀ d ∈ dependenciesOf f.tasks t, ∃ st, st.terminal = true ∧ Event.settled d st ∈ pre
  started : ∀ t, (s.state t = .Running ∨ s.state t = .Succeeded ∨ s.state t = .Failed) →
    skipsByPolicy f t = false ∧
      ∀ d ∈ dependenciesOf f.tasks t, s.state d = .Succeeded ∨ s.state d = .Skipped
  skipped : ∀ t, s.state t = .Skipped → Event.invoked t ∉ s.trace ∧
    (skipsByPolicy f t = true ∨ s.canceled = true ∨
      ∃ failed, s.state failed = .Failed ∧ Relation.TransGen (DependsOn f.tasks) t failed)
  outcome_ok : ∀ t, (s.state t = .Succeeded → outcome t = none) ∧
    (s.state t = .Failed → outcome t ≠ none)
  pending : ∀ t, s.state t = .Pending → Event.invoked t ∉ s.trace

/-- The example graph of the ordering property: `A` without dependencies, `B` and `C`
depending on `A`, and `D` depending on `B` and `C`. -/
def diamondGraph : Graph :=
  { name := "diamond"
    tasks := [ { Name := "A", Fn := mkTaskFn "a" },
               { Name := "B", Fn := mkTaskFn "b", Dependencies := [0] },
               { Name := "C", Fn := mkTaskFn "c", Dependencies := [0] },
               { Name := "D", Fn := mkTaskFn "d", Dependencies := [1, 2] } ] }

/-- The flow that `Compile` makes of `diamondGraph`. -/
def diamondFlow : Flow :=
  { name := "diamond", tasks := diamondGraph.tasks, dependents := [[1, 2], [3], [3], []] }

/-- A graph with a cycle: `A` depends on `B` and `B` on `A`; `C` is independent. -/
def cyclicGraph : Graph :=
  { name := "cyclic"
    tasks := [ { Name := "A", Fn := mkTaskFn "a", Dependencies := [1] },
               { Name := "B", Fn := mkTaskFn "b", Dependencies := [0] },
               { Name := "C", Fn := mkTaskFn "c" } ] }

/-- A graph whose only task depends on itself. -/
def selfDependentGraph : Graph :=
  { name := "self", tasks := [ { Name := "A", Fn := mkTaskFn "a", Dependencies := [0] } ] }

/-- The example graph of independent progress under failure: `B` depends on `A`, and `C`
has no dependency relation to `A`. -/
def branchGraph : Graph :=
  { name := "branches"
    tasks := [ { Name := "A", Fn := mkTaskFn "a" },
               { Name := "B", Fn := mkTaskFn "b", Dependencies := [0] },
               { Name := "C", Fn := mkTaskFn "c" } ] }

/-- The flow that `Compile` makes of `branchGraph`. -/
def branchFlow : Flow :=
  { name := "branches", tasks := branchGraph.tasks, dependents := [[1], [], []] }

/-- Task `A` (identity 0) fails, every other unit of work succeeds. -/
def onlyFirstFails (t : TaskID) : Option Err :=
  if t = 0 then some (.message "boom") else none

end flow

/-! ## The sequential step runner (`pkg/utils/errors`) -/

namespace errors

/-- Modelled from the spec: `errors.Cancel()`, the deliberate, non-error early exit signal. -/
def Cancel : Err := .cancelError

/-- Modelled from the spec: `errors.WasCanceled(err)` tests whether the error is, or
contains, a Canceled signal. -/
def WasCanceled : Err → Bool
  | .cancelError => true
  | .withID _ cause => WasCanceled cause
  | _ => false

/-- Modelled from the spec: `ErrorContext`, the memory of the error identifiers that earlier
invocations of a sequential routine recorded as failing. -/
structure ErrorContext where
  name : String
  lastErrorIDs : List String := []
  deriving Repr, DecidableEq

/-- Modelled from the spec: a named step of a sequential routine, as made by `errors.ToExecute(name, fn)`
of `pkg/utils/errors`. The step reads and writes the variables `σ` that the closures of the
routine capture. -/
structure TaskFunc (σ : Type) where
  name : String
  fn : σ → Option Err × σ

/-- Modelled from the spec: `errors.ToExecute(name, fn)` of `pkg/utils/errors`. -/
def ToExecute {σ : Type} (name : String) (fn : σ → Option Err × σ) : TaskFunc σ :=
  { name := name, fn := fn }

/-- Modelled from the spec: what a call of `errors.HandleErrors` leaves behind, namely the returned
error, the updated error context, the captured variables, and the identifiers for which the
two callbacks ran. -/
structure Handled (σ : Type) where
  err : Option Err
  errorContext : ErrorContext
  vars : σ
  newErrorIDs : List String := []
  resolvedErrorIDs : List String := []

/-- Modelled from the spec: the sequential step runner `errors.HandleErrors`. Steps run in
order. A Canceled signal from a step stops the sequence immediately, is handed back as it
is and records no identifier. Any other error of a step stops the sequence, records the
identifier of the step (its name) in the error context, notifies the failure callback and
is returned wrapped with the identifier. A step that succeeds although its identifier was
recorded as failing notifies the success callback and clears the record. -/
def HandleErrors {σ : Type} (errorContext : ErrorContext) :
    List (TaskFunc σ) → σ → Handled σ
  | [], vars => { err := none, errorContext := errorContext, vars := vars }
  | step :: rest, vars =>
    match step.fn vars with
    | (some e, vars) =>
      if WasCanceled e then
        { err := some e, errorContext := errorContext, vars := vars }
      else
        { err := some (.withID step.name e)
          errorContext := { errorContext with
            lastErrorIDs := if step.name ∈ errorContext.lastErrorIDs then errorContext.lastErrorIDs
                            else errorContext.lastErrorIDs ++ [step.name] }
          vars := vars
          newErrorIDs := [step.name] }
    | (none, vars) =>
      if step.name ∈ errorContext.lastErrorIDs then
        let r := HandleErrors
          { errorContext with lastErrorIDs := errorContext.lastErrorIDs.erase step.name } rest vars
        { r with resolvedErrorIDs := step.name :: r.resolvedErrorIDs }
      else
        HandleErrors errorContext rest vars

end errors

/-! ## The retry helpers (`pkg/utils/retry`) -/

namespace retry

/-- The result `(done bool, err error)` of a function polled by `retry.UntilTimeout`, as the
closures in the source return it. -/
abbrev Result := Bool × Option Err

/-- Modelled from the spec: `retry.Ok()`, success, the loop is done. -/
def Ok : Result := (true, none)

/-- Modelled from the spec: `retry.NotOk()`, not done yet and nothing to report. -/
def NotOk : Result := (false, none)

/-- Modelled from the spec: `retry.SevereError(err)`, the operation cannot succeed by
retrying, the loop is done and fails with `err`. -/
def SevereError (err : Err) : Result := (true, some err)

/-- Modelled from the spec: `retry.MinorError(err)`, a transient failure, the loop goes on. -/
def MinorError (err : Err) : Result := (false, some err)

/-- Modelled from the spec: the polled function reports success, the result of `retry.Ok()`. -/
def Result.isOk (r : Result) : Bool := r.1 && r.2.isNone

/-- Modelled from the spec: the polled function reports a Severe error, a result of
`retry.SevereError`. -/
def Result.isSevere (r : Result) : Bool := r.1 && r.2.isSome

/-- Modelled from the spec: the polled function reports a Minor error, a result of `retry.MinorError`. -/
def Result.isMinor (r : Result) : Bool := !r.1 && r.2.isSome

/-- Modelled from the spec: `retry.UntilTimeout(ctx, interval, timeout, f)` calls `f`
repeatedly until it is done or the deadline has passed. `inputs` lists what the successive
calls of `f` observe before the deadline, `vars` are the variables that `f` captures and
`lastErr` is the last error observed so far. A done result ends the loop at once with its
error (none for success); when the deadline passes, the loop fails with a timeout error
that reports the last observed error. -/
def UntilTimeout {ι σ : Type} (f : ι → σ → Result × σ) : List ι → σ → Option Err → Option Err × σ
  | [], vars, lastErr =>
    match lastErr with
    | some e => (some (.message ("retry failed with context deadline exceeded, last error: " ++ e.Error)),
        vars)
    | none => (some (.message "retry failed with context deadline exceeded"), vars)
  | input :: rest, vars, lastErr =>
    match f input vars with
    | ((true, err), vars) => (err, vars)
    | ((false, err), vars) => UntilTimeout f rest vars (if err.isSome then err else lastErr)

end retry

/-! ## `Botanist.WaitUntilInfrastructureDeleted` -/

/-- The type `gardencorev1alpha1.LastError`, of which only the description is read here. -/
structure LastError where
  Description : String
  deriving Repr, DecidableEq

/-- The `Infrastructure` extension resource, of which only `Status.LastError` is read here. -/
structure Infrastructure where
  StatusLastError : Option LastError := none
  deriving Repr, DecidableEq

/-- The helpers of other packages that `WaitUntilInfrastructureDeleted` calls; their code is
not embedded, so they are parameters. `WrapWithLastError` is `common.WrapWithLastError(err,
lastError)`, applied to a non-nil error; `DetermineError` is the helper
`DetermineError(message)` of the API helper package. Both give an error value. -/
structure InfrastructureHelpers where
  WrapWithLastError : Err → Option LastError → Err
  DetermineError : String → Err

/-- Sample helpers: the wrapped error is the error itself, and the determined error holds
the message. -/
def sampleInfrastructureHelpers : InfrastructureHelpers :=
  { WrapWithLastError := fun err _ => err, DetermineError := Err.message }

/-- The function polled by `WaitUntilInfrastructureDeleted` (lines 124-140). `get` is the
outcome of `b.K8sSeedClient.Client().Get` for the infrastructure resource: an error, or the
resource found. `lastError` is the captured variable of that name; the function returns its
result together with the new value of `lastError`. -/
def waitUntilInfrastructureDeletedPoll (helpers : InfrastructureHelpers)
    (get : Except Err Infrastructure) (lastError : Option LastError) :
    retry.Result × Option LastError :=
  match get with
  | .error err =>
    if IsNotFound err then
      (retry.Ok, lastError)
    else
      (retry.SevereError err, lastError)
  | .ok infrastructure =>
    let lastError :=
      match infrastructure.StatusLastError with
      | some lastErr => some lastErr
      | none => lastError
    (retry.MinorError
        (helpers.WrapWithLastError (.message "infrastructure is still present") lastError),
      lastError)

/-- `Botanist.WaitUntilInfrastructureDeleted` (lines 121-149). `gets` lists the outcomes of
the successive `Get` calls for the infrastructure resource that fit before the timeout. -/
def WaitUntilInfrastructureDeleted (helpers : InfrastructureHelpers)
    (gets : List (Except Err Infrastructure)) : Option Err :=
  match retry.UntilTimeout (waitUntilInfrastructureDeletedPoll helpers) gets none none with
  | (some err, lastError) =>
    let message := "Failed to delete infrastructure"
    match lastError with
    | some lastError => some (helpers.DetermineError (message ++ ": " ++ lastError.Description))
    | none => some (helpers.DetermineError (message ++ ": " ++ err.Error))
  | (none, _) => none

/-- The value of the captured variable `lastError` of `WaitUntilInfrastructureDeleted` after
polls that found the resources `found`, in this order, when it was `lastError` before: the
last `Status.LastError` that was set, and the value before when none was. -/
def lastErrorAfter : List Infrastructure → Option LastError → Option LastError
  | [], lastError => lastError
  | infrastructure :: rest, lastError =>
    lastErrorAfter rest
      (match infrastructure.StatusLastError with
       | some lastErr => some lastErr
       | none => lastError)

/-! ## `runDeleteShootFlow`: the task graph -/

/-- The values that `runDeleteShootFlow` has computed when it starts to build the graph. -/
structure DeleteFlowInputs where
  shootNamespaceInDeletion : Bool
  kubeAPIServerDeploymentFound : Bool
  kubeControllerManagerDeploymentFound : Bool
  controlPlaneDeploymentNeeded : Bool
  workerDeploymentNeeded : Bool
  /-- The expression `namespace.Status.Phase != corev1.NamespaceTerminating`. -/
  nonTerminatingNamespace : Bool
  /-- The expression `!TaintsHave(botanist.Seed.Info.Spec.Taints, SeedTaintDisableDNS)`. -/
  dnsEnabled : Bool
  /-- The field `o.Shoot.Info.Status.IsHibernated`. -/
  isHibernated : Bool
  /-- The field `o.Shoot.HibernationEnabled`. -/
  hibernationEnabled : Bool
  /-- Whether the shoot carries the annotation that asks to skip the cleanup (the call of
  `HasAnnotation` of `metav1` with `AnnotationShootSkipCleanup`). -/
  skipCleanupAnnotated : Bool
  deriving Repr, DecidableEq

/-- What the `var (...)` block of `runDeleteShootFlow` (lines 176-443) builds: the graph, the
three sync-point sets and the identities of the tasks added right after each sync point. -/
structure DeleteFlowGraph where
  g : flow.Graph
  syncPointReadyForCleanup : flow.TaskIDs
  cleanKubernetesResources : flow.TaskID
  syncPointCleaned : flow.TaskIDs
  destroyControlPlane : flow.TaskID
  syncPoint : flow.TaskIDs
  destroyInternalDomainDNSRecord : flow.TaskID
  deriving Repr, DecidableEq

open flow in
/-- The graph construction of `runDeleteShootFlow` (lines 176-441), one `Add` per task in
source order. Durations are written in seconds. -/
def deleteShootFlowGraph (i : DeleteFlowInputs) : DeleteFlowGraph :=
  let shootNamespaceInDeletion := i.shootNamespaceInDeletion
  let kubeControllerManagerDeploymentFound := i.kubeControllerManagerDeploymentFound
  let controlPlaneDeploymentNeeded := i.controlPlaneDeploymentNeeded
  let workerDeploymentNeeded := i.workerDeploymentNeeded
  let cleanupShootResources := i.nonTerminatingNamespace && i.kubeAPIServerDeploymentFound
  let defaultInterval := 5
  let defaultTimeout := 30
  let dnsEnabled := i.dnsEnabled
  let g := NewGraph "Shoot cluster deletion"
  let (syncClusterResourceToSeed, g) := g.Add {
    Name := "Syncing shoot cluster information to seed"
    Fn := (mkTaskFn "botanist.SyncClusterResourceToSeed").RetryUntilTimeout defaultInterval defaultTimeout }
  let (deployCloudProviderSecret, g) := g.Add {
    Name := "Deploying cloud provider account secret"
    Fn := (mkTaskFn "botanist.DeployCloudProviderSecret").SkipIf shootNamespaceInDeletion
    Dependencies := NewTaskIDs [syncClusterResourceToSeed] }
  let (deploySecrets, g) := g.Add {
    Name := "Deploying Shoot certificates / keys"
    Fn := (mkTaskFn "botanist.DeploySecrets").SkipIf shootNamespaceInDeletion }
  let (deployControlPlane, g) := g.Add {
    Name := "Deploying Shoot control plane"
    Fn := ((mkTaskFn "botanist.DeployControlPlane").RetryUntilTimeout defaultInterval defaultTimeout).DoIf
      (cleanupShootResources && controlPlaneDeploymentNeeded && !shootNamespaceInDeletion)
    Dependencies := NewTaskIDs [deploySecrets, deployCloudProviderSecret, syncClusterResourceToSeed] }
  let (waitUntilControlPlaneReady, g) := g.Add {
    Name := "Waiting until Shoot control plane has been reconciled"
    Fn := (mkTaskFn "botanist.WaitUntilControlPlaneReady").DoIf
      (cleanupShootResources && controlPlaneDeploymentNeeded && !shootNamespaceInDeletion)
    Dependencies := NewTaskIDs [deployControlPlane] }
  let (wakeUpControlPlane, g) := g.Add {
    Name := "Waking up control plane to ensure proper cleanup of resources"
    Fn := (mkTaskFn "botanist.WakeUpControlPlane").DoIf
      ((i.isHibernated || (!i.isHibernated && i.hibernationEnabled)) && cleanupShootResources)
    Dependencies := NewTaskIDs [syncClusterResourceToSeed, waitUntilControlPlaneReady] }
  let (waitUntilKubeAPIServerIsReady, g) := g.Add {
    Name := "Waiting until Kubernetes API server reports readiness"
    Fn := (mkTaskFn "botanist.WaitUntilKubeAPIServerReady").DoIf cleanupShootResources
    Dependencies := NewTaskIDs [wakeUpControlPlane] }
  let (initializeShootClients, g) := g.Add {
    Name := "Initializing connection to Shoot"
    Fn := ((mkTaskFn "botanist.InitializeShootClients").DoIf cleanupShootResources).RetryUntilTimeout
      defaultInterval (2 * 60)
    Dependencies := NewTaskIDs [deployCloudProviderSecret, waitUntilKubeAPIServerIsReady] }
  let (computeShootOSConfig, g) := g.Add {
    Name := "Computing operating system specific configuration for shoot workers"
    Fn := ((mkTaskFn "botanist.ComputeShootOperatingSystemConfig").RetryUntilTimeout defaultInterval
      defaultTimeout).DoIf (cleanupShootResources && workerDeploymentNeeded && !shootNamespaceInDeletion)
    Dependencies := NewTaskIDs [deploySecrets, waitUntilControlPlaneReady, initializeShootClients] }
  let (deployWorker, g) := g.Add {
    Name := "Configuring shoot worker pools"
    Fn := ((mkTaskFn "botanist.DeployWorker").RetryUntilTimeout defaultInterval defaultTimeout).DoIf
      (cleanupShootResources && workerDeploymentNeeded && !shootNamespaceInDeletion)
    Dependencies := NewTaskIDs [deploySecrets, deployCloudProviderSecret, initializeShootClients,
      computeShootOSConfig] }
  let (deployKubeControllerManager, g) := g.Add {
    Name := "Deploying Kubernetes controller manager"
    Fn := ((mkTaskFn "botanist.DeployKubeControllerManager").DoIf
      (cleanupShootResources && kubeControllerManagerDeploymentFound
        && !shootNamespaceInDeletion)).RetryUntilTimeout defaultInterval defaultTimeout
    Dependencies := NewTaskIDs [deploySecrets, deployCloudProviderSecret, waitUntilControlPlaneReady,
      initializeShootClients] }
  let (deleteSeedMonitoring, g) := g.Add {
    Name := "Deleting shoot monitoring stack in Seed"
    Fn := (mkTaskFn "botanist.DeleteSeedMonitoring").RetryUntilTimeout defaultInterval defaultTimeout
    Dependencies := NewTaskIDs [initializeShootClients] }
  let (deleteClusterAutoscaler, g) := g.Add {
    Name := "Deleting cluster autoscaler"
    Fn := (mkTaskFn "botanist.DeleteClusterAutoscaler").RetryUntilTimeout defaultInterval defaultTimeout
    Dependencies := NewTaskIDs [initializeShootClients] }
  let (cleanupWebhooks, g) := g.Add {
    Name := "Cleaning up webhooks"
    Fn := ((mkTaskFn "botanist.CleanWebhooks").Timeout (10 * 60)).DoIf cleanupShootResources
    Dependencies := NewTaskIDs [initializeShootClients, wakeUpControlPlane] }
  let (waitForControllersToBeActive, g) := g.Add {
    Name := "Waiting until kube-controller-manager is active"
    Fn := ((mkTaskFn "botanist.WaitForControllersToBeActive").DoIf cleanupShootResources).RetryUntilTimeout
      defaultInterval defaultTimeout
    Dependencies := NewTaskIDs [initializeShootClients, cleanupWebhooks, deployControlPlane,
      deployKubeControllerManager] }
  let (cleanExtendedAPIs, g) := g.Add {
    Name := "Cleaning extended API groups"
    Fn := ((mkTaskFn "botanist.CleanExtendedAPIs").Timeout (10 * 60)).DoIf
      (cleanupShootResources && !i.skipCleanupAnnotated)
    Dependencies := NewTaskIDs [initializeShootClients, deleteClusterAutoscaler,
      waitForControllersToBeActive] }
  let syncPointReadyForCleanup := NewTaskIDs [
    initializeShootClients,
    cleanExtendedAPIs,
    deployControlPlane,
    deployWorker,
    deployKubeControllerManager,
    waitForControllersToBeActive]
  let (cleanKubernetesResources, g) := g.Add {
    Name := "Cleaning Kubernetes resources"
    Fn := ((mkTaskFn "botanist.CleanKubernetesResources").Timeout (10 * 60)).DoIf cleanupShootResources
    Dependencies := NewTaskIDs [syncPointReadyForCleanup] }
  let (cleanShootNamespaces, g) := g.Add {
    Name := "Cleaning shoot namespaces"
    Fn := ((mkTaskFn "botanist.CleanShootNamespaces").Timeout (10 * 60)).DoIf cleanupShootResources
    Dependencies := NewTaskIDs [cleanKubernetesResources] }
  let (destroyNetwork, g) := g.Add {
    Name := "Destroying shoot network plugin"
    Fn := (mkTaskFn "botanist.DestroyNetwork").RetryUntilTimeout defaultInterval defaultTimeout
    Dependencies := NewTaskIDs [cleanShootNamespaces] }
  let (waitUntilNetworkIsDestroyed, g) := g.Add {
    Name := "Waiting until shoot network plugin has been destroyed"
    Fn := mkTaskFn "botanist.WaitUntilNetworkIsDeleted"
    Dependencies := NewTaskIDs [destroyNetwork] }
  let (destroyWorker, g) := g.Add {
    Name := "Destroying shoot workers"
    Fn := (mkTaskFn "botanist.DestroyWorker").RetryUntilTimeout defaultInterval defaultTimeout
    Dependencies := NewTaskIDs [cleanShootNamespaces] }
  let (waitUntilWorkerDeleted, g) := g.Add {
    Name := "Waiting until shoot worker nodes have been terminated"
    Fn := mkTaskFn "botanist.WaitUntilWorkerDeleted"
    Dependencies := NewTaskIDs [destroyWorker] }
  let (deleteManagedResources, g) := g.Add {
    Name := "Deleting managed resources"
    Fn := ((mkTaskFn "botanist.DeleteManagedResources").DoIf cleanupShootResources).RetryUntilTimeout
      defaultInterval defaultTimeout
    Dependencies := NewTaskIDs [cleanShootNamespaces, waitUntilWorkerDeleted] }
  let (waitUntilManagedResourcesDeleted, g) := g.Add {
    Name := "Waiting until managed resources have been deleted"
    Fn := ((mkTaskFn "botanist.WaitUntilManagedResourcesDeleted").DoIf cleanupShootResources).Timeout
      (10 * 60)
    Dependencies := NewTaskIDs [deleteManagedResources] }
  let (deleteExtensionResources, g) := g.Add {
    Name := "Deleting extension resources"
    Fn := (mkTaskFn "botanist.DeleteExtensionResources").RetryUntilTimeout defaultInterval defaultTimeout
    Dependencies := NewTaskIDs [cleanKubernetesResources, waitUntilManagedResourcesDeleted] }
  let (waitUntilExtensionResourcesDeleted, g) := g.Add {
    Name := "Waiting until extension resources have been deleted"
    Fn := mkTaskFn "botanist.WaitUntilExtensionResourcesDeleted"
    Dependencies := NewTaskIDs [deleteExtensionResources] }
  let (timeForInfrastructureResourceCleanup, g) := g.Add {
    Name := "Waiting until time for infrastructure resource cleanup has elapsed"
    Fn := (mkTaskFn "wait for ctx.Done() with a timeout of 5 minutes").DoIf cleanupShootResources
    Dependencies := NewTaskIDs [deleteManagedResources] }
  let syncPointCleaned := NewTaskIDs [
    cleanupWebhooks,
    cleanExtendedAPIs,
    cleanKubernetesResources,
    cleanShootNamespaces,
    waitUntilWorkerDeleted,
    waitUntilManagedResourcesDeleted,
    timeForInfrastructureResourceCleanup,
    destroyNetwork,
    waitUntilNetworkIsDestroyed,
    waitUntilExtensionResourcesDeleted]
  let (destroyControlPlane, g) := g.Add {
    Name := "Destroying shoot control plane"
    Fn := (mkTaskFn "botanist.DestroyControlPlane").RetryUntilTimeout defaultInterval defaultTimeout
    Dependencies := NewTaskIDs [syncPointCleaned] }
  let (waitUntilControlPlaneDeleted, g) := g.Add {
    Name := "Waiting until shoot control plane has been destroyed"
    Fn := mkTaskFn "botanist.WaitUntilControlPlaneDeleted"
    Dependencies := NewTaskIDs [destroyControlPlane] }
  let (deleteKubeAPIServer, g) := g.Add {
    Name := "Deleting Kubernetes API server"
    Fn := (mkTaskFn "botanist.DeleteKubeAPIServer").Retry defaultInterval
    Dependencies := NewTaskIDs [syncPointCleaned, waitUntilControlPlaneDeleted] }
  let (destroyControlPlaneExposure, g) := g.Add {
    Name := "Destroying shoot control plane exposure"
    Fn := mkTaskFn "botanist.DestroyControlPlaneExposure"
    Dependencies := NewTaskIDs [deleteKubeAPIServer] }
  let (waitUntilControlPlaneExposureDeleted, g) := g.Add {
    Name := "Waiting until shoot control plane exposure has been destroyed"
    Fn := mkTaskFn "botanist.WaitUntilControlPlaneExposureDeleted"
    Dependencies := NewTaskIDs [destroyControlPlaneExposure] }
  let (destroyNginxIngressDNSRecord, g) := g.Add {
    Name := "Destroying ingress DNS record"
    Fn := (mkTaskFn "botanist.DestroyIngressDNSRecord").DoIf dnsEnabled
    Dependencies := NewTaskIDs [syncPointCleaned] }
  let (destroyInfrastructure, g) := g.Add {
    Name := "Destroying shoot infrastructure"
    Fn := (mkTaskFn "botanist.DestroyInfrastructure").RetryUntilTimeout defaultInterval defaultTimeout
    Dependencies := NewTaskIDs [syncPointCleaned, waitUntilControlPlaneDeleted] }
  let (waitUntilInfrastructureDeleted, g) := g.Add {
    Name := "Waiting until shoot infrastructure has been destroyed"
    Fn := mkTaskFn "botanist.WaitUntilInfrastructureDeleted"
    Dependencies := NewTaskIDs [destroyInfrastructure] }
  let (destroyExternalDomainDNSRecord, g) := g.Add {
    Name := "Destroying external domain DNS record"
    Fn := (mkTaskFn "botanist.DestroyExternalDomainDNSRecord").DoIf dnsEnabled
    Dependencies := NewTaskIDs [syncPointCleaned] }
  let syncPoint := NewTaskIDs [
    deleteSeedMonitoring,
    deleteKubeAPIServer,
    waitUntilControlPlaneDeleted,
    waitUntilControlPlaneExposureDeleted,
    destroyNginxIngressDNSRecord,
    destroyExternalDomainDNSRecord,
    waitUntilInfrastructureDeleted]
  let (destroyInternalDomainDNSRecord, g) := g.Add {
    Name := "Destroying internal domain DNS record"
    Fn := (mkTaskFn "botanist.DestroyInternalDomainDNSRecord").DoIf dnsEnabled
    Dependencies := NewTaskIDs [syncPoint] }
  let (deleteNamespace, g) := g.Add {
    Name := "Deleting shoot namespace in Seed"
    Fn := (mkTaskFn "botanist.DeleteNamespace").Retry defaultInterval
    Dependencies := NewTaskIDs [syncPoint, destroyInternalDomainDNSRecord, deleteKubeAPIServer] }
  let (_, g) := g.Add {
    Name := "Waiting until shoot namespace in Seed has been deleted"
    Fn := mkTaskFn "botanist.WaitUntilSeedNamespaceDeleted"
    Dependencies := NewTaskIDs [deleteNamespace] }
  { g := g
    syncPointReadyForCleanup := syncPointReadyForCleanup
    cleanKubernetesResources := cleanKubernetesResources
    syncPointCleaned := syncPointCleaned
    destroyControlPlane := destroyControlPlane
    syncPoint := syncPoint
    destroyInternalDomainDNSRecord := destroyInternalDomainDNSRecord }

/-- Sample values of the conditions computed by `runDeleteShootFlow`: a shoot that is neither
hibernated nor in deletion of its namespace, with every cleanup step needed. -/
def sampleDeleteFlowInputs : DeleteFlowInputs :=
  { shootNamespaceInDeletion := false
    kubeAPIServerDeploymentFound := true
    kubeControllerManagerDeploymentFound := true
    controlPlaneDeploymentNeeded := true
    workerDeploymentNeeded := true
    nonTerminatingNamespace := true
    dnsEnabled := true
    isHibernated := false
    hibernationEnabled := false
    skipCleanupAnnotated := false }

/-- The flow that `Compile` makes of the deletion graph built for `sampleDeleteFlowInputs`. -/
def sampleDeleteFlow : flow.Flow :=
  { name := (deleteShootFlowGraph sampleDeleteFlowInputs).g.name
    tasks := (deleteShootFlowGraph sampleDeleteFlowInputs).g.tasks
    dependents :=
      (List.range (deleteShootFlowGraph sampleDeleteFlowInputs).g.tasks.length).map
        (flow.dependentsOf (deleteShootFlowGraph sampleDeleteFlowInputs).g.tasks) }

/-- The task "Cleaning Kubernetes resources" (identity 16) fails, every other unit of work of
the deletion flow succeeds. -/
def cleanKubernetesResourcesFails (t : flow.TaskID) : Option Err :=
  if t = 16 then some (.message "timeout") else none

/-! ## `runDeleteShootFlow`: the preliminary routine and the result -/

/-- The `corev1.Namespace` object, of which the deletion timestamp and the phase are read. -/
structure Namespace where
  /-- Whether `DeletionTimestamp != nil`. -/
  HasDeletionTimestamp : Bool := false
  /-- Whether `Status.Phase == corev1.NamespaceTerminating`. -/
  Terminating : Bool := false
  deriving Repr, DecidableEq

/-- The `appsv1.Deployment` object, of which only the deletion timestamp is read. -/
structure Deployment where
  /-- Whether `DeletionTimestamp != nil`. -/
  HasDeletionTimestamp : Bool := false
  deriving Repr, DecidableEq

/-- Everything that `runDeleteShootFlow` observes from outside: the outcomes of the calls to
the seed and garden clusters, the fields of the operation that it reads, and the outcome of
compiling and running the flow. An outcome of a `Get` is its error (`none` for success) or,
where the object is read afterwards, the error or the object. -/
structure DeleteShootEnv where
  /-- The errors of the successive calls of `botanistpkg.New(o)` before the timeout. -/
  newBotanist : List (Option Err)
  /-- The result of `botanist.RequiredExtensionsExist()`. -/
  requiredExtensionsExist : Option Err
  /-- The `Get` of the shoot namespace in the seed cluster. -/
  getNamespace : Except Err Namespace
  /-- Whether `o.ShootedSeed != nil`. -/
  hasShootedSeed : Bool
  /-- The `Get` of the `Seed` object with the name of the shoot. -/
  getSeed : Option Err
  /-- Whether `o.Shoot.Info.Namespace == GardenNamespace`. -/
  inGardenNamespace : Bool
  /-- The errors of the successive `Seeds().Get` calls while waiting for the seed deletion. -/
  getSeedPolls : List (Option Err)
  /-- The `Get` of the kube-apiserver deployment. -/
  getKubeAPIServer : Except Err Deployment
  /-- The `Get` of the kube-controller-manager deployment. -/
  getKubeControllerManager : Except Err Deployment
  /-- The `Get` of the `ControlPlane` extension resource. -/
  getControlPlane : Option Err
  /-- The `Get` of the `Infrastructure` resource; on success whether its provider status is
  not nil. -/
  getInfrastructure : Except Err Bool
  /-- The `Get` of the `Worker` extension resource. -/
  getWorker : Option Err
  dnsEnabled : Bool
  isHibernated : Bool
  hibernationEnabled : Bool
  skipCleanupAnnotated : Bool
  /-- The helper `FormatLastErrDescription`. -/
  formatLastErrDescription : Err → String
  /-- The error of `g.Compile()` followed by `f.Run(opts)` on the graph built. -/
  runFlow : flow.Graph → Option Err

/-- The variables declared at the top of `runDeleteShootFlow` (lines 49-58) that the steps of
the preliminary routine capture, with their initial values. -/
structure DeleteShootVars where
  botanistCreated : Bool := false
  namespace_ : Namespace := {}
  shootNamespaceInDeletion : Bool := false
  kubeAPIServerDeploymentFound : Bool := true
  kubeControllerManagerDeploymentFound : Bool := true
  controlPlaneDeploymentNeeded : Bool := false
  workerDeploymentNeeded : Bool := false
  deriving Repr, DecidableEq

/-- The helper `extensionResourceStillExists` (lines 643-651), on the outcome of its `Get`. -/
def extensionResourceStillExists (get : Option Err) : Bool × Option Err :=
  match get with
  | some err => if IsNotFound err then (false, none) else (false, some err)
  | none => (true, none)

/-- The helper `needsControlPlaneDeployment` (lines 589-626). -/
def needsControlPlaneDeployment (env : DeleteShootEnv) (kubeAPIServerDeploymentFound : Bool) :
    Bool × Option Err :=
  match extensionResourceStillExists env.getControlPlane with
  | (_, some err) => (false, some err)
  | (exists_, none) =>
    if !exists_ && !kubeAPIServerDeploymentFound then (false, none)
    else
      match env.getInfrastructure with
      | .error err => if IsNotFound err then (false, none) else (false, some err)
      | .ok hasProviderStatus => if hasProviderStatus then (true, none) else (false, none)

/-- The helper `needsWorkerDeployment` (lines 628-641). -/
def needsWorkerDeployment (env : DeleteShootEnv) : Bool × Option Err :=
  match extensionResourceStillExists env.getWorker with
  | (_, some err) => (false, some err)
  | (exists_, none) => (exists_, none)

/-- The function polled by the step "Create botanist" (lines 67-73): `err` is the error of
`botanistpkg.New(o)`, `created` tells whether the variable `botanist` has been set. -/
def createBotanistPoll (err : Option Err) (created : Bool) : retry.Result × Bool :=
  match err with
  | some err => (retry.MinorError err, created)
  | none => (retry.Ok, true)

/-- The function polled by the step "Wait for seed deletion" (lines 106-114): `err` is the
error of the `Get` of the seed. -/
def waitForSeedDeletionPoll (err : Option Err) (u : Unit) : retry.Result × Unit :=
  match err with
  | some err => if IsNotFound err then (retry.Ok, u) else (retry.SevereError err, u)
  | none => (retry.NotOk, u)

/-- The steps handed to `errors.HandleErrors` by `runDeleteShootFlow` (lines 66-166). The
call `kutil.HasDeletionTimestamp(namespace)` reads the deletion timestamp of the namespace
object and has no error on an object with metadata. -/
def deleteShootSteps (env : DeleteShootEnv) : List (errors.TaskFunc DeleteShootVars) :=
  [ errors.ToExecute "Create botanist" (fun v =>
      match retry.UntilTimeout createBotanistPoll env.newBotanist v.botanistCreated none with
      | (err, created) => (err, { v with botanistCreated := created })),
    errors.ToExecute "Check required extensions exist" (fun v =>
      (env.requiredExtensionsExist, v)),
    errors.ToExecute "Retrieve the Shoot namespace in the Seed cluster" (fun v =>
      match env.getNamespace with
      | .error err =>
        if IsNotFound err then (some errors.Cancel, v) else (some err, v)
      | .ok ns => (none, { v with namespace_ := ns })),
    errors.ToExecute "Check if Seed object for shooted seed has been deleted" (fun v =>
      if env.hasShootedSeed then
        match env.getSeed with
        | some err => if !IsNotFound err then (some err, v) else (none, v)
        | none =>
          (some (.message "Seed object for shooted seed is not yet deleted - can't delete shoot"), v)
      else (none, v)),
    errors.ToExecute "Wait for seed deletion" (fun v =>
      if env.inGardenNamespace && env.hasShootedSeed then
        match retry.UntilTimeout waitForSeedDeletionPoll env.getSeedPolls () none with
        | (some err, _) =>
          (some (.message ("Failed while waiting for seed to be deleted, err=" ++ err.Error)), v)
        | (none, _) => (none, v)
      else (none, v)),
    errors.ToExecute "Check deletion timestamp for the Shoot namespace" (fun v =>
      (none, { v with shootNamespaceInDeletion := v.namespace_.HasDeletionTimestamp })),
    errors.ToExecute
      "Retrieve kube-apiserver deployment in the shoot namespace in the seed cluster" (fun v =>
      match env.getKubeAPIServer with
      | .error err =>
        if !IsNotFound err then (some err, v)
        else (none, { v with kubeAPIServerDeploymentFound := false })
      | .ok deployment =>
        if deployment.HasDeletionTimestamp then
          (none, { v with kubeAPIServerDeploymentFound := false })
        else (none, v)),
    errors.ToExecute
      "Retrieve the kube-controller-manager deployment in the shoot namespace in the seed cluster"
      (fun v =>
      match env.getKubeControllerManager with
      | .error err =>
        if !IsNotFound err then (some err, v)
        else (none, { v with kubeControllerManagerDeploymentFound := false })
      | .ok deployment =>
        if deployment.HasDeletionTimestamp then
          (none, { v with kubeControllerManagerDeploymentFound := false })
        else (none, v)),
    errors.ToExecute "Check whether control plane deployment is needed" (fun v =>
      match needsControlPlaneDeployment env v.kubeAPIServerDeploymentFound with
      | (needed, err) => (err, { v with controlPlaneDeploymentNeeded := needed })),
    errors.ToExecute "Check whether worker deployment is needed" (fun v =>
      match needsWorkerDeployment env with
      | (needed, err) => (err, { v with workerDeploymentNeeded := needed })) ]

/-- Modelled from the spec: the type `WrappedLastErrors` of the API helper package, whose code
is not embedded, the user-visible form into which a caller maps an error: a description and
the errors it wraps. -/
structure WrappedLastErrors where
  Description : String
  LastErrors : List Err
  deriving Repr, DecidableEq

/-- Modelled from the spec: the helper `NewWrappedLastErrors(description, err)` of the API
helper package, whose code is not embedded; it gives a value, never nil, that holds the
description and the error. -/
def NewWrappedLastErrors (description : String) (err : Err) : WrappedLastErrors :=
  { Description := description, LastErrors := [err] }

/-- What a call of `runDeleteShootFlow` does: the value it returns (`none` is `nil`), the
graph it built, if it built one, and whether it ran the flow. -/
structure DeleteShootRun where
  result : Option WrappedLastErrors
  graph : Option flow.Graph
  flowRun : Bool
  deriving Repr, DecidableEq

/-- The preliminary sequential routine of `runDeleteShootFlow` (lines 60-167). -/
def deleteShootPreliminary (env : DeleteShootEnv) (errorContext : errors.ErrorContext) :
    errors.Handled DeleteShootVars :=
  errors.HandleErrors errorContext (deleteShootSteps env) {}

/-- The function `runDeleteShootFlow` (lines 48-456). -/
def runDeleteShootFlow (env : DeleteShootEnv) (errorContext : errors.ErrorContext) :
    DeleteShootRun :=
  match (deleteShootPreliminary env errorContext).err with
  | some err =>
    if errors.WasCanceled err then
      { result := none, graph := none, flowRun := false }
    else
      { result := some (NewWrappedLastErrors (env.formatLastErrDescription err) err)
        graph := none, flowRun := false }
  | none =>
    let v := (deleteShootPreliminary env errorContext).vars
    let built := deleteShootFlowGraph
      { shootNamespaceInDeletion := v.shootNamespaceInDeletion
        kubeAPIServerDeploymentFound := v.kubeAPIServerDeploymentFound
        kubeControllerManagerDeploymentFound := v.kubeControllerManagerDeploymentFound
        controlPlaneDeploymentNeeded := v.controlPlaneDeploymentNeeded
        workerDeploymentNeeded := v.workerDeploymentNeeded
        nonTerminatingNamespace := !v.namespace_.Terminating
        dnsEnabled := env.dnsEnabled
        isHibernated := env.isHibernated
        hibernationEnabled := env.hibernationEnabled
        skipCleanupAnnotated := env.skipCleanupAnnotated }
    match env.runFlow built.g with
    | some err =>
      { result := some (NewWrappedLastErrors (env.formatLastErrDescription err) err)
        graph := some built.g, flowRun := true }
    | none => { result := none, graph := some built.g, flowRun := true }

/-- A sample environment of `runDeleteShootFlow`: the botanist is created at the second
attempt, the required extensions exist and the `Get` of the shoot namespace has the given
outcome; nothing else fails and the flow runs without error. -/
def sampleDeleteShootEnv (getNamespace : Except Err Namespace) : DeleteShootEnv :=
  { newBotanist := [some (.message "seed client not ready"), none]
    requiredExtensionsExist := none
    getNamespace := getNamespace
    hasShootedSeed := false
    getSeed := none
    inGardenNamespace := false
    getSeedPolls := []
    getKubeAPIServer := .ok {}
    getKubeControllerManager := .ok {}
    getControlPlane := none
    getInfrastructure := .ok true
    getWorker := none
    dnsEnabled := true
    isHibernated := false
    hibernationEnabled := false
    skipCleanupAnnotated := false
    formatLastErrDescription := Err.Error
    runFlow := fun _ => none }

/-! ## `pkg/apis/core/v1beta1/helper`: shooted seeds -/

namespace strings

/-- The pieces of a list of characters between the occurrences of `sep`. -/
def splitChars (sep : Char) : List Char → List (List Char)
  | [] => [[]]
  | c :: cs =>
    if c = sep then [] :: splitChars sep cs
    else
      match splitChars sep cs with
      | [] => [[c]]
      | w :: ws => (c :: w) :: ws

/-- The Go function `strings.Split(s, sep)` for a separator of one character: all substrings
of `s` between the separators; a string without separator gives the string itself. -/
def Split (s : String) (sep : Char) : List String :=
  (splitChars sep s.data).map String.mk

/-- The parts of a list of characters before and after the first occurrence of `sep`. -/
def cutChars (sep : Char) : List Char → Option (List Char × List Char)
  | [] => none
  | c :: cs =>
    if c = sep then some ([], cs)
    else
      match cutChars sep cs with
      | some (a, b) => some (c :: a, b)
      | none => none

/-- The Go call `strings.SplitN(s, sep, 2)` for a separator of one character: `none` when
the result has the single part `s` (no separator in `s`), otherwise the two parts before and
after the first separator. -/
def SplitN2 (s : String) (sep : Char) : Option (String × String) :=
  match cutChars sep s.data with
  | some (a, b) => some (String.mk a, String.mk b)
  | none => none

end strings

namespace strconv

/-- The value of a decimal digit. -/
def digit (c : Char) : Option Nat :=
  if '0' ≤ c ∧ c ≤ '9' then some (c.toNat - '0'.toNat) else none

/-- The number written by a list of decimal digits read after the digits worth `acc`;
`none` when a character is not a decimal digit. -/
def digitsFrom (acc : Nat) : List Char → Option Nat
  | [] => some acc
  | c :: cs =>
    match digit c with
    | some d => digitsFrom (acc * 10 + d) cs
    | none => none

end strconv

/-- The helper `parseInt32` (lines 207-213), that is `strconv.ParseInt(s, 10, 32)`: an
optional sign followed by at least one decimal digit, the value within the range of `int32`.
The text of the error is not told apart by cause. -/
def parseInt32 (s : String) : Except Err Int :=
  match s.data with
  | [] => .error (.message "strconv.ParseInt: parsing failed")
  | c :: cs =>
    let neg := decide (c = '-')
    let digits := if c = '+' ∨ c = '-' then cs else c :: cs
    match digits with
    | [] => .error (.message "strconv.ParseInt: parsing failed")
    | d :: ds =>
      match strconv.digitsFrom 0 (d :: ds) with
      | none => .error (.message "strconv.ParseInt: parsing failed")
      | some un =>
        if !neg && decide (2 ^ 31 ≤ un) then .error (.message "strconv.ParseInt: parsing failed")
        else if neg && decide (2 ^ 31 < un) then
          .error (.message "strconv.ParseInt: parsing failed")
        else .ok (if neg then -(un : Int) else (un : Int))

/-- The type `ShootedSeedAPIServerAutoscaler` (lines 202-205). -/
structure ShootedSeedAPIServerAutoscaler where
  MinReplicas : Option Int
  MaxReplicas : Int
  deriving Repr, DecidableEq

/-- The type `ShootedSeedAPIServer` (lines 197-200). -/
structure ShootedSeedAPIServer where
  Replicas : Option Int
  Autoscaler : Option ShootedSeedAPIServerAutoscaler
  deriving Repr, DecidableEq

/-- The type `gardencorev1beta1.ShootNetworks`, with the fields set here. -/
structure ShootNetworks where
  Pods : Option String := none
  Services : Option String := none
  deriving Repr, DecidableEq

/-- The type `gardencorev1beta1.SeedBackup`, with the fields set here. -/
structure SeedBackup where
  Provider : String := ""
  Region : Option String := none
  SecretRefName : String := ""
  SecretRefNamespace : String := ""
  deriving Repr, DecidableEq

/-- The type `ShootedSeed` (lines 187-195). -/
structure ShootedSeed where
  Protected : Option Bool := none
  Visible : Option Bool := none
  MinimumVolumeSize : Option String := none
  APIServer : Option ShootedSeedAPIServer := none
  BlockCIDRs : List String := []
  ShootDefaults : Option ShootNetworks := none
  Backup : Option SeedBackup := none
  deriving Repr, DecidableEq

/-- The body of the loop of `parseShootedSeed` (lines 227-233): a fragment without `=` is a
flag, any other fragment is a setting. A map is kept as a list with the latest entry first,
so that the first match of a lookup is the value last assigned. -/
def parseShootedSeedFragment (acc : List String × List (String × String)) (fragment : String) :
    List String × List (String × String) :=
  match strings.SplitN2 fragment '=' with
  | none => (fragment :: acc.1, acc.2)
  | some (key, value) => (acc.1, (key, value) :: acc.2)

/-- The maps `flags` and `settings` that the loop of `parseShootedSeed` fills (lines 226-234). -/
def parseShootedSeedFragments (annotationValue : String) : List String × List (String × String) :=
  (strings.Split annotationValue ',').foldl parseShootedSeedFragment ([], [])

/-- The helper `parseShootedSeedAPIServerAutoscaler` (lines 378-405). -/
def parseShootedSeedAPIServerAutoscaler (settings : List (String × String)) :
    Except Err (Option ShootedSeedAPIServerAutoscaler) :=
  match settings.lookup "apiServer.autoscaler.minReplicas",
        settings.lookup "apiServer.autoscaler.maxReplicas" with
  | none, none => .ok none
  | _, none =>
    .error (.message
      "apiSrvMaxReplicas has to be specified for shooted seed API server autoscaler")
  | minReplicasString, some maxReplicasString =>
    match (match minReplicasString with
           | some str => (parseInt32 str).map some
           | none => .ok none) with
    | .error err => .error err
    | .ok minReplicas =>
      match parseInt32 maxReplicasString with
      | .error err => .error err
      | .ok maxReplicas => .ok (some { MinReplicas := minReplicas, MaxReplicas := maxReplicas })

/-- The helper `parseShootedSeedAPIServer` (lines 351-376). -/
def parseShootedSeedAPIServer (settings : List (String × String)) :
    Except Err (Option ShootedSeedAPIServer) :=
  match parseShootedSeedAPIServerAutoscaler settings with
  | .error err => .error err
  | .ok apiServerAutoscaler =>
    match settings.lookup "apiServer.replicas", apiServerAutoscaler with
    | none, none => .ok none
    | none, some a => .ok (some { Replicas := none, Autoscaler := some a })
    | some replicasString, a =>
      match parseInt32 replicasString with
      | .error err => .error err
      | .ok replicas => .ok (some { Replicas := some replicas, Autoscaler := a })

/-- The helper `parseShootedSeedBlockCIDRs` (lines 284-296). -/
def parseShootedSeedBlockCIDRs (settings : List (String × String)) : Except Err (List String) :=
  match settings.lookup "blockCIDRs" with
  | none => .ok []
  | some cidrs => .ok (strings.Split cidrs ';')

/-- The helper `parseShootedSeedShootDefaults` (lines 298-319). -/
def parseShootedSeedShootDefaults (settings : List (String × String)) :
    Except Err (Option ShootNetworks) :=
  match settings.lookup "shootDefaults.pods", settings.lookup "shootDefaults.services" with
  | none, none => .ok none
  | podCIDR, serviceCIDR => .ok (some { Pods := podCIDR, Services := serviceCIDR })

/-- The helper `parseShootedSeedBackup` (lines 321-349). -/
def parseShootedSeedBackup (settings : List (String × String)) : Except Err (Option SeedBackup) :=
  let provider := settings.lookup "backup.provider"
  if provider = some "none" then .ok none
  else
    .ok (some
      { Provider := provider.getD ""
        Region := settings.lookup "backup.region"
        SecretRefName := (settings.lookup "backup.secretRef.name").getD ""
        SecretRefNamespace := (settings.lookup "backup.secretRef.namespace").getD "" })

/-- The helper `parseShootedSeed` (lines 215-282). The Go result `(*ShootedSeed, error)` is
an `Except`: `.ok none` is `(nil, nil)`, `.ok (some s)` is `(&s, nil)`, `.error e` is
`(nil, e)`. -/
def parseShootedSeed (annotationValue : String) : Except Err (Option ShootedSeed) :=
  let (flags, settings) := parseShootedSeedFragments annotationValue
  if "true" ∉ flags then .ok none
  else
    match parseShootedSeedAPIServer settings with
    | .error err => .error err
    | .ok apiServer =>
      match parseShootedSeedBlockCIDRs settings with
      | .error err => .error err
      | .ok blockCIDRs =>
        match parseShootedSeedShootDefaults settings with
        | .error err => .error err
        | .ok shootDefaults =>
          match parseShootedSeedBackup settings with
          | .error err => .error err
          | .ok backup =>
            let protected_ : Option Bool := if "protected" ∈ flags then some true else none
            let protected_ := if "unprotected" ∈ flags then some false else protected_
            let visible : Option Bool := if "visible" ∈ flags then some true else none
            let visible := if "invisible" ∈ flags then some false else visible
            .ok (some
              { APIServer := apiServer
                BlockCIDRs := blockCIDRs
                ShootDefaults := shootDefaults
                Backup := backup
                MinimumVolumeSize := settings.lookup "minimumVolumeSize"
                Protected := protected_
                Visible := visible })

namespace field

/-- A path `*field.Path` of the Kubernetes library, as the text it renders to; the nil path
is the empty text. -/
abbrev Path := String

/-- The method `fldPath.Child(name)`: the path extended by one name. -/
def Child (fldPath : Path) (name : String) : Path :=
  if fldPath = "" then name else fldPath ++ "." ++ name

/-- The text `Error()` of the error `field.Invalid(fldPath, value, detail)` for a value of
the type `int32`. -/
def Invalid (fldPath : Path) (value : Int) (detail : String) : String :=
  fldPath ++ ": Invalid value: " ++ toString value ++ ": " ++ detail

/-- The text `Error()` of `errs.ToAggregate()` for a list of errors with distinct texts, not
empty: the text of a single error, and the bracketed list of the texts of several. -/
def ToAggregate (errs : List String) : String :=
  match errs with
  | [err] => err
  | _ => "[" ++ String.intercalate ", " errs ++ "]"

end field

/-- The helper `validateShootedSeedAPIServerAutoscaler` (lines 430-444); the result lists
the texts of the errors found. -/
def validateShootedSeedAPIServerAutoscaler (autoscaler : ShootedSeedAPIServerAutoscaler)
    (fldPath : field.Path) : List String :=
  (match autoscaler.MinReplicas with
   | some m =>
     if m < 1 then [field.Invalid (field.Child fldPath "minReplicas") m "must be greater than 0"]
     else []
   | none => []) ++
  (if autoscaler.MaxReplicas < 1 then
     [field.Invalid (field.Child fldPath "maxReplicas") autoscaler.MaxReplicas
       "must be greater than 0"]
   else []) ++
  (match autoscaler.MinReplicas with
   | some m =>
     if autoscaler.MaxReplicas < m then
       [field.Invalid (field.Child fldPath "maxReplicas") autoscaler.MaxReplicas
         "must be greater than or equal to \x60minReplicas\x60"]
     else []
   | none => [])

/-- The helper `validateShootedSeedAPIServer` (lines 417-428). -/
def validateShootedSeedAPIServer (apiServer : ShootedSeedAPIServer) (fldPath : field.Path) :
    List String :=
  (match apiServer.Replicas with
   | some r =>
     if r < 1 then [field.Invalid (field.Child fldPath "replicas") r "must be greater than 0"]
     else []
   | none => []) ++
  (match apiServer.Autoscaler with
   | some a => validateShootedSeedAPIServerAutoscaler a (field.Child fldPath "autoscaler")
   | none => [])

/-- The helper `validateShootedSeed` (lines 407-415). -/
def validateShootedSeed (shootedSeed : ShootedSeed) (fldPath : field.Path) : List String :=
  match shootedSeed.APIServer with
  | some apiServer => validateShootedSeedAPIServer apiServer (field.Child fldPath "apiServer")
  | none => []

/-- The helper `minInt32` (lines 466-471). -/
def minInt32 (a b : Int) : Int := if a < b then a else b

/-- The helper `setDefaults_ShootedSeedAPIServerAutoscaler` (lines 473-478). -/
def setDefaults_ShootedSeedAPIServerAutoscaler (autoscaler : ShootedSeedAPIServerAutoscaler) :
    ShootedSeedAPIServerAutoscaler :=
  match autoscaler.MinReplicas with
  | none => { autoscaler with MinReplicas := some (minInt32 3 autoscaler.MaxReplicas) }
  | some _ => autoscaler

/-- The helper `setDefaults_ShootedSeedAPIServer` (lines 453-464). -/
def setDefaults_ShootedSeedAPIServer (apiServer : ShootedSeedAPIServer) : ShootedSeedAPIServer :=
  let replicas := match apiServer.Replicas with
    | none => some 3
    | some r => some r
  let autoscaler := match apiServer.Autoscaler with
    | none => { MinReplicas := none, MaxReplicas := 3 }
    | some a => a
  { Replicas := replicas, Autoscaler := some (setDefaults_ShootedSeedAPIServerAutoscaler autoscaler) }

/-- The helper `setDefaults_ShootedSeed` (lines 446-451). -/
def setDefaults_ShootedSeed (shootedSeed : ShootedSeed) : ShootedSeed :=
  let apiServer := match shootedSeed.APIServer with
    | none => { Replicas := none, Autoscaler := none }
    | some a => a
  { shootedSeed with APIServer := some (setDefaults_ShootedSeedAPIServer apiServer) }

/-- Modelled from the spec: the constant `v1beta1constants.GardenNamespace`, declared in a
package whose code is not embedded; the namespace of the garden. No result depends on its
value. -/
def GardenNamespace : String := "garden"

/-- Modelled from the spec: the constant `v1beta1constants.AnnotationShootUseAsSeed`,
declared in a package whose code is not embedded; the key of the use-as-seed mark. No
result depends on its value. -/
def AnnotationShootUseAsSeed : String := "shoot.garden.sapcloud.io/use-as-seed"

/-- A worker pool of a shoot, with the fields read by the helpers. -/
structure Worker where
  Name : String := ""
  Minimum : Int
  Maximum : Int
  deriving Repr, DecidableEq

/-- The type `gardencorev1beta1.Shoot`, with the fields read by the helpers. `Annotations`
is `none` for the nil map. -/
structure Shoot where
  Namespace : String
  Annotations : Option (List (String × String)) := none
  Workers : List Worker := []
  deriving Repr, DecidableEq

/-- The function `ReadShootedSeed` (lines 481-507), with the result convention of
`parseShootedSeed`; the error of a failed validation is the aggregate of its errors, and the
nil path is the empty text. -/
def ReadShootedSeed (shoot : Shoot) : Except Err (Option ShootedSeed) :=
  match shoot.Annotations with
  | none => .ok none
  | some annotations =>
    if shoot.Namespace ≠ GardenNamespace then .ok none
    else
      match annotations.lookup AnnotationShootUseAsSeed with
      | none => .ok none
      | some val =>
        match parseShootedSeed val with
        | .error err => .error err
        | .ok none => .ok none
        | .ok (some shootedSeed) =>
          let shootedSeed := setDefaults_ShootedSeed shootedSeed
          match validateShootedSeed shootedSeed "" with
          | [] => .ok (some shootedSeed)
          | errs => .error (.message (field.ToAggregate errs))

/-- The function `ShootWantsClusterAutoscaler` (lines 517-524), on the workers of the shoot;
the Go result `(bool, error)` is a pair, `none` being the nil error. -/
def ShootWantsClusterAutoscaler.loop : List Worker → Bool × Option Err
  | [] => (false, none)
  | worker :: rest =>
    if worker.Maximum > worker.Minimum then (true, none)
    else ShootWantsClusterAutoscaler.loop rest

/-- The function `ShootWantsClusterAutoscaler` (lines 517-524). -/
def ShootWantsClusterAutoscaler (shoot : Shoot) : Bool × Option Err :=
  ShootWantsClusterAutoscaler.loop shoot.Workers

/-! ## `pkg/apis/core/v1beta1/helper`: Kubernetes versions of a cloud profile -/

/-- A semantic version `major.minor.patch`. -/
structure SemVer where
  major : Nat
  minor : Nat
  patch : Nat
  deriving Repr, DecidableEq

/-- The order of semantic versions: by major, then minor, then patch. -/
def SemVer.lt (a b : SemVer) : Bool :=
  decide (a.major < b.major) ||
    (decide (a.major = b.major) &&
      (decide (a.minor < b.minor) || (decide (a.minor = b.minor) && decide (a.patch < b.patch))))

/-- The order of semantic versions, equality included. -/
def SemVer.le (a b : SemVer) : Bool := a.lt b || decide (a = b)

/-- A number written in decimal digits, at least one. -/
def parseNat (cs : List Char) : Option Nat :=
  match cs with
  | [] => none
  | _ => strconv.digitsFrom 0 cs

/-- Reading a version written as `major.minor.patch`, three numbers in decimal digits. -/
def parseSemVer (s : String) : Option SemVer :=
  match strings.splitChars '.' s.data with
  | [a, b, c] =>
    match parseNat a, parseNat b, parseNat c with
    | some major, some minor, some patch => some { major := major, minor := minor, patch := patch }
    | _, _, _ => none
  | _ => none

/-- Modelled from the spec: `utils.CompareVersions(version1, operator, version2)` (package
`pkg/utils`, whose code is not embedded here) tells whether `version1` meets the
constraint made of the range comparison symbol `operator` and `version2`, in the sense of
`github.com/Masterminds/semver`: `~` is the patch range (not below `version2`, same major
and minor; any version for `~0.0.0`), `^` is the range of the same major (not below
`version2`). Versions are read as `major.minor.patch`; a version that cannot be read and an
unknown operator are errors. -/
def CompareVersions (version1 operator version2 : String) : Except Err Bool :=
  match parseSemVer version1, parseSemVer version2 with
  | some v, some c =>
    if operator = "~" then
      .ok (c.le v && (decide (c = ⟨0, 0, 0⟩) ||
        (decide (v.major = c.major) && decide (v.minor = c.minor))))
    else if operator = "^" then .ok (c.le v && decide (v.major = c.major))
    else if operator = "=" then .ok (decide (v = c))
    else if operator = ">" then .ok (c.lt v)
    else if operator = "<" then .ok (v.lt c)
    else if operator = ">=" then .ok (c.le v)
    else if operator = "<=" then .ok (v.le c)
    else .error (.message "improper constraint")
  | _, _ => .error (.message "Invalid Semantic Version")

namespace sort

/-- The order of Go strings: lexicographic, character by character. -/
def lessChars : List Char → List Char → Bool
  | _, [] => false
  | [], _ :: _ => true
  | a :: as, b :: bs =>
    if a.toNat < b.toNat then true
    else if b.toNat < a.toNat then false
    else lessChars as bs

/-- Insertion of a string into a list sorted in increasing order. -/
def insert (x : String) : List String → List String
  | [] => [x]
  | y :: ys => if lessChars y.data x.data then y :: insert x ys else x :: y :: ys

/-- The Go function `sort.Strings(x)`: the strings in increasing lexicographic order. -/
def Strings : List String → List String
  | [] => []
  | x :: xs => insert x (Strings xs)

end sort

/-- The type `gardencorev1beta1.ExpirableVersion`. -/
structure ExpirableVersion where
  Version : String
  ExpirationDate : Option String := none
  deriving Repr, DecidableEq

/-- The type `gardencorev1beta1.CloudProfile`, with `Spec.Kubernetes.Versions`, the only
field read here. -/
structure CloudProfile where
  KubernetesVersions : List ExpirableVersion
  deriving Repr, DecidableEq

/-- The loop of `determineNextKubernetesVersions` (lines 664-673): `newerVersions` and
`newerVersionsString` collect, in the order of the profile, the versions that differ from
`currentVersion` and meet the constraint; an error of the comparison ends the loop. -/
def determineNextKubernetesVersions.loop
    (compareVersions : String → String → String → Except Err Bool)
    (currentVersion operator : String) :
    List ExpirableVersion → List ExpirableVersion → List String →
      Except Err (List ExpirableVersion × List String)
  | [], newerVersions, newerVersionsString => .ok (newerVersions, newerVersionsString)
  | version :: rest, newerVersions, newerVersionsString =>
    match compareVersions version.Version operator currentVersion with
    | .error err => .error err
    | .ok ok =>
      if version.Version ≠ currentVersion ∧ ok = true then
        determineNextKubernetesVersions.loop compareVersions currentVersion operator rest
          (newerVersions ++ [version]) (newerVersionsString ++ [version.Version])
      else
        determineNextKubernetesVersions.loop compareVersions currentVersion operator rest
          newerVersions newerVersionsString

/-- The function `determineNextKubernetesVersions` (lines 658-680); `compareVersions` stands
for `utils.CompareVersions`. The Go result `(bool, []string, []ExpirableVersion, error)` is a
tuple, `none` being the nil error. -/
def determineNextKubernetesVersions
    (compareVersions : String → String → String → Except Err Bool)
    (cloudProfile : CloudProfile) (currentVersion operator : String) :
    Bool × List String × List ExpirableVersion × Option Err :=
  match determineNextKubernetesVersions.loop compareVersions currentVersion operator
      cloudProfile.KubernetesVersions [] [] with
  | .error err => (false, [], [], some err)
  | .ok (newerVersions, newerVersionsString) =>
    if newerVersions.length = 0 then (false, [], [], none)
    else (true, newerVersionsString, newerVersions, none)

/-- The function `DetermineLatestKubernetesPatchVersion` (lines 633-640). -/
def DetermineLatestKubernetesPatchVersion
    (compareVersions : String → String → String → Except Err Bool)
    (cloudProfile : CloudProfile) (currentVersion : String) : Bool × String × Option Err :=
  match determineNextKubernetesVersions compareVersions cloudProfile currentVersion "~" with
  | (ok, newerVersions, _, err) =>
    if err ≠ none ∨ ok = false then (ok, "", err)
    else (true, (sort.Strings newerVersions).getLastD "", none)

/-- The function `DetermineNextKubernetesMinorVersion` (lines 645-652). -/
def DetermineNextKubernetesMinorVersion
    (compareVersions : String → String → String → Except Err Bool)
    (cloudProfile : CloudProfile) (currentVersion : String) : Bool × String × Option Err :=
  match determineNextKubernetesVersions compareVersions cloudProfile currentVersion "^" with
  | (ok, newerVersions, _, err) =>
    if err ≠ none ∨ ok = false then (ok, "", err)
    else (true, (sort.Strings newerVersions).headD "", none)

/-! ## `pkg/operation/botanist`: problematic webhooks -/

namespace sets

/-- The Go function `sets.NewString(items...)` of the Kubernetes library: the set of the
given strings, kept here as the list of its members. -/
def NewString (items : List String) : List String := items

/-- The method `Has` of a string set: membership of one item. -/
def Has (s : List String) (item : String) : Bool := s.contains item

/-- The method `HasAny` of a string set: membership of at least one of the items. -/
def HasAny (s : List String) (items : List String) : Bool := items.any fun item => Has s item

end sets

/-- The constant `corev1.GroupName` of the Kubernetes API: the core group has the empty name. -/
def GroupName : String := ""

/-- The constant `admissionregistrationv1beta1.Ignore` of the type `FailurePolicyType`. -/
def Ignore : String := "Ignore"

/-- The constant `admissionregistrationv1beta1.Fail` of the type `FailurePolicyType`. -/
def Fail : String := "Fail"

/-- The constant `admissionregistrationv1beta1.OperationAll` of the type `OperationType`. -/
def OperationAll : String := "*"

/-- The constant `admissionregistrationv1beta1.Create` of the type `OperationType`. -/
def Create : String := "CREATE"

/-- The constant `admissionregistrationv1beta1.Update` of the type `OperationType`. -/
def Update : String := "UPDATE"

/-- The type `admissionregistrationv1beta1.RuleWithOperations`, with the fields read here;
operations, groups and resources are Go strings. -/
structure RuleWithOperations where
  Operations : List String
  APIGroups : List String
  Resources : List String
  deriving Repr, DecidableEq

/-- The type `admissionregistrationv1beta1.Webhook`, with the fields read here; the pointer
`FailurePolicy` is an option, `none` being nil. -/
structure Webhook where
  FailurePolicy : Option String
  Rules : List RuleWithOperations
  deriving Repr, DecidableEq

/-- The inner loop of `IsProblematicWebhook` (lines 124-128) over `rule.Operations`: true at
the first operation that is `Create`, `Update` or `OperationAll`. -/
def IsProblematicWebhook.operations : List String → Bool
  | [] => false
  | op :: rest =>
    if op = Create ∨ op = Update ∨ op = OperationAll then true
    else IsProblematicWebhook.operations rest

/-- The outer loop of `IsProblematicWebhook` (lines 119-130) over `webhook.Rules`. -/
def IsProblematicWebhook.rules : List RuleWithOperations → Bool
  | [] => false
  | rule :: rest =>
    let apiGroups := sets.NewString rule.APIGroups
    let resources := sets.NewString rule.Resources
    if sets.Has apiGroups GroupName && sets.HasAny resources ["pods", "nodes"] then
      if IsProblematicWebhook.operations rule.Operations then true
      else IsProblematicWebhook.rules rest
    else IsProblematicWebhook.rules rest

/-- The function `IsProblematicWebhook` (`constraints_check.go`, lines 110-133). -/
def IsProblematicWebhook (webhook : Webhook) : Bool :=
  if webhook.FailurePolicy ≠ none ∧ webhook.FailurePolicy ≠ some Fail then false
  else IsProblematicWebhook.rules webhook.Rules

/-- The meaning of the lists of a rule in the Kubernetes API (the type
`admissionregistrationv1beta1.Rule`): `*` among the API groups is all groups, `*` among the
resources is all resources and `*/*` all resources and their subresources. The rule applies
to the resource `resource` of the group `group` when it lists the group or `*`, and the
resource, `*` or `*/*`. -/
def RuleWithOperations.AppliesTo (rule : RuleWithOperations) (group resource : String) : Bool :=
  (rule.APIGroups.contains group || rule.APIGroups.contains "*") &&
    (rule.Resources.contains resource || rule.Resources.contains "*" ||
      rule.Resources.contains "*/*")

/-- A webhook called for every operation on every resource of every group, with the failure
policy `Fail`. -/
def sampleCatchAllWebhook : Webhook :=
  { FailurePolicy := some Fail
    Rules := [{ Operations := [OperationAll], APIGroups := ["*"], Resources := ["*"] }] }

/-! ## `pkg/apis/core/v1beta1/helper`: conditions -/

/-- The type `gardencorev1beta1.ConditionType`, a Go string. -/
abbrev ConditionType := String

/-- The type `gardencorev1beta1.ConditionStatus`, a Go string. -/
abbrev ConditionStatus := String

/-- The constant `ConditionTrue`. -/
def ConditionTrue : ConditionStatus := "True"

/-- The constant `ConditionFalse`. -/
def ConditionFalse : ConditionStatus := "False"

/-- The constant `ConditionUnknown`. -/
def ConditionUnknown : ConditionStatus := "Unknown"

/-- The constant `ConditionProgressing`. -/
def ConditionProgressing : ConditionStatus := "Progressing"

/-- An instant (`metav1.Time`, `time.Time`): the nanoseconds elapsed since the zero time
`time.Time{}`, read on the wall clock. -/
abbrev Time := Int

/-- The package variable `Now`, a function reading the clock: `Now k` is the instant returned
by the call number `k` made during one run. -/
abbrev Clock := Nat → Time

/-- The type `gardencorev1beta1.Condition`; the field `Type` is written `Type_`. -/
structure Condition where
  Type_ : ConditionType
  Status : ConditionStatus
  LastTransitionTime : Time := 0
  LastUpdateTime : Time := 0
  Reason : String := ""
  Message : String := ""
  deriving Repr, DecidableEq

/-- The function `InitCondition` (lines 38-46); `k` numbers its call of `Now`. -/
def InitCondition (Now : Clock) (k : Nat) (conditionType : ConditionType) : Condition :=
  { Type_ := conditionType
    Status := ConditionUnknown
    Reason := "ConditionInitialized"
    Message :=
      "The condition has been initialized but its semantic check has not been performed yet."
    LastTransitionTime := Now k }

/-- The function `GetCondition` (lines 68-76): a pointer to a copy of the first condition of
the type, `none` being nil. -/
def GetCondition : List Condition → ConditionType → Option Condition
  | [], _ => none
  | condition :: rest, conditionType =>
    if condition.Type_ = conditionType then some condition else GetCondition rest conditionType

/-- The loop of `NewConditions` (lines 54-61): `newConditions` grows by one entry per condition
type; `k` counts the calls of `Now` made so far. -/
def NewConditions.loop (Now : Clock) (conditions : List Condition) :
    List ConditionType → Nat → List Condition → List Condition
  | [], _, newConditions => newConditions
  | conditionType :: rest, k, newConditions =>
    match GetCondition conditions conditionType with
    | some c => NewConditions.loop Now conditions rest k (newConditions ++ [c])
    | none =>
      NewConditions.loop Now conditions rest (k + 1)
        (newConditions ++ [InitCondition Now k conditionType])

/-- The function `NewConditions` (lines 50-64). The Go result is a slice of pointers, none of
them nil, each to a condition of its own; it is the list of the conditions pointed to. -/
def NewConditions (Now : Clock) (conditions : List Condition)
    (conditionTypes : List ConditionType) : List Condition :=
  NewConditions.loop Now conditions conditionTypes 0 []

/-- The function `UpdatedCondition` (lines 88-102); `k` numbers its first call of `Now`. -/
def UpdatedCondition (Now : Clock) (k : Nat) (condition : Condition) (status : ConditionStatus)
    (reason message : String) : Condition :=
  let newCondition : Condition :=
    { Type_ := condition.Type_
      Status := status
      Reason := reason
      Message := message
      LastTransitionTime := condition.LastTransitionTime
      LastUpdateTime := Now k }
  if condition.Status ≠ status then { newCondition with LastTransitionTime := Now (k + 1) }
  else newCondition

/-- The first loop of `MergeConditions` (lines 120-123): `out` receives the old conditions and
`typeToIndex` the index of each; the Go map is a list of entries, the newest first, so that a
later assignment to a key hides the earlier one. -/
def MergeConditions.indexOld :
    List Condition → Nat → List Condition → List (ConditionType × Nat) →
      List Condition × List (ConditionType × Nat)
  | [], _, out, typeToIndex => (out, typeToIndex)
  | condition :: rest, i, out, typeToIndex =>
    MergeConditions.indexOld rest (i + 1) (out ++ [condition])
      ((condition.Type_, i) :: typeToIndex)

/-- The second loop of `MergeConditions` (lines 125-131): a new condition whose type has an
index overwrites `out` there, another one is appended. -/
def MergeConditions.mergeNew (typeToIndex : List (ConditionType × Nat)) :
    List Condition → List Condition → List Condition
  | [], out => out
  | condition :: rest, out =>
    match typeToIndex.lookup condition.Type_ with
    | some index => MergeConditions.mergeNew typeToIndex rest (out.set index condition)
    | none => MergeConditions.mergeNew typeToIndex rest (out ++ [condition])

/-- The function `MergeConditions` (lines 114-134). -/
def MergeConditions (oldConditions newConditions : List Condition) : List Condition :=
  match MergeConditions.indexOld oldConditions 0 [] [] with
  | (out, typeToIndex) => MergeConditions.mergeNew typeToIndex newConditions out

/-- A condition of the given type, status and reason, the other fields zero. -/
def sampleCondition (conditionType : ConditionType) (status : ConditionStatus)
    (reason : String) : Condition :=
  { Type_ := conditionType, Status := status, Reason := reason }

/-- The property stated of `MergeConditions(old, new...)`, for one pair of lists: every
condition of the result whose type occurs in `new` is a condition of `new`, every condition
of `old` whose type does not occur in `new` is in the result at its index, and every
condition of `new` is in the result. -/
def SupersedesByType (old new : List Condition) : Prop :=
  (∀ r ∈ MergeConditions old new, r.Type_ ∈ new.map Condition.Type_ → r ∈ new) ∧
  (∀ (i : Nat) (c : Condition), old[i]? = some c → c.Type_ ∉ new.map Condition.Type_ →
    (MergeConditions old new)[i]? = some c) ∧
  (∀ n ∈ new, n ∈ MergeConditions old new)

/-- Old conditions of pairwise distinct types, for the examples. -/
def sampleOldConditions : List Condition :=
  [sampleCondition "APIServerAvailable" "True" "a", sampleCondition "EveryNodeReady" "False" "b"]

/-- New conditions of pairwise distinct types, for the examples: one supersedes an old
condition, the other is of a type not seen before. -/
def sampleNewConditions : List Condition :=
  [sampleCondition "EveryNodeReady" "True" "c",
    sampleCondition "SystemComponentsHealthy" "Unknown" "d"]

/-- What the second loop of `MergeConditions` uses of the index built by the first: an index
found for a type is the place of an old condition of that type, and a type without an index
is the type of no old condition. -/
structure IndexOf (old : List Condition) (typeToIndex : List (ConditionType × Nat)) : Prop where
  found : ∀ (T : ConditionType) (idx : Nat), typeToIndex.lookup T = some idx →
    ∃ c, old[idx]? = some c ∧ c.Type_ = T
  missing : ∀ T : ConditionType, typeToIndex.lookup T = none → ∀ c ∈ old, c.Type_ ≠ T

/-- The first condition of the type `t` in `cs` is `c`. -/
def FirstOfType (cs : List Condition) (t : ConditionType) (c : Condition) : Prop :=
  ∃ j : Nat, cs[j]? = some c ∧ c.Type_ = t ∧
    ∀ (i : Nat) (d : Condition), i < j → cs[i]? = some d → d.Type_ ≠ t

/-- What `NewConditions` puts into its result for the condition type `t`: a condition of that
type, the first one of `cs` with the type, or one made by `InitCondition` when `cs` has
none. -/
def NewConditions.EntryFor (Now : Clock) (cs : List Condition) (t : ConditionType)
    (c : Condition) : Prop :=
  c.Type_ = t ∧
    (FirstOfType cs t c ∨
      ((∀ d ∈ cs, d.Type_ ≠ t) ∧ c.Status = ConditionUnknown ∧
        c.Reason = "ConditionInitialized" ∧ ∃ k : Nat, c = InitCondition Now k t))

/-- A clock for the examples: the call number `k` returns the instant `1000 + k`. -/
def sampleClock : Clock := fun k => 1000 + k

/-! ## `pkg/operation/botanist`: failed conditions of the health check -/

/-- The type `time.Duration`: a number of nanoseconds, a 64-bit signed integer. -/
abbrev Duration := Int

/-- The smallest value of `time.Duration`. -/
def minDuration : Duration := -(2 ^ 63)

/-- The largest value of `time.Duration`. -/
def maxDuration : Duration := 2 ^ 63 - 1

/-- The method `t.Sub(u)` of `time.Time`: the duration `t - u`, and the largest or the
smallest duration when `t - u` is out of the range of `time.Duration`. -/
def Time.Sub (t u : Time) : Duration :=
  if t - u < minDuration then minDuration
  else if maxDuration < t - u then maxDuration
  else t - u

/-- The type `HealthChecker` (`health_check.go`, lines 76-78); the Go map
`conditionThresholds` is the function giving the value of a key, `none` for a key that is
not in the map. -/
structure HealthChecker where
  conditionThresholds : ConditionType → Option Duration

/-- The helper `gardencorev1alpha1helper.UpdatedCondition(condition, status, reason, message)`
is not among the embedded sources and is a parameter of `FailedCondition`. This is what is
assumed of it: the result has the type of `condition` and the given status, reason and
message, as the result of `UpdatedCondition` of the v1beta1 helper package has. -/
def UpdatesCondition (updatedCondition : Condition → ConditionStatus → String → String →
    Condition) : Prop :=
  ∀ (condition : Condition) (status : ConditionStatus) (reason message : String),
    (updatedCondition condition status reason message).Type_ = condition.Type_ ∧
    (updatedCondition condition status reason message).Status = status ∧
    (updatedCondition condition status reason message).Reason = reason ∧
    (updatedCondition condition status reason message).Message = message

/-- The method `HealthChecker.FailedCondition` (`health_check.go`, lines 318-340). The instant
`now` is what the call `Now()` of the package returns; `updatedCondition` stands for the
helper `gardencorev1alpha1helper.UpdatedCondition`. -/
def HealthChecker.FailedCondition (b : HealthChecker) (now : Time)
    (updatedCondition : Condition → ConditionStatus → String → String → Condition)
    (condition : Condition) (reason message : String) : Condition :=
  if condition.Status = ConditionTrue then
    match b.conditionThresholds condition.Type_ with
    | none => updatedCondition condition ConditionFalse reason message
    | some _ => updatedCondition condition ConditionProgressing reason message
  else if condition.Status = ConditionProgressing then
    match b.conditionThresholds condition.Type_ with
    | none => updatedCondition condition ConditionFalse reason message
    | some threshold =>
      let delta := Time.Sub now condition.LastTransitionTime
      if delta > threshold then updatedCondition condition ConditionFalse reason message
      else updatedCondition condition ConditionProgressing reason message
  else updatedCondition condition ConditionFalse reason message

/-- A health checker with a threshold of one minute for the type `APIServerAvailable`. -/
def sampleHealthChecker : HealthChecker :=
  { conditionThresholds := fun t => if t = "APIServerAvailable" then some 60000000000 else none }

/-! ## `DetermineLatestMachineImageVersion` -/

/-- The type `gardencorev1beta1.MachineImage`. -/
structure MachineImage where
  Name : String
  Versions : List ExpirableVersion
  deriving Repr, DecidableEq

/-- The error made by `fmt.Errorf` in `DetermineLatestMachineImageVersion` (line 584) from
the version, the name of the image and the text of the parse error. -/
def machineImageVersionError (version imageName parseError : String) : Err :=
  .message ("error while parsing machine image version \x27" ++ version ++
    "\x27 of machine image \x27" ++ imageName ++ "\x27: version not valid: " ++ parseError)

/-- The loop of `DetermineLatestMachineImageVersion` (lines 582-591), the same in both
packages, over entries of any type with a field `Version`. `NewVersion` and `GreaterThan`
stand for `semver.NewVersion` and the method `GreaterThan` of the library
`github.com/Masterminds/semver`; the pointer `latestSemVerVersion` is an option. -/
def DetermineLatestMachineImageVersion.loop {V α : Type} (NewVersion : String → Except Err V)
    (GreaterThan : V → V → Bool) (Version : α → String) (imageName : String) :
    List α → Option V → α → Except Err (Option V × α)
  | [], latestSemVerVersion, latestMachineImageVersion =>
    .ok (latestSemVerVersion, latestMachineImageVersion)
  | imageVersion :: rest, latestSemVerVersion, latestMachineImageVersion =>
    match NewVersion (Version imageVersion) with
    | .error err => .error (machineImageVersionError (Version imageVersion) imageName err.Error)
    | .ok v =>
      match latestSemVerVersion with
      | none =>
        DetermineLatestMachineImageVersion.loop NewVersion GreaterThan Version imageName rest
          (some v) imageVersion
      | some latest =>
        if GreaterThan v latest then
          DetermineLatestMachineImageVersion.loop NewVersion GreaterThan Version imageName rest
            (some v) imageVersion
        else
          DetermineLatestMachineImageVersion.loop NewVersion GreaterThan Version imageName rest
            (some latest) latestMachineImageVersion

/-- The function `DetermineLatestMachineImageVersion` of the v1beta1 helper package (lines
576-593); the Go result `(*semver.Version, ExpirableVersion, error)` is a tuple. -/
def DetermineLatestMachineImageVersion {V : Type} (NewVersion : String → Except Err V)
    (GreaterThan : V → V → Bool) (image : MachineImage) :
    Option V × ExpirableVersion × Option Err :=
  match DetermineLatestMachineImageVersion.loop NewVersion GreaterThan ExpirableVersion.Version
      image.Name image.Versions none { Version := "" } with
  | .error err => (none, { Version := "" }, some err)
  | .ok (latestSemVerVersion, latestMachineImageVersion) =>
    (latestSemVerVersion, latestMachineImageVersion, none)

namespace garden

/-- The type `garden.MachineImageVersion`. -/
structure MachineImageVersion where
  Version : String
  ExpirationDate : Option String := none
  deriving Repr, DecidableEq

/-- The type `garden.MachineImage`. -/
structure MachineImage where
  Name : String
  Versions : List MachineImageVersion
  deriving Repr, DecidableEq

/-- The function `DetermineLatestMachineImageVersion` of the package
`pkg/apis/garden/helper` (`helpers.go`, lines 122-139); the Go result
`(garden.MachineImageVersion, error)` is a pair. -/
def DetermineLatestMachineImageVersion {V : Type} (NewVersion : String → Except Err V)
    (GreaterThan : V → V → Bool) (image : MachineImage) : MachineImageVersion × Option Err :=
  match Gardener.DetermineLatestMachineImageVersion.loop NewVersion GreaterThan
      MachineImageVersion.Version image.Name image.Versions none { Version := "" } with
  | .error err => ({ Version := "" }, some err)
  | .ok (_, latestMachineImageVersion) => (latestMachineImageVersion, none)

end garden

/-- The order `GreaterThan` of a library of semantic versions is a strict weak order: no
version is greater than itself, the order is transitive, and so is being not greater. -/
structure StrictWeakOrder {V : Type} (GreaterThan : V → V → Bool) : Prop where
  irrefl : ∀ a : V, GreaterThan a a = false
  trans : ∀ a b c : V, GreaterThan a b = true → GreaterThan b c = true → GreaterThan a c = true
  notGreaterTrans : ∀ a b c : V, GreaterThan a b = false → GreaterThan b c = false →
    GreaterThan a c = false

/-- The entry `entry` at the index `i` of `entries`, of semantic version `v`, is the first of
the latest entries: no entry has a greater version, and every entry before it has a smaller
one. -/
def IsFirstLatest {V α : Type} (NewVersion : String → Except Err V)
    (GreaterThan : V → V → Bool) (Version : α → String) (entries : List α) (i : Nat)
    (entry : α) (v : V) : Prop :=
  entries[i]? = some entry ∧ NewVersion (Version entry) = .ok v ∧
    (∀ y ∈ entries, ∀ u : V, NewVersion (Version y) = .ok u → GreaterThan u v = false) ∧
    (∀ (j : Nat) (y : α) (u : V), j < i → entries[j]? = some y →
      NewVersion (Version y) = .ok u → GreaterThan v u = true)

/-- A library of semantic versions for the examples: `semver.NewVersion` reads versions
written `major.minor.patch`. -/
def sampleNewVersion (s : String) : Except Err SemVer :=
  match parseSemVer s with
  | some v => .ok v
  | none => .error (.message "Invalid Semantic Version")

/-- The method `GreaterThan` of the library for the examples. -/
def sampleGreaterThan (v o : SemVer) : Bool := o.lt v

/-- A machine image whose latest version is listed twice, with and without an expiration
date. -/
def sampleMachineImage : MachineImage :=
  { Name := "coreos"
    Versions :=
      [{ Version := "2135.6.0" }, { Version := "2191.5.0", ExpirationDate := some "2020-01-01" },
        { Version := "2023.4.0" }, { Version := "2191.5.0" }] }

/-- The machine image of the examples in the package `garden`, with a version that cannot be
read. -/
def garden.sampleMachineImage : garden.MachineImage :=
  { Name := "coreos"
    Versions := [{ Version := "2135.6.0" }, { Version := "latest" }, { Version := "2191.5.0" }] }

/-! # Theorems -/

namespace flow

theorem depsIssuedEarlierFrom_spec (n : Nat) (dss : List TaskIDs)
    (h : depsIssuedEarlierFrom n dss = true) (k : Nat) (ds : TaskIDs)
    (hk : dss.get? k = some ds) : ∀ d ∈ ds, d < n + k := by
  induction dss generalizing n k with
  | nil => simp at hk
  | cons x xs ih =>
    simp only [depsIssuedEarlierFrom, Bool.and_eq_true, List.all_eq_true, decide_eq_true_eq] at h
    cases k with
    | zero =>
      simp only [List.get?_cons_zero, Option.some.injEq] at hk
      subst hk
      intro d hd
      exact h.1 d hd
    | succ k =>
      simp only [List.get?_cons_succ] at hk
      intro d hd
      have hlt := ih (n + 1) h.2 k hk d hd
      rw [Nat.add_assoc, Nat.add_comm 1 k] at hlt
      exact hlt

theorem Graph.depsIssuedEarlier_spec (g : Graph) (h : g.depsIssuedEarlier = true)
    (t d : TaskID) (hd : DependsOn g.tasks t d) : d < t := by
  obtain ⟨task, hget, hmem⟩ := hd
  have hk : (g.tasks.map (fun t => t.Dependencies)).get? t = some task.Dependencies := by
    simp [List.get?_eq_getElem?] at hget ⊢
    exact ⟨task, hget, rfl⟩
  have hlt := depsIssuedEarlierFrom_spec 0 _ h t _ hk d hmem
  rw [Nat.zero_add] at hlt
  exact hlt

theorem transGen_lt_of_edges_lt (tasks : List Task) (h : ∀ t d, DependsOn tasks t d → d < t)
    (a b : TaskID) (hab : Relation.TransGen (DependsOn tasks) a b) : b < a := by
  induction hab with
  | single hd => exact h _ _ hd
  | tail _ hd ih => exact lt_trans (h _ _ hd) ih

end flow

open flow in
theorem deleteShootFlowGraph_dependencies (i : DeleteFlowInputs) :
    (deleteShootFlowGraph i).g.tasks.map (fun t => t.Dependencies) =
      [[], [0], [], [2, 1, 0], [3], [0, 4], [5], [1, 6], [2, 4, 7], [2, 1, 7, 8], [2, 1, 4, 7],
       [7], [7], [7, 5], [7, 13, 3, 10], [7, 12, 14], [7, 15, 3, 9, 10, 14], [16], [17], [18],
       [17], [20], [17, 21], [22], [16, 23], [24], [22],
       [13, 15, 16, 17, 21, 23, 26, 18, 19, 25], [27],
       [13, 15, 16, 17, 21, 23, 26, 18, 19, 25, 28], [29], [30],
       [13, 15, 16, 17, 21, 23, 26, 18, 19, 25],
       [13, 15, 16, 17, 21, 23, 26, 18, 19, 25, 28], [33],
       [13, 15, 16, 17, 21, 23, 26, 18, 19, 25], [11, 29, 28, 31, 32, 35, 34],
       [11, 29, 28, 31, 32, 35, 34, 36], [37]] := by
  simp [deleteShootFlowGraph, Graph.Add, NewGraph, NewTaskIDs, insertAll, TaskIDer.TaskIDs]

open flow in
theorem deleteShootFlowGraph_syncPoints (i : DeleteFlowInputs) :
    (deleteShootFlowGraph i).syncPointReadyForCleanup = [7, 15, 3, 9, 10, 14] ∧
    (deleteShootFlowGraph i).cleanKubernetesResources = 16 ∧
    (deleteShootFlowGraph i).syncPointCleaned = [13, 15, 16, 17, 21, 23, 26, 18, 19, 25] ∧
    (deleteShootFlowGraph i).destroyControlPlane = 27 ∧
    (deleteShootFlowGraph i).syncPoint = [11, 29, 28, 31, 32, 35, 34] ∧
    (deleteShootFlowGraph i).destroyInternalDomainDNSRecord = 36 := by
  simp [deleteShootFlowGraph, Graph.Add, NewGraph, NewTaskIDs, insertAll, TaskIDer.TaskIDs]

open flow in
theorem deleteShootFlowGraph_depsIssuedEarlier (i : DeleteFlowInputs) :
    (deleteShootFlowGraph i).g.depsIssuedEarlier = true := by
  unfold Graph.depsIssuedEarlier
  rw [deleteShootFlowGraph_dependencies]
  decide

open flow in
/-- C1: in the task graph built by `runDeleteShootFlow`, whatever the computed conditions,
every dependency `d` of the task with identity `t` was returned by an earlier `Add` call on
the same graph (`Add` returns the number of tasks added before, so these are the `d < t`);
each of the three sync-point sets only holds identities returned before the first `Add`
that follows its construction; hence no task depends on itself and no chain of dependencies
leads from a task back to itself. -/
theorem C1_deleteShootFlowGraph_dependencies_issued_earlier_and_acyclic (i : DeleteFlowInputs) :
    (∀ t task, (deleteShootFlowGraph i).g.tasks.get? t = some task →
        ∀ d ∈ task.Dependencies, d < t) ∧
    (∀ d ∈ (deleteShootFlowGraph i).syncPointReadyForCleanup,
        d < (deleteShootFlowGraph i).cleanKubernetesResources) ∧
    (∀ d ∈ (deleteShootFlowGraph i).syncPointCleaned,
        d < (deleteShootFlowGraph i).destroyControlPlane) ∧
    (∀ d ∈ (deleteShootFlowGraph i).syncPoint,
        d < (deleteShootFlowGraph i).destroyInternalDomainDNSRecord) ∧
    (∀ t, ¬ DependsOn (deleteShootFlowGraph i).g.tasks t t) ∧
    (∀ t, ¬ Relation.TransGen (DependsOn (deleteShootFlowGraph i).g.tasks) t t) := by
  have hedge : ∀ t d, DependsOn (deleteShootFlowGraph i).g.tasks t d → d < t :=
    Graph.depsIssuedEarlier_spec _ (deleteShootFlowGraph_depsIssuedEarlier i)
  obtain ⟨h1, h2, h3, h4, h5, h6⟩ := deleteShootFlowGraph_syncPoints i
  refine ⟨?_, ?_, ?_, ?_, ?_, ?_⟩
  · intro t task hget d hd
    exact hedge t d ⟨task, hget, hd⟩
  · rw [h1, h2]; decide
  · rw [h3, h4]; decide
  · rw [h5, h6]; decide
  · intro t ht
    exact lt_irrefl _ (hedge t t ht)
  · intro t ht
    exact lt_irrefl _ (transGen_lt_of_edges_lt _ hedge t t ht)

/-! ## The flow engine: compiler and executor lemmas -/

namespace flow

theorem dependsOn_iff (tasks : List Task) (t d : TaskID) :
    DependsOn tasks t d ↔ d ∈ dependenciesOf tasks t := by
  unfold DependsOn dependenciesOf
  cases h : tasks.get? t with
  | none => simp
  | some task => simp

theorem dependsOn_lt_length (tasks : List Task) (t d : TaskID) (h : DependsOn tasks t d) :
    t < tasks.length := by
  obtain ⟨task, hget, _⟩ := h
  rw [List.get?_eq_getElem?] at hget
  exact (List.getElem?_eq_some_iff.mp hget).1

theorem cyclic_has_cyclic_dependency (tasks : List Task) (t : TaskID)
    (h : Relation.TransGen (DependsOn tasks) t t) :
    ∃ d, DependsOn tasks t d ∧ Relation.TransGen (DependsOn tasks) d d := by
  obtain ⟨d, htd, hdt⟩ := Relation.TransGen.head'_iff.mp h
  exact ⟨d, htd, Relation.TransGen.tail' hdt htd⟩

theorem mem_readyTasks (tasks : List Task) (sorted : List TaskID) (t : TaskID) :
    t ∈ readyTasks tasks sorted ↔
      t < tasks.length ∧ t ∉ sorted ∧ ∀ d ∈ dependenciesOf tasks t, d ∈ sorted := by
  simp [readyTasks, List.mem_filter, and_assoc]

theorem topoSort_no_cyclic (tasks : List Task) (k : Nat) :
    ∀ sorted : List TaskID,
      (∀ x ∈ sorted, ¬ Relation.TransGen (DependsOn tasks) x x) →
      ∀ x ∈ topoSort tasks k sorted, ¬ Relation.TransGen (DependsOn tasks) x x := by
  induction k with
  | zero => intro sorted h; simpa [topoSort] using h
  | succ k ih =>
    intro sorted h
    rw [topoSort]
    apply ih
    intro x hx hcyc
    rcases List.mem_append.mp hx with hx | hx
    · exact h x hx hcyc
    · obtain ⟨d, hxd, hd⟩ := cyclic_has_cyclic_dependency tasks x hcyc
      have hds : d ∈ sorted :=
        ((mem_readyTasks tasks sorted x).mp hx).2.2 d ((dependsOn_iff tasks x d).mp hxd)
      exact h d hds hd

theorem topoSort_nodup_bounded (tasks : List Task) (k : Nat) :
    ∀ sorted : List TaskID, sorted.Nodup → (∀ x ∈ sorted, x < tasks.length) →
      (topoSort tasks k sorted).Nodup ∧ ∀ x ∈ topoSort tasks k sorted, x < tasks.length := by
  induction k with
  | zero => intro sorted h1 h2; exact ⟨h1, h2⟩
  | succ k ih =>
    intro sorted h1 h2
    rw [topoSort]
    apply ih
    · rw [List.nodup_append]
      refine ⟨h1, (List.nodup_range _).filter _, ?_⟩
      intro x hx hx'
      exact ((mem_readyTasks tasks sorted x).mp hx').2.1 hx
    · intro x hx
      rcases List.mem_append.mp hx with hx | hx
      · exact h2 x hx
      · exact ((mem_readyTasks tasks sorted x).mp hx).1

theorem mem_of_nodup_bounded_full (l : List Nat) (n : Nat) (hnd : l.Nodup)
    (hb : ∀ x ∈ l, x < n) (hlen : l.length = n) (t : Nat) (ht : t < n) : t ∈ l := by
  have hsub : l ⊆ List.range n := fun x hx => List.mem_range.mpr (hb x hx)
  have hperm : l.Perm (List.range n) :=
    (List.subperm_of_subset hnd hsub).perm_of_length_le (by simp [hlen])
  exact hperm.mem_iff.mpr (List.mem_range.mpr ht)

theorem Compile_ok_iff (g : Graph) (f : Flow) (h : g.Compile = .ok f) :
    danglingDependencyFrom g.tasks.length 0 g.tasks = none ∧
    (topoSort g.tasks g.tasks.length []).length = g.tasks.length ∧
    f.tasks = g.tasks := by
  unfold Graph.Compile at h
  split at h
  · simp at h
  · rename_i hd
    simp only at h
    by_cases hlen : (topoSort g.tasks g.tasks.length []).length = g.tasks.length
    · rw [if_pos hlen] at h
      simp only [Except.ok.injEq] at h
      subst h
      exact ⟨hd, hlen, rfl⟩
    · rw [if_neg hlen] at h
      simp at h

theorem Compile_ok_acyclic (g : Graph) (f : Flow) (h : g.Compile = .ok f) (t : TaskID) :
    ¬ Relation.TransGen (DependsOn g.tasks) t t := by
  intro hcyc
  obtain ⟨_, hlen, _⟩ := Compile_ok_iff g f h
  obtain ⟨hnd, hb⟩ := topoSort_nodup_bounded g.tasks g.tasks.length [] List.nodup_nil (by simp)
  obtain ⟨d, htd, _⟩ := cyclic_has_cyclic_dependency g.tasks t hcyc
  have ht : t ∈ topoSort g.tasks g.tasks.length [] :=
    mem_of_nodup_bounded_full _ _ hnd hb hlen t (dependsOn_lt_length _ _ _ htd)
  exact topoSort_no_cyclic g.tasks g.tasks.length [] (by simp) t ht hcyc


theorem eligible_iff (f : Flow) (s : RunState) (t : TaskID) :
    eligible f s t = true ↔ t < f.tasks.length ∧ s.state t = .Pending ∧
      ∀ d ∈ dependenciesOf f.tasks t, (s.state d).terminal = true := by
  simp [eligible, and_assoc]

theorem mustSkip_iff (sd : Bool) (f : Flow) (s : RunState) (t : TaskID) :
    mustSkip sd f s t = true ↔ skipsByPolicy f t = true ∨
      (∃ d ∈ dependenciesOf f.tasks t, s.state d = .Failed ∨
        (sd = true ∧ s.state d = .Skipped ∧ skipsByPolicy f d = false)) ∨
      s.canceled = true := by
  simp [mustSkip, or_assoc, and_assoc]

theorem terminal_cases (st : ExecutionState) (h : st.terminal = true) :
    st = .Succeeded ∨ st = .Skipped ∨ st = .Failed := by
  cases st <;> simp [ExecutionState.terminal] at h ⊢

theorem settledState_terminal (outcome : TaskID → Option Err) (t : TaskID) :
    (settledState outcome t).terminal = true := by
  unfold settledState
  cases outcome t <;> rfl

/-- Splitting a trace that was extended by one event around an occurrence of an event. -/
theorem split_snoc {α : Type} (l pre post : List α) (e x : α) (h : l ++ [e] = pre ++ x :: post) :
    (post = [] ∧ pre = l ∧ x = e) ∨ ∃ post', post = post' ++ [e] ∧ l = pre ++ x :: post' := by
  rcases List.eq_nil_or_concat post with hp | ⟨post', last, hp⟩
  · subst hp
    left
    have h' : l ++ [e] = pre ++ [x] := h
    have := List.append_inj' h' rfl
    simp at this
    exact ⟨rfl, this.1.symm, this.2.symm⟩
  · right
    rw [List.concat_eq_append] at hp
    subst hp
    have h' : l ++ [e] = (pre ++ x :: post') ++ [last] := by simpa using h
    have := List.append_inj' h' rfl
    simp at this
    obtain ⟨h1, h2⟩ := this
    subst h2
    exact ⟨post', rfl, h1⟩

theorem Inv.init (f : Flow) (outcome : TaskID → Option Err) : Inv f outcome RunState.init where
  settled_logged := by intro t h; simp [RunState.init, ExecutionState.terminal] at h
  never_early := by intro pre post t h; simp [RunState.init] at h
  started := by intro t h; simp [RunState.init] at h
  skipped := by intro t h; simp [RunState.init] at h
  outcome_ok := by intro t; simp [RunState.init]
  pending := by intro t _; simp [RunState.init]


/-- A reason to be skipped stays one when a task that is not `Failed` changes its state. -/
theorem skip_reason_lift (f : Flow) (s : RunState) (t : TaskID) (st : ExecutionState)
    (ht : s.state t ≠ .Failed) (c : Bool) (hc : s.canceled = true → c = true) (v : TaskID)
    (h : skipsByPolicy f v = true ∨ s.canceled = true ∨
      ∃ failed, s.state failed = .Failed ∧ Relation.TransGen (DependsOn f.tasks) v failed) :
    skipsByPolicy f v = true ∨ c = true ∨
      ∃ failed, Function.update s.state t st failed = .Failed ∧
        Relation.TransGen (DependsOn f.tasks) v failed := by
  rcases h with h1 | h2 | ⟨failed, hF, hpath⟩
  · exact Or.inl h1
  · exact Or.inr (Or.inl (hc h2))
  · refine Or.inr (Or.inr ⟨failed, ?_, hpath⟩)
    have hne : failed ≠ t := fun h' => ht (h' ▸ hF)
    simpa [Function.update_noteq hne] using hF

theorem Inv.skip {f : Flow} {outcome : TaskID → Option Err} {s : RunState} (h : Inv f outcome s)
    (sd : Bool) (t : TaskID) (he : eligible f s t = true) (hs : mustSkip sd f s t = true) :
    Inv f outcome { s with state := Function.update s.state t .Skipped
                           trace := s.trace ++ [.settled t .Skipped] } := by
  obtain ⟨_, htP, _⟩ := (eligible_iff f s t).mp he
  have hne : ∀ d, s.state d ≠ .Pending → d ≠ t := fun d hd hdt => hd (hdt ▸ htP)
  have htF : s.state t ≠ .Failed := by simp [htP]
  refine ⟨?_, ?_, ?_, ?_, ?_, ?_⟩
  · intro u hu
    by_cases hut : u = t
    · subst hut; simp
    · simp only [Function.update_noteq hut] at hu ⊢
      exact List.mem_append_left _ (h.settled_logged u hu)
  · intro pre post x hx
    rcases split_snoc _ _ _ _ _ hx with ⟨_, _, hxe⟩ | ⟨post', _, hl⟩
    · cases hxe
    · exact h.never_early pre post' x hl
  · intro u hu
    have hut : u ≠ t := by
      rintro rfl
      simp at hu
    simp only [Function.update_noteq hut] at hu
    obtain ⟨h1, h2⟩ := h.started u hu
    refine ⟨h1, fun d hd => ?_⟩
    have hdt : d ≠ t := hne d (by rcases h2 d hd with h' | h' <;> simp [h'])
    simpa [Function.update_noteq hdt] using h2 d hd
  · intro u hu
    by_cases hut : u = t
    · subst hut
      refine ⟨by simpa using h.pending u htP, ?_⟩
      apply skip_reason_lift f s u .Skipped htF s.canceled (fun h' => h') u
      rcases (mustSkip_iff sd f s u).mp hs with h1 | ⟨d, hd, hdF | ⟨_, hdS, hdpol⟩⟩ | h3
      · exact Or.inl h1
      · exact Or.inr (Or.inr ⟨d, hdF, Relation.TransGen.single ((dependsOn_iff _ _ _).mpr hd)⟩)
      · rcases (h.skipped d hdS).2 with h1 | h2 | ⟨failed, hF, hpath⟩
        · rw [hdpol] at h1; cases h1
        · exact Or.inr (Or.inl h2)
        · exact Or.inr (Or.inr ⟨failed, hF,
            Relation.TransGen.head ((dependsOn_iff _ _ _).mpr hd) hpath⟩)
      · exact Or.inr (Or.inl h3)
    · simp only [Function.update_noteq hut] at hu
      obtain ⟨h1, h2⟩ := h.skipped u hu
      exact ⟨by simpa using h1,
        skip_reason_lift f s t .Skipped htF s.canceled (fun h' => h') u h2⟩
  · intro u
    by_cases hut : u = t
    · subst hut; simp
    · simpa [Function.update_noteq hut] using h.outcome_ok u
  · intro u hu
    have hut : u ≠ t := by
      rintro rfl
      simp at hu
    simp only [Function.update_noteq hut] at hu
    simpa using h.pending u hu

theorem Inv.start {f : Flow} {outcome : TaskID → Option Err} {s : RunState} (h : Inv f outcome s)
    (sd : Bool) (t : TaskID) (he : eligible f s t = true) (hs : ¬ mustSkip sd f s t = true) :
    Inv f outcome { s with state := Function.update s.state t .Running
                           trace := s.trace ++ [.invoked t] } := by
  obtain ⟨_, htP, hdeps⟩ := (eligible_iff f s t).mp he
  have hne : ∀ d, s.state d ≠ .Pending → d ≠ t := fun d hd hdt => hd (hdt ▸ htP)
  have htF : s.state t ≠ .Failed := by simp [htP]
  have hpol : skipsByPolicy f t = false := by
    cases hp : skipsByPolicy f t
    · rfl
    · exact absurd ((mustSkip_iff sd f s t).mpr (Or.inl hp)) hs
  have hnoF : ∀ d ∈ dependenciesOf f.tasks t, s.state d ≠ .Failed := fun d hd hF =>
    hs ((mustSkip_iff sd f s t).mpr (Or.inr (Or.inl ⟨d, hd, Or.inl hF⟩)))
  refine ⟨?_, ?_, ?_, ?_, ?_, ?_⟩
  · intro u hu
    by_cases hut : u = t
    · subst hut; simp [ExecutionState.terminal] at hu
    · simp only [Function.update_noteq hut] at hu ⊢
      exact List.mem_append_left _ (h.settled_logged u hu)
  · intro pre post x hx
    rcases split_snoc _ _ _ _ _ hx with ⟨_, hpre, hxe⟩ | ⟨post', _, hl⟩
    · cases hxe
      subst hpre
      intro d hd
      exact ⟨s.state d, hdeps d hd, h.settled_logged d (hdeps d hd)⟩
    · exact h.never_early pre post' x hl
  · intro u hu
    by_cases hut : u = t
    · subst hut
      refine ⟨hpol, fun d hd => ?_⟩
      have hdt : d ≠ u := hne d (by
        intro hP
        have := hdeps d hd
        simp [hP, ExecutionState.terminal] at this)
      simp only [Function.update_noteq hdt]
      rcases terminal_cases _ (hdeps d hd) with h' | h' | h'
      · exact Or.inl h'
      · exact Or.inr h'
      · exact absurd h' (hnoF d hd)
    · simp only [Function.update_noteq hut] at hu
      obtain ⟨h1, h2⟩ := h.started u hu
      refine ⟨h1, fun d hd => ?_⟩
      have hdt : d ≠ t := hne d (by rcases h2 d hd with h' | h' <;> simp [h'])
      simpa [Function.update_noteq hdt] using h2 d hd
  · intro u hu
    have hut : u ≠ t := by
      rintro rfl
      simp at hu
    simp only [Function.update_noteq hut] at hu
    obtain ⟨h1, h2⟩ := h.skipped u hu
    exact ⟨by simpa [hut] using h1,
      skip_reason_lift f s t .Running htF s.canceled (fun h' => h') u h2⟩
  · intro u
    by_cases hut : u = t
    · subst hut; simp
    · simpa [Function.update_noteq hut] using h.outcome_ok u
  · intro u hu
    have hut : u ≠ t := by
      rintro rfl
      simp at hu
    simp only [Function.update_noteq hut] at hu
    simpa [hut] using h.pending u hu

theorem Inv.finish {f : Flow} {outcome : TaskID → Option Err} {s : RunState} (h : Inv f outcome s)
    (t : TaskID) (hr : s.state t = .Running) :
    Inv f outcome { s with state := Function.update s.state t (settledState outcome t)
                           trace := s.trace ++ [.settled t (settledState outcome t)] } := by
  have hne : ∀ d, s.state d ≠ .Running → d ≠ t := fun d hd hdt => hd (hdt ▸ hr)
  have htF : s.state t ≠ .Failed := by simp [hr]
  have hst := settledState_terminal outcome t
  refine ⟨?_, ?_, ?_, ?_, ?_, ?_⟩
  · intro u hu
    by_cases hut : u = t
    · subst hut; simp
    · simp only [Function.update_noteq hut] at hu ⊢
      exact List.mem_append_left _ (h.settled_logged u hu)
  · intro pre post x hx
    rcases split_snoc _ _ _ _ _ hx with ⟨_, _, hxe⟩ | ⟨post', _, hl⟩
    · cases hxe
    · exact h.never_early pre post' x hl
  · intro u hu
    have hu' : s.state u = .Running ∨ s.state u = .Succeeded ∨ s.state u = .Failed := by
      by_cases hut : u = t
      · subst hut; exact Or.inl hr
      · simpa [Function.update_noteq hut] using hu
    obtain ⟨h1, h2⟩ := h.started u hu'
    refine ⟨h1, fun d hd => ?_⟩
    have hdt : d ≠ t := hne d (by rcases h2 d hd with h' | h' <;> simp [h'])
    simpa [Function.update_noteq hdt] using h2 d hd
  · intro u hu
    have hut : u ≠ t := by
      rintro rfl
      simp only [Function.update_same] at hu
      unfold settledState at hu
      cases ho : outcome u <;> simp [ho] at hu
    simp only [Function.update_noteq hut] at hu
    obtain ⟨h1, h2⟩ := h.skipped u hu
    exact ⟨by simpa using h1,
      skip_reason_lift f s t (settledState outcome t) htF s.canceled (fun h' => h') u h2⟩
  · intro u
    by_cases hut : u = t
    · subst hut
      simp only [Function.update_same]
      unfold settledState
      cases ho : outcome u <;> simp
    · simpa [Function.update_noteq hut] using h.outcome_ok u
  · intro u hu
    have hut : u ≠ t := by
      rintro rfl
      simp only [Function.update_same] at hu
      rw [hu] at hst
      simp [ExecutionState.terminal] at hst
    simp only [Function.update_noteq hut] at hu
    simpa using h.pending u hu

theorem Inv.cancel {f : Flow} {outcome : TaskID → Option Err} {s : RunState} (h : Inv f outcome s) :
    Inv f outcome { s with canceled := true } where
  settled_logged := h.settled_logged
  never_early := h.never_early
  started := h.started
  skipped := fun t ht => ⟨(h.skipped t ht).1, Or.inr (Or.inl rfl)⟩
  outcome_ok := h.outcome_ok
  pending := h.pending

theorem Inv.step {f : Flow} {outcome : TaskID → Option Err} {s : RunState} (h : Inv f outcome s)
    (sd : Bool) (a : Action) : Inv f outcome (step sd f outcome s a) := by
  cases a with
  | dispatch t =>
    by_cases he : eligible f s t = true
    · by_cases hs : mustSkip sd f s t = true
      · simpa [flow.step, he, hs] using h.skip sd t he hs
      · simpa [flow.step, he, hs] using h.start sd t he hs
    · simpa [flow.step, he] using h
  | finish t =>
    by_cases hr : s.state t = .Running
    · simpa [flow.step, hr] using h.finish t hr
    · simpa [flow.step, hr] using h
  | cancel => simpa [flow.step] using h.cancel

theorem Inv.foldl {f : Flow} {outcome : TaskID → Option Err} (sd : Bool)
    (schedule : List Action) :
    ∀ s : RunState, Inv f outcome s →
      Inv f outcome (schedule.foldl (flow.step sd f outcome) s) := by
  induction schedule with
  | nil => intro s h; exact h
  | cons a rest ih => intro s h; exact ih _ (h.step sd a)

theorem Inv.exec (sd : Bool) (f : Flow) (outcome : TaskID → Option Err)
    (schedule : List Action) : Inv f outcome (exec sd f outcome schedule) :=
  Inv.foldl sd schedule _ (Inv.init f outcome)

theorem step_stable (sd : Bool) (f : Flow) (outcome : TaskID → Option Err) (s : RunState) (a : Action)
    (u : TaskID) (hu : (s.state u).terminal = true) : (step sd f outcome s a).state u = s.state u := by
  cases a with
  | dispatch t =>
    by_cases he : eligible f s t = true
    · have htP := ((eligible_iff f s t).mp he).2.1
      have hut : u ≠ t := by
        rintro rfl
        simp [htP, ExecutionState.terminal] at hu
      by_cases hs : mustSkip sd f s t = true <;> simp [step, he, hs, Function.update_noteq hut]
    · simp [step, he]
  | finish t =>
    by_cases hr : s.state t = .Running
    · have hut : u ≠ t := by
        rintro rfl
        simp [hr, ExecutionState.terminal] at hu
      simp [step, hr, Function.update_noteq hut]
    · simp [step, hr]
  | cancel => simp [step]

theorem step_settles (sd : Bool) (f : Flow) (outcome : TaskID → Option Err) (s : RunState) (t : TaskID)
    (ht : t < f.tasks.length)
    (hdeps : ∀ d ∈ dependenciesOf f.tasks t, (s.state d).terminal = true) :
    ((step sd f outcome (step sd f outcome s (.dispatch t)) (.finish t)).state t).terminal = true := by
  by_cases hP : s.state t = .Pending
  · have he : eligible f s t = true := (eligible_iff f s t).mpr ⟨ht, hP, hdeps⟩
    by_cases hs : mustSkip sd f s t = true
    · simp [step, he, hs, ExecutionState.terminal]
    · simp [step, he, hs, settledState_terminal]
  · have he : ¬ eligible f s t = true := fun he => hP ((eligible_iff f s t).mp he).2.1
    by_cases hr : s.state t = .Running
    · simp [step, he, hr, settledState_terminal]
    · simp only [step, he, hr, if_false, Bool.false_eq_true]
      cases hst : s.state t <;> simp_all [ExecutionState.terminal]

theorem topoSort_closed (tasks : List Task) (k : Nat) :
    ∀ sorted : List TaskID,
      (∀ l1 t l2, sorted = l1 ++ t :: l2 → ∀ d ∈ dependenciesOf tasks t, d ∈ l1) →
      ∀ l1 t l2, topoSort tasks k sorted = l1 ++ t :: l2 →
        ∀ d ∈ dependenciesOf tasks t, d ∈ l1 := by
  induction k with
  | zero => intro sorted h; simpa [topoSort] using h
  | succ k ih =>
    intro sorted h
    rw [topoSort]
    apply ih
    intro l1 t l2 heq d hd
    rcases List.append_eq_append_iff.mp heq with ⟨m, hl1, hready⟩ | ⟨m, hsorted, hm⟩
    · have ht : t ∈ readyTasks tasks sorted := by rw [hready]; simp
      rw [hl1]
      exact List.mem_append_left _ (((mem_readyTasks tasks sorted t).mp ht).2.2 d hd)
    · cases m with
      | nil =>
        simp only [List.append_nil] at hsorted
        have hm' : readyTasks tasks sorted = t :: l2 := by simpa using hm.symm
        have ht : t ∈ readyTasks tasks sorted := by rw [hm']; simp
        rw [← hsorted]
        exact ((mem_readyTasks tasks sorted t).mp ht).2.2 d hd
      | cons x m =>
        simp only [List.cons_append, List.cons.injEq] at hm
        obtain ⟨rfl, _⟩ := hm
        exact h l1 _ m hsorted d hd

theorem foldl_schedule_terminal (sd : Bool) (f : Flow) (outcome : TaskID → Option Err) (rest : List TaskID) :
    ∀ (acc : List TaskID) (s : RunState),
      (∀ t ∈ acc, (s.state t).terminal = true) →
      (∀ l1 t l2, rest = l1 ++ t :: l2 → ∀ d ∈ dependenciesOf f.tasks t, d ∈ acc ++ l1) →
      (∀ t ∈ rest, t < f.tasks.length) →
      ∀ t ∈ acc ++ rest,
        (((rest.flatMap (fun t => [Action.dispatch t, Action.finish t])).foldl
          (step sd f outcome) s).state t).terminal = true := by
  induction rest with
  | nil => intro acc s hacc _ _ t ht; simpa using hacc t (by simpa using ht)
  | cons x rest ih =>
    intro acc s hacc hclosed hlt t ht
    simp only [List.flatMap_cons, List.cons_append, List.nil_append, List.foldl_cons]
    have hdeps : ∀ d ∈ dependenciesOf f.tasks x, (s.state d).terminal = true := by
      intro d hd
      have := hclosed [] x rest rfl d hd
      exact hacc d (by simpa using this)
    have hacc' : ∀ u ∈ acc ++ [x],
        ((step sd f outcome (step sd f outcome s (.dispatch x)) (.finish x)).state u).terminal = true := by
      intro u hu
      rcases List.mem_append.mp hu with hu | hu
      · have h1 : (step sd f outcome s (.dispatch x)).state u = s.state u :=
          step_stable sd f outcome s _ u (hacc u hu)
        have h2 := step_stable sd f outcome (step sd f outcome s (.dispatch x)) (.finish x) u
          (by rw [h1]; exact hacc u hu)
        rw [h2, h1]; exact hacc u hu
      · have : u = x := by simpa using hu
        subst this
        exact step_settles sd f outcome s u (hlt u (List.mem_cons_self _ _)) hdeps
    apply ih (acc ++ [x]) _ hacc'
    · intro l1 y l2 heq d hd
      have := hclosed (x :: l1) y l2 (by rw [heq]; rfl) d hd
      simpa using this
    · intro y hy
      exact hlt y (List.mem_cons_of_mem _ hy)
    · simpa using ht

theorem foldl_schedule_not_canceled (sd : Bool) (f : Flow) (outcome : TaskID → Option Err)
    (rest : List TaskID) :
    ∀ s : RunState,
      ((rest.flatMap (fun t => [Action.dispatch t, Action.finish t])).foldl
        (step sd f outcome) s).canceled = s.canceled := by
  induction rest with
  | nil => intro s; rfl
  | cons x rest ih =>
    intro s
    simp only [List.flatMap_cons, List.cons_append, List.nil_append, List.foldl_cons]
    rw [ih]
    have h1 : ∀ s' : RunState, (step sd f outcome s' (.dispatch x)).canceled = s'.canceled := by
      intro s'
      by_cases he : eligible f s' x = true
      · by_cases hs : mustSkip sd f s' x = true <;> simp [step, he, hs]
      · simp [step, he]
    have h2 : ∀ s' : RunState, (step sd f outcome s' (.finish x)).canceled = s'.canceled := by
      intro s'
      by_cases hr : s'.state x = .Running <;> simp [step, hr]
    rw [h2, h1]

theorem danglingDependencyFrom_none (n : Nat) (tasks : List Task) :
    ∀ k, danglingDependencyFrom n k tasks = none →
      ∀ i task, tasks.get? i = some task → ∀ d ∈ task.Dependencies, d < n := by
  induction tasks with
  | nil => intro k _ i task h; simp at h
  | cons x xs ih =>
    intro k h i task hget d hd
    unfold danglingDependencyFrom at h
    cases hfind : x.Dependencies.find? (fun d => decide (n ≤ d)) with
    | some d' => simp [hfind] at h
    | none =>
      simp only [hfind] at h
      cases i with
      | zero =>
        simp only [List.get?_cons_zero, Option.some.injEq] at hget
        subst hget
        have := List.find?_eq_none.mp hfind d hd
        simpa using this
      | succ i =>
        simp only [List.get?_cons_succ] at hget
        exact ih (k + 1) h i task hget d hd

theorem Compile_ok_dependency_lt (g : Graph) (f : Flow) (h : g.Compile = .ok f) (t d : TaskID)
    (hd : DependsOn f.tasks t d) : d < f.tasks.length := by
  obtain ⟨hdang, _, htasks⟩ := Compile_ok_iff g f h
  obtain ⟨task, hget, hmem⟩ := hd
  rw [htasks] at hget ⊢
  exact danglingDependencyFrom_none _ _ 0 hdang t task hget d hmem

theorem completed_iff (f : Flow) (s : RunState) :
    s.completed f = true ↔ ∀ t, t < f.tasks.length → (s.state t).terminal = true := by
  simp [RunState.completed, List.all_eq_true]

theorem filterMap_single {β : Type} (g : Nat → Option β) (a : Nat) (v : β) (hga : g a = some v)
    (hne : ∀ x, x ≠ a → g x = none) (l : List Nat) (hnd : l.Nodup) :
    (a ∈ l → l.filterMap g = [v]) ∧ (a ∉ l → l.filterMap g = []) := by
  induction l with
  | nil => simp
  | cons x xs ih =>
    obtain ⟨hx, hxs⟩ := List.nodup_cons.mp hnd
    obtain ⟨ih1, ih2⟩ := ih hxs
    by_cases hxa : x = a
    · subst hxa
      constructor
      · intro _
        simp [List.filterMap_cons, hga, ih2 hx]
      · intro h; simp at h
    · constructor
      · intro h
        have : a ∈ xs := by
          rcases List.mem_cons.mp h with h | h
          · exact absurd h.symm hxa
          · exact h
        simp [List.filterMap_cons, hne x hxa, ih1 this]
      · intro h
        have : a ∉ xs := fun h' => h (List.mem_cons_of_mem _ h')
        simp [List.filterMap_cons, hne x hxa, ih2 this]

theorem Run_completed (g : Graph) (f : Flow) (hf : g.Compile = .ok f) (sd : Bool)
    (outcome : TaskID → Option Err) :
    (f.Run sd outcome).completed f = true ∧ (f.Run sd outcome).canceled = false := by
  obtain ⟨_, hlen, htasks⟩ := Compile_ok_iff g f hf
  rw [← htasks] at hlen
  obtain ⟨hnd, hb⟩ := topoSort_nodup_bounded f.tasks f.tasks.length [] List.nodup_nil (by simp)
  constructor
  · rw [completed_iff]
    intro t ht
    have hmem : t ∈ topoSort f.tasks f.tasks.length [] :=
      mem_of_nodup_bounded_full _ _ hnd hb hlen t ht
    have := foldl_schedule_terminal sd f outcome (topoSort f.tasks f.tasks.length []) []
      RunState.init (by simp)
      (by
        intro l1 x l2 heq d hd
        simpa using topoSort_closed f.tasks f.tasks.length [] (by simp) l1 x l2 heq d hd)
      hb t (by simpa using hmem)
    exact this
  · have := foldl_schedule_not_canceled sd f outcome (topoSort f.tasks f.tasks.length [])
      RunState.init
    exact this

theorem danglingDependencyFrom_eq_none (n : Nat) (tasks : List Task) :
    ∀ k, (∀ i task, tasks.get? i = some task → ∀ d ∈ task.Dependencies, d < n) →
      danglingDependencyFrom n k tasks = none := by
  induction tasks with
  | nil => intro k _; rfl
  | cons x xs ih =>
    intro k h
    unfold danglingDependencyFrom
    have hfind : x.Dependencies.find? (fun d => decide (n ≤ d)) = none := by
      rw [List.find?_eq_none]
      intro d hd
      have := h 0 x rfl d hd
      simpa using this
    rw [hfind]
    exact ih (k + 1) (fun i task hget d hd => h (i + 1) task hget d hd)

theorem topoSort_contains_issued (tasks : List Task)
    (h : ∀ t d, DependsOn tasks t d → d < t) (k : Nat) :
    ∀ (m : Nat) (sorted : List TaskID), (∀ t, t < m → t < tasks.length → t ∈ sorted) →
      ∀ t, t < m + k → t < tasks.length → t ∈ topoSort tasks k sorted := by
  induction k with
  | zero => intro m sorted hs t ht htn; exact hs t ht htn
  | succ k ih =>
    intro m sorted hs t ht htn
    rw [topoSort]
    apply ih (m + 1) _ _ t (by omega) htn
    intro u hu hun
    by_cases hum : u < m
    · exact List.mem_append_left _ (hs u hum hun)
    · have hueq : u = m := by omega
      by_cases hmem : u ∈ sorted
      · exact List.mem_append_left _ hmem
      · apply List.mem_append_right
        rw [mem_readyTasks]
        refine ⟨hun, hmem, ?_⟩
        intro d hd
        have hdu : d < u := h u d ((dependsOn_iff tasks u d).mpr hd)
        exact hs d (hueq ▸ hdu) (lt_trans hdu hun)

theorem Compile_ok_of_depsIssuedEarlier (g : Graph) (h : g.depsIssuedEarlier = true) :
    g.Compile = .ok { name := g.name, tasks := g.tasks,
                      dependents := (List.range g.tasks.length).map (dependentsOf g.tasks) } := by
  have hedge : ∀ t d, DependsOn g.tasks t d → d < t := Graph.depsIssuedEarlier_spec g h
  have hdang : danglingDependencyFrom g.tasks.length 0 g.tasks = none := by
    apply danglingDependencyFrom_eq_none
    intro i task hget d hd
    have h1 : d < i := hedge i d ⟨task, hget, hd⟩
    have h2 : i < g.tasks.length := dependsOn_lt_length g.tasks i d ⟨task, hget, hd⟩
    exact lt_trans h1 h2
  obtain ⟨hnd, hb⟩ := topoSort_nodup_bounded g.tasks g.tasks.length [] List.nodup_nil (by simp)
  have hall : ∀ t, t < g.tasks.length → t ∈ topoSort g.tasks g.tasks.length [] := by
    intro t ht
    exact topoSort_contains_issued g.tasks hedge g.tasks.length 0 [] (by intro t ht; omega) t
      (by omega) ht
  have hperm : (topoSort g.tasks g.tasks.length []).Perm (List.range g.tasks.length) := by
    rw [List.perm_ext_iff_of_nodup hnd (List.nodup_range _)]
    intro a
    rw [List.mem_range]
    exact ⟨hb a, hall a⟩
  have hlen : (topoSort g.tasks g.tasks.length []).length = g.tasks.length := by
    rw [hperm.length_eq, List.length_range]
  unfold Graph.Compile
  rw [hdang]
  simp only [hlen, if_true]

end flow

open flow in
theorem deleteShootFlowGraph_compiles (i : DeleteFlowInputs) :
    ∃ f, (deleteShootFlowGraph i).g.Compile = .ok f ∧ f.tasks = (deleteShootFlowGraph i).g.tasks :=
  ⟨_, Compile_ok_of_depsIssuedEarlier _ (deleteShootFlowGraph_depsIssuedEarlier i), rfl⟩

/-! ## C2: the preliminary routine of `runDeleteShootFlow` -/

theorem errors.HandleErrors_err_vars_indep {σ : Type} (steps : List (errors.TaskFunc σ)) :
    ∀ (ec ec' : errors.ErrorContext) (v : σ),
      (errors.HandleErrors ec steps v).err = (errors.HandleErrors ec' steps v).err ∧
      (errors.HandleErrors ec steps v).vars = (errors.HandleErrors ec' steps v).vars := by
  induction steps with
  | nil => intro ec ec' v; simp [errors.HandleErrors]
  | cons step rest ih =>
    intro ec ec' v
    unfold errors.HandleErrors
    rcases hfn : step.fn v with ⟨_ | e, v'⟩
    · simp only
      split <;> split <;> exact ih _ _ _
    · simp only
      split <;> simp

theorem errors.HandleErrors_cons_none {σ : Type} (ec : errors.ErrorContext)
    (step : errors.TaskFunc σ) (rest : List (errors.TaskFunc σ)) (v v' : σ)
    (h : step.fn v = (none, v')) :
    (errors.HandleErrors ec (step :: rest) v).err = (errors.HandleErrors ec rest v').err := by
  rw [errors.HandleErrors, h]
  simp only
  split
  · exact (errors.HandleErrors_err_vars_indep rest _ _ _).1
  · rfl

theorem errors.HandleErrors_cons_canceled {σ : Type} (ec : errors.ErrorContext)
    (step : errors.TaskFunc σ) (rest : List (errors.TaskFunc σ)) (v v' : σ) (e : Err)
    (h : step.fn v = (some e, v')) (hc : errors.WasCanceled e = true) :
    (errors.HandleErrors ec (step :: rest) v).err = some e := by
  rw [errors.HandleErrors, h]
  simp [hc]

theorem retry.UntilTimeout_createBotanistPoll (polls : List (Option Err)) (h : none ∈ polls) :
    ∀ (created : Bool) (lastErr : Option Err),
      retry.UntilTimeout createBotanistPoll polls created lastErr = (none, true) := by
  induction polls with
  | nil => simp at h
  | cons p ps ih =>
    intro created lastErr
    cases p with
    | none => simp [retry.UntilTimeout, retry.Ok, createBotanistPoll]
    | some e =>
      have h' : none ∈ ps := by simpa using h
      simp only [retry.UntilTimeout, retry.MinorError, createBotanistPoll]
      exact ih h' _ _

/-- C2: whenever the preliminary sequential routine of `runDeleteShootFlow` ends with an
error that is or contains a Canceled signal, `runDeleteShootFlow` returns nil and neither
builds nor runs the deletion flow; this is in particular so when the botanist gets created,
the required extensions exist and the `Get` of the shoot namespace fails with NotFound, the
routine then ending with `errors.Cancel()`; for every other non-nil error of the routine,
`runDeleteShootFlow` returns a non-nil `WrappedLastErrors` (and builds no flow either). -/
theorem C2_runDeleteShootFlow_canceled_is_not_a_failure
    (env : DeleteShootEnv) (errorContext : errors.ErrorContext) :
    (∀ err, (deleteShootPreliminary env errorContext).err = some err →
        errors.WasCanceled err = true →
        runDeleteShootFlow env errorContext =
          { result := none, graph := none, flowRun := false }) ∧
    (∀ err, none ∈ env.newBotanist → env.requiredExtensionsExist = none →
        env.getNamespace = .error err → IsNotFound err = true →
        (deleteShootPreliminary env errorContext).err = some errors.Cancel ∧
        runDeleteShootFlow env errorContext =
          { result := none, graph := none, flowRun := false }) ∧
    (∀ err, (deleteShootPreliminary env errorContext).err = some err →
        errors.WasCanceled err = false →
        (runDeleteShootFlow env errorContext).result ≠ none ∧
        (runDeleteShootFlow env errorContext).graph = none ∧
        (runDeleteShootFlow env errorContext).flowRun = false) := by
  have hA : ∀ err, (deleteShootPreliminary env errorContext).err = some err →
        errors.WasCanceled err = true →
        runDeleteShootFlow env errorContext =
          { result := none, graph := none, flowRun := false } := by
    intro err h hc
    simp [runDeleteShootFlow, h, hc]
  refine ⟨hA, ?_, ?_⟩
  · intro err hb hr hn hnf
    have hpre : (deleteShootPreliminary env errorContext).err = some errors.Cancel := by
      unfold deleteShootPreliminary deleteShootSteps
      rw [errors.HandleErrors_cons_none _ _ _ _ { botanistCreated := true }]
      · rw [errors.HandleErrors_cons_none _ _ _ _ { botanistCreated := true }]
        · apply errors.HandleErrors_cons_canceled _ _ _ _ { botanistCreated := true }
          · simp [errors.ToExecute, hn, hnf]
          · rfl
        · simp [errors.ToExecute, hr]
      · simp [errors.ToExecute, retry.UntilTimeout_createBotanistPoll _ hb]
    exact ⟨hpre, hA _ hpre rfl⟩
  · intro err h hc
    simp [runDeleteShootFlow, h, hc]

/-- Witness of C2: with the shoot namespace NotFound the sample run ends Canceled and returns
nil without a flow; with another error of that `Get` it returns a non-nil result. -/
theorem C2_runDeleteShootFlow_canceled_is_not_a_failure_witness :
    runDeleteShootFlow (sampleDeleteShootEnv (.error (.notFound "namespace not found")))
        { name := "shoot" } = { result := none, graph := none, flowRun := false } ∧
    ((deleteShootPreliminary (sampleDeleteShootEnv (.error (.notFound "namespace not found")))
        { name := "shoot" }).err = some errors.Cancel ∧
      runDeleteShootFlow (sampleDeleteShootEnv (.error (.notFound "namespace not found")))
        { name := "shoot" } = { result := none, graph := none, flowRun := false }) ∧
    ((runDeleteShootFlow (sampleDeleteShootEnv (.error (.message "connection refused")))
        { name := "shoot" }).result ≠ none ∧
      (runDeleteShootFlow (sampleDeleteShootEnv (.error (.message "connection refused")))
        { name := "shoot" }).graph = none ∧
      (runDeleteShootFlow (sampleDeleteShootEnv (.error (.message "connection refused")))
        { name := "shoot" }).flowRun = false) :=
  ⟨(C2_runDeleteShootFlow_canceled_is_not_a_failure
      (sampleDeleteShootEnv (.error (.notFound "namespace not found"))) { name := "shoot" }).1
      errors.Cancel rfl rfl,
   (C2_runDeleteShootFlow_canceled_is_not_a_failure
      (sampleDeleteShootEnv (.error (.notFound "namespace not found"))) { name := "shoot" }).2.1
      (.notFound "namespace not found") (by simp [sampleDeleteShootEnv]) rfl rfl rfl,
   (C2_runDeleteShootFlow_canceled_is_not_a_failure
      (sampleDeleteShootEnv (.error (.message "connection refused"))) { name := "shoot" }).2.2
      (.withID "Retrieve the Shoot namespace in the Seed cluster" (.message "connection refused"))
      rfl rfl⟩

/-! ## C3: the function polled by `WaitUntilInfrastructureDeleted` -/

theorem retry.UntilTimeout_found_prefix (helpers : InfrastructureHelpers)
    (found : List Infrastructure) (tail : List (Except Err Infrastructure)) :
    ∀ (lastError : Option LastError) (lastErr : Option Err),
      retry.UntilTimeout (waitUntilInfrastructureDeletedPoll helpers)
          (found.map Except.ok ++ tail) lastError lastErr =
        retry.UntilTimeout (waitUntilInfrastructureDeletedPoll helpers) tail
          (lastErrorAfter found lastError)
          (match found with
           | [] => lastErr
           | _ :: _ =>
             some (helpers.WrapWithLastError (.message "infrastructure is still present")
               (lastErrorAfter found lastError))) := by
  induction found with
  | nil => intro lastError lastErr; rfl
  | cons infra rest ih =>
    intro lastError lastErr
    rw [List.map_cons, List.cons_append, retry.UntilTimeout]
    simp only [waitUntilInfrastructureDeletedPoll, retry.MinorError, Option.isSome_some, if_true]
    rw [ih]
    cases rest with
    | nil => rfl
    | cons i r => rfl

theorem WaitUntilInfrastructureDeleted_not_found (helpers : InfrastructureHelpers)
    (found : List Infrastructure) (err : Err) (rest : List (Except Err Infrastructure))
    (h : IsNotFound err = true) :
    WaitUntilInfrastructureDeleted helpers (found.map Except.ok ++ .error err :: rest) = none := by
  unfold WaitUntilInfrastructureDeleted
  rw [retry.UntilTimeout_found_prefix, retry.UntilTimeout]
  simp [waitUntilInfrastructureDeletedPoll, h, retry.Ok]

theorem WaitUntilInfrastructureDeleted_severe (helpers : InfrastructureHelpers)
    (found : List Infrastructure) (err : Err) (rest : List (Except Err Infrastructure))
    (h : IsNotFound err = false) :
    WaitUntilInfrastructureDeleted helpers (found.map Except.ok ++ .error err :: rest) =
      some (helpers.DetermineError ("Failed to delete infrastructure: " ++
        match lastErrorAfter found none with
        | some lastError => lastError.Description
        | none => err.Error)) := by
  unfold WaitUntilInfrastructureDeleted
  rw [retry.UntilTimeout_found_prefix, retry.UntilTimeout]
  simp only [waitUntilInfrastructureDeletedPoll, h, retry.SevereError]
  cases lastErrorAfter found none <;> simp

theorem WaitUntilInfrastructureDeleted_timeout (helpers : InfrastructureHelpers)
    (found : List Infrastructure) :
    WaitUntilInfrastructureDeleted helpers (found.map Except.ok) =
      some (helpers.DetermineError ("Failed to delete infrastructure: " ++
        match lastErrorAfter found none with
        | some lastError => lastError.Description
        | none =>
          match found with
          | [] => "retry failed with context deadline exceeded"
          | _ :: _ =>
            "retry failed with context deadline exceeded, last error: " ++
              (helpers.WrapWithLastError (.message "infrastructure is still present")
                none).Error)) := by
  have h := retry.UntilTimeout_found_prefix helpers found [] none none
  rw [List.append_nil] at h
  unfold WaitUntilInfrastructureDeleted
  rw [h]
  cases found with
  | nil => rfl
  | cons i r =>
    simp only [retry.UntilTimeout]
    cases hl : lastErrorAfter (i :: r) none <;> simp [Err.Error]

/-- C3: for every outcome of the `Get` of the infrastructure resource, the function polled
by `WaitUntilInfrastructureDeleted` reports success (`retry.Ok`) if and only if the `Get`
fails with NotFound, reports a Severe error, the error of the `Get`, if and only if the
`Get` fails with another error, and reports a Minor error if and only if the resource is
still there, so never success in that case. After a Minor error the retry loop goes on with
the next call. For the wait as a whole, after any number of calls that found the resource: a
NotFound ends it with success, another error of the `Get` ends it at that call with a
failure, whatever later calls would see, and when the resource is found until the timeout
the wait fails with the timeout error or the last error of the resource. -/
theorem C3_waitUntilInfrastructureDeleted_poll_classification (helpers : InfrastructureHelpers)
    (get : Except Err Infrastructure) (lastError : Option LastError) :
    ((waitUntilInfrastructureDeletedPoll helpers get lastError).1 = retry.Ok ↔
        ∃ err, get = .error err ∧ IsNotFound err = true) ∧
    ((waitUntilInfrastructureDeletedPoll helpers get lastError).1.isOk = true ↔
        ∃ err, get = .error err ∧ IsNotFound err = true) ∧
    ((waitUntilInfrastructureDeletedPoll helpers get lastError).1.isSevere = true ↔
        ∃ err, get = .error err ∧ IsNotFound err = false) ∧
    (∀ err, get = .error err → IsNotFound err = false →
        (waitUntilInfrastructureDeletedPoll helpers get lastError).1 = retry.SevereError err) ∧
    ((waitUntilInfrastructureDeletedPoll helpers get lastError).1.isMinor = true ↔
        ∃ infrastructure, get = .ok infrastructure) ∧
    (∀ (infrastructure : Infrastructure) (rest : List (Except Err Infrastructure))
        (lastErr : Option Err), get = .ok infrastructure →
        retry.UntilTimeout (waitUntilInfrastructureDeletedPoll helpers) (get :: rest) lastError
            lastErr =
          retry.UntilTimeout (waitUntilInfrastructureDeletedPoll helpers) rest
            (waitUntilInfrastructureDeletedPoll helpers get lastError).2
            (waitUntilInfrastructureDeletedPoll helpers get lastError).1.2) ∧
    (∀ (found : List Infrastructure) (err : Err) (rest : List (Except Err Infrastructure)),
        IsNotFound err = true →
        WaitUntilInfrastructureDeleted helpers (found.map Except.ok ++ .error err :: rest) =
          none) ∧
    (∀ (found : List Infrastructure) (err : Err) (rest : List (Except Err Infrastructure)),
        IsNotFound err = false →
        WaitUntilInfrastructureDeleted helpers (found.map Except.ok ++ .error err :: rest) =
          some (helpers.DetermineError ("Failed to delete infrastructure: " ++
            match lastErrorAfter found none with
            | some lastError => lastError.Description
            | none => err.Error))) ∧
    (∀ found : List Infrastructure,
        WaitUntilInfrastructureDeleted helpers (found.map Except.ok) =
          some (helpers.DetermineError ("Failed to delete infrastructure: " ++
            match lastErrorAfter found none with
            | some lastError => lastError.Description
            | none =>
              match found with
              | [] => "retry failed with context deadline exceeded"
              | _ :: _ =>
                "retry failed with context deadline exceeded, last error: " ++
                  (helpers.WrapWithLastError (.message "infrastructure is still present")
                    none).Error))) := by
  refine ⟨?_, ?_, ?_, ?_, ?_, ?_, ?_, ?_, ?_⟩
  · cases get with
    | error err =>
      by_cases h : IsNotFound err = true <;>
        simp [waitUntilInfrastructureDeletedPoll, h, retry.Ok, retry.SevereError]
    | ok infra => simp [waitUntilInfrastructureDeletedPoll, retry.Ok, retry.MinorError]
  · cases get with
    | error err =>
      by_cases h : IsNotFound err = true <;>
        simp [waitUntilInfrastructureDeletedPoll, h, retry.Ok, retry.SevereError,
          retry.Result.isOk]
    | ok infra =>
      simp [waitUntilInfrastructureDeletedPoll, retry.MinorError, retry.Result.isOk]
  · cases get with
    | error err =>
      by_cases h : IsNotFound err = true <;>
        simp [waitUntilInfrastructureDeletedPoll, h, retry.Ok, retry.SevereError,
          retry.Result.isSevere]
    | ok infra =>
      simp [waitUntilInfrastructureDeletedPoll, retry.MinorError, retry.Result.isSevere]
  · intro err hget hnf
    subst hget
    simp [waitUntilInfrastructureDeletedPoll, hnf]
  · cases get with
    | error err =>
      by_cases h : IsNotFound err = true <;>
        simp [waitUntilInfrastructureDeletedPoll, h, retry.Ok, retry.SevereError,
          retry.Result.isMinor]
    | ok infra =>
      simp [waitUntilInfrastructureDeletedPoll, retry.MinorError, retry.Result.isMinor]
  · intro infrastructure rest lastErr hget
    subst hget
    rw [retry.UntilTimeout]
    simp [waitUntilInfrastructureDeletedPoll, retry.MinorError]
  · exact WaitUntilInfrastructureDeleted_not_found helpers
  · exact WaitUntilInfrastructureDeleted_severe helpers
  · exact WaitUntilInfrastructureDeleted_timeout helpers

/-- Witness of C3: a refused connection is reported as a Severe error and ends the wait at
that call, also after a retry; a NotFound after two calls that found the resource ends the
wait with success. -/
theorem C3_waitUntilInfrastructureDeleted_poll_classification_witness :
    (waitUntilInfrastructureDeletedPoll sampleInfrastructureHelpers
        (.error (.message "connection refused")) none).1 =
      retry.SevereError (.message "connection refused") ∧
    WaitUntilInfrastructureDeleted sampleInfrastructureHelpers
        [.ok {}, .error (.message "connection refused"), .error (.notFound "gone")] =
      some (.message "Failed to delete infrastructure: connection refused") ∧
    WaitUntilInfrastructureDeleted sampleInfrastructureHelpers
        [.ok {}, .ok { StatusLastError := some ⟨"quota exceeded"⟩ },
          .error (.notFound "gone"), .ok {}] = none :=
  ⟨(C3_waitUntilInfrastructureDeleted_poll_classification sampleInfrastructureHelpers
      (.error (.message "connection refused")) none).2.2.2.1 _ rfl rfl,
   (C3_waitUntilInfrastructureDeleted_poll_classification sampleInfrastructureHelpers (.ok {}) none).2.2.2.2.2.2.2.1 [{}]
      (.message "connection refused") [.error (.notFound "gone")] rfl,
   (C3_waitUntilInfrastructureDeleted_poll_classification sampleInfrastructureHelpers (.ok {}) none).2.2.2.2.2.2.1
      [{}, { StatusLastError := some ⟨"quota exceeded"⟩ }] (.notFound "gone") [.ok {}] rfl⟩

/-! ## C4, C5, C6: the flow engine -/

namespace flow

/-- C4: in every run of every flow, valid ones included, under any interleaving of the moves
of the executor (dispatching, finishing, canceling) and under both readings of how far a
failure reaches, whenever the unit of work of a task `T` is invoked, every dependency `D` of
`T` has reached a terminal state strictly before: the trace up to that invocation holds an
event that settles `D` in a terminal state. -/
theorem C4_dependencies_settled_before_invocation (skipDescendants : Bool) (f : Flow)
    (outcome : TaskID → Option Err) (schedule : List Action) (pre post : List Event)
    (T : TaskID)
    (h : (exec skipDescendants f outcome schedule).trace = pre ++ Event.invoked T :: post) :
    ∀ D ∈ dependenciesOf f.tasks T, ∃ st, st.terminal = true ∧ Event.settled D st ∈ pre :=
  (Inv.exec skipDescendants f outcome schedule).never_early pre post T h

/-- Witness of C4: the diamond of the ordering property under an interleaved schedule in
which `D` is looked at too early once; `D` is invoked after `B` and `C` have settled. -/
theorem C4_dependencies_settled_before_invocation_witness :
    (exec true diamondFlow (fun _ => none)
        [.dispatch 0, .dispatch 3, .finish 0, .dispatch 1, .dispatch 2, .finish 2, .finish 1,
         .dispatch 3, .finish 3]).trace =
      [.invoked 0, .settled 0 .Succeeded, .invoked 1, .invoked 2, .settled 2 .Succeeded,
       .settled 1 .Succeeded] ++ Event.invoked 3 :: [.settled 3 .Succeeded] ∧
    ∀ D ∈ dependenciesOf diamondFlow.tasks 3, ∃ st, st.terminal = true ∧
      Event.settled D st ∈
        [Event.invoked 0, .settled 0 .Succeeded, .invoked 1, .invoked 2, .settled 2 .Succeeded,
         .settled 1 .Succeeded] :=
  ⟨rfl, C4_dependencies_settled_before_invocation true diamondFlow (fun _ => none)
    [.dispatch 0, .dispatch 3, .finish 0, .dispatch 1, .dispatch 2, .finish 2, .finish 1,
     .dispatch 3, .finish 3] _ _ 3 rfl⟩

/-- C5: `Compile` on a graph that contains a cycle, a chain of dependencies leading from a
task back to itself, a single self-dependency included, returns a construction-fatal error
and never a flow. -/
theorem C5_compile_rejects_cycles (g : Graph) (t : TaskID) (hcyc : Relation.TransGen (DependsOn g.tasks) t t) :
    (∃ e, g.Compile = .error e) ∧ ∀ f, g.Compile ≠ .ok f := by
  have hno : ∀ f, g.Compile ≠ .ok f := fun f h => Compile_ok_acyclic g f h t hcyc
  refine ⟨?_, hno⟩
  cases h : g.Compile with
  | error e => exact ⟨e, rfl⟩
  | ok f => exact absurd h (hno f)

/-- Witness of C5: the two-task cycle and the self-dependency are both rejected. -/
theorem C5_compile_rejects_cycles_witness :
    ((∃ e, cyclicGraph.Compile = .error e) ∧ ∀ f, cyclicGraph.Compile ≠ .ok f) ∧
    ((∃ e, selfDependentGraph.Compile = .error e) ∧ ∀ f, selfDependentGraph.Compile ≠ .ok f) :=
  ⟨C5_compile_rejects_cycles cyclicGraph 0
      (Relation.TransGen.tail
        (Relation.TransGen.single ⟨_, rfl, List.mem_singleton.mpr rfl⟩)
        ⟨_, rfl, List.mem_singleton.mpr rfl⟩),
   C5_compile_rejects_cycles selfDependentGraph 0
      (Relation.TransGen.single ⟨_, rfl, List.mem_singleton.mpr rfl⟩)⟩

/-- C6: let `f` be a valid flow in which the unit of work of task `A` fails with the error `e`
(it is not skipped by policy) and every other unit of work succeeds, let `B` depend on `A`,
and let `C` be a task that is not skipped by policy and has no dependency relation to `A`.
Then, under both readings of how far a failure reaches, the sequential run completes, and
every completed run that was not canceled, under any interleaving, ends with `A` failed, `C`
succeeded, `B` skipped without its unit of work ever being invoked, and has as result the
aggregate that holds the error of `A` only. -/
theorem C6_independent_progress_under_failure (skipDescendants : Bool) (g : Graph) (f : Flow)
    (hf : g.Compile = .ok f) (outcome : TaskID → Option Err)
    (A B C : TaskID) (e : Err)
    (hA : outcome A = some e) (hOnly : ∀ t, t ≠ A → outcome t = none)
    (hApol : skipsByPolicy f A = false)
    (hBA : DependsOn f.tasks B A)
    (hC : C < f.tasks.length) (hCA : ¬ Relation.ReflTransGen (DependsOn f.tasks) C A)
    (hCpol : skipsByPolicy f C = false) :
    ((f.Run skipDescendants outcome).completed f = true ∧
      (f.Run skipDescendants outcome).canceled = false) ∧
    ∀ schedule, (exec skipDescendants f outcome schedule).completed f = true →
      (exec skipDescendants f outcome schedule).canceled = false →
        (exec skipDescendants f outcome schedule).state A = .Failed ∧
        (exec skipDescendants f outcome schedule).state C = .Succeeded ∧
        (exec skipDescendants f outcome schedule).state B = .Skipped ∧
        Event.invoked B ∉ (exec skipDescendants f outcome schedule).trace ∧
        (exec skipDescendants f outcome schedule).result f outcome =
          .aggregate [(taskName f A, e)] := by
  refine ⟨Run_completed g f hf skipDescendants outcome, ?_⟩
  intro schedule hcomp hcan
  have inv := Inv.exec skipDescendants f outcome schedule
  generalize exec skipDescendants f outcome schedule = s at hcomp hcan inv ⊢
  rw [completed_iff] at hcomp
  have htasks := (Compile_ok_iff g f hf).2.2
  have hAlt : A < f.tasks.length := Compile_ok_dependency_lt g f hf B A hBA
  have hBlt : B < f.tasks.length := dependsOn_lt_length _ _ _ hBA
  have hfailed : ∀ d, s.state d = .Failed → d = A := by
    intro d hd
    by_contra hne
    exact (inv.outcome_ok d).2 hd (hOnly d hne)
  have hAF : s.state A = .Failed := by
    rcases terminal_cases _ (hcomp A hAlt) with h | h | h
    · have := (inv.outcome_ok A).1 h
      rw [hA] at this; cases this
    · rcases (inv.skipped A h).2 with h1 | h2 | ⟨failed, hF, hpath⟩
      · rw [hApol] at h1; cases h1
      · rw [hcan] at h2; cases h2
      · have hFA := hfailed failed hF
        subst hFA
        rw [htasks] at hpath
        exact absurd hpath (Compile_ok_acyclic g f hf failed)
    · exact h
  have hCS : s.state C = .Succeeded := by
    have hCne : C ≠ A := fun h => hCA (h ▸ Relation.ReflTransGen.refl)
    rcases terminal_cases _ (hcomp C hC) with h | h | h
    · exact h
    · rcases (inv.skipped C h).2 with h1 | h2 | ⟨failed, hF, hpath⟩
      · rw [hCpol] at h1; cases h1
      · rw [hcan] at h2; cases h2
      · have hFA := hfailed failed hF
        subst hFA
        exact absurd hpath.to_reflTransGen hCA
    · exact absurd (hfailed C h) hCne
  have hBS : s.state B = .Skipped := by
    have hdep : A ∈ dependenciesOf f.tasks B := (dependsOn_iff _ _ _).mp hBA
    rcases terminal_cases _ (hcomp B hBlt) with h | h | h
    · rcases (inv.started B (Or.inr (Or.inl h))).2 A hdep with h' | h' <;>
        rw [hAF] at h' <;> cases h'
    · exact h
    · rcases (inv.started B (Or.inr (Or.inr h))).2 A hdep with h' | h' <;>
        rw [hAF] at h' <;> cases h'
  refine ⟨hAF, hCS, hBS, (inv.skipped B hBS).1, ?_⟩
  have hfail : s.failures f outcome = [(taskName f A, e)] := by
    unfold RunState.failures
    refine (filterMap_single _ A (taskName f A, e) ?_ ?_ _ (List.nodup_range _)).1
      (List.mem_range.mpr hAlt)
    · simp [hAF, hA]
    · intro x hx
      have : s.state x ≠ .Failed := fun h => hx (hfailed x h)
      simp [this]
  simp [RunState.result, hcan, hfail]

set_option maxRecDepth 100000 in
/-- Witness of C6: in the three-task example `A` fails, `B` depends on `A`, `C` is
independent; the sequential run ends with `C` succeeded and `B` skipped, and reports the
error of `A` only. In the deletion flow of a shoot, when "Cleaning Kubernetes resources"
(16) fails, "Cleaning shoot namespaces" (17), which depends on it, is skipped without being
invoked, while "Deleting shoot monitoring stack in Seed" (11) succeeds. -/
theorem C6_independent_progress_under_failure_witness :
    (((branchFlow.Run false onlyFirstFails).completed branchFlow = true ∧
        (branchFlow.Run false onlyFirstFails).canceled = false) ∧
      ((branchFlow.Run false onlyFirstFails).state 0 = .Failed ∧
        (branchFlow.Run false onlyFirstFails).state 2 = .Succeeded ∧
        (branchFlow.Run false onlyFirstFails).state 1 = .Skipped ∧
        Event.invoked 1 ∉ (branchFlow.Run false onlyFirstFails).trace ∧
        (branchFlow.Run false onlyFirstFails).result branchFlow onlyFirstFails =
          .aggregate [(taskName branchFlow 0, .message "boom")])) ∧
    ((deleteShootFlowGraph sampleDeleteFlowInputs).g.Compile = .ok sampleDeleteFlow ∧
      ((sampleDeleteFlow.Run true cleanKubernetesResourcesFails).completed sampleDeleteFlow =
          true ∧
        (sampleDeleteFlow.Run true cleanKubernetesResourcesFails).canceled = false) ∧
      ((sampleDeleteFlow.Run true cleanKubernetesResourcesFails).state 16 = .Failed ∧
        (sampleDeleteFlow.Run true cleanKubernetesResourcesFails).state 11 = .Succeeded ∧
        (sampleDeleteFlow.Run true cleanKubernetesResourcesFails).state 17 = .Skipped ∧
        Event.invoked 17 ∉ (sampleDeleteFlow.Run true cleanKubernetesResourcesFails).trace ∧
        (sampleDeleteFlow.Run true cleanKubernetesResourcesFails).result sampleDeleteFlow
            cleanKubernetesResourcesFails =
          .aggregate [(taskName sampleDeleteFlow 16, .message "timeout")])) :=
  have h := C6_independent_progress_under_failure false branchGraph branchFlow rfl
    onlyFirstFails 0 1 2 (.message "boom") rfl
    (by intro t ht; simp [onlyFirstFails, ht])
    rfl ⟨_, rfl, List.mem_singleton.mpr rfl⟩ (by decide)
    (by
      intro hr
      rcases Relation.ReflTransGen.cases_head hr with h0 | ⟨c, hc, _⟩
      · exact absurd h0 (by decide)
      · have := (dependsOn_iff _ _ _).mp hc
        simp [dependenciesOf, branchFlow, branchGraph] at this)
    rfl
  have hcomp : (deleteShootFlowGraph sampleDeleteFlowInputs).g.Compile = .ok sampleDeleteFlow :=
    Compile_ok_of_depsIssuedEarlier _ (deleteShootFlowGraph_depsIssuedEarlier _)
  have hd := C6_independent_progress_under_failure true _ sampleDeleteFlow hcomp
    cleanKubernetesResourcesFails 16 17 11 (.message "timeout") rfl
    (by intro t ht; simp [cleanKubernetesResourcesFails, ht])
    (by decide) ⟨_, rfl, by decide⟩ (by decide)
    (by
      intro hr
      rcases Relation.reflTransGen_iff_eq_or_transGen.mp hr with h0 | h1
      · exact absurd h0 (by decide)
      · have hlt := transGen_lt_of_edges_lt _
          (Graph.depsIssuedEarlier_spec _
            (deleteShootFlowGraph_depsIssuedEarlier sampleDeleteFlowInputs)) 11 16 h1
        exact absurd hlt (by decide))
    (by decide)
  ⟨⟨h.1, h.2 branchFlow.schedule h.1.1 h.1.2⟩,
   ⟨hcomp, hd.1, hd.2 sampleDeleteFlow.schedule hd.1.1 hd.1.2⟩⟩

end flow

/-! ## C7: `ReadShootedSeed` -/

theorem SplitN2_true : strings.SplitN2 "true" '=' = none := by decide

theorem parseShootedSeedFragments_foldl_true (fragments : List String) :
    ∀ acc : List String × List (String × String),
      "true" ∈ (fragments.foldl parseShootedSeedFragment acc).1 ↔
      "true" ∈ acc.1 ∨ "true" ∈ fragments := by
  induction fragments with
  | nil => intro acc; simp
  | cons x xs ih =>
    intro acc
    rw [List.foldl_cons, ih]
    unfold parseShootedSeedFragment
    cases hx : strings.SplitN2 x '=' with
    | none =>
      simp only [List.mem_cons]
      tauto
    | some kv =>
      have hne : x ≠ "true" := by
        rintro rfl
        rw [SplitN2_true] at hx
        cases hx
      simp only [List.mem_cons]
      constructor
      · rintro (h | h)
        · exact Or.inl h
        · exact Or.inr (Or.inr h)
      · rintro (h | h | h)
        · exact Or.inl h
        · exact absurd h.symm hne
        · exact Or.inr h

theorem parseShootedSeedFragments_true (annotationValue : String) :
    "true" ∈ (parseShootedSeedFragments annotationValue).1 ↔ "true" ∈ strings.Split annotationValue ',' := by
  unfold parseShootedSeedFragments
  rw [parseShootedSeedFragments_foldl_true]
  simp

theorem parseShootedSeed_eq_none_iff (annotationValue : String) :
    parseShootedSeed annotationValue = .ok none ↔ "true" ∉ strings.Split annotationValue ',' := by
  rw [← parseShootedSeedFragments_true]
  unfold parseShootedSeed
  rcases hfr : parseShootedSeedFragments annotationValue with ⟨flags, settings⟩
  simp only
  by_cases hflag : "true" ∈ flags
  · simp only [hflag, not_true_eq_false, if_false, iff_false]
    unfold parseShootedSeedBlockCIDRs parseShootedSeedShootDefaults parseShootedSeedBackup
    repeat' split
    all_goals simp
  · simp [hflag]

theorem ReadShootedSeed_eq_none_iff (shoot : Shoot) :
    ReadShootedSeed shoot = .ok none ↔
      (shoot.Namespace ≠ GardenNamespace ∨ shoot.Annotations = none ∨
        (∃ annotations, shoot.Annotations = some annotations ∧
          annotations.lookup AnnotationShootUseAsSeed = none) ∨
        (∃ annotations val, shoot.Annotations = some annotations ∧
          annotations.lookup AnnotationShootUseAsSeed = some val ∧
          "true" ∉ strings.Split val ',')) := by
  unfold ReadShootedSeed
  cases hann : shoot.Annotations with
  | none => simp
  | some annotations =>
    by_cases hns : shoot.Namespace = GardenNamespace
    · simp only [hns, ne_eq, not_true_eq_false, if_false, false_or, Option.some.injEq,
        exists_eq_left', reduceCtorEq]
      cases hval : annotations.lookup AnnotationShootUseAsSeed with
      | none => simp
      | some val =>
        have hiff : (∃ annotations' val', annotations = annotations' ∧
            annotations'.lookup AnnotationShootUseAsSeed = some val' ∧
            "true" ∉ strings.Split val' ',') ↔ "true" ∉ strings.Split val ',' := by
          constructor
          · rintro ⟨a, v, rfl, hv, ht⟩
            rw [hval] at hv
            cases hv
            exact ht
          · intro ht
            exact ⟨annotations, val, rfl, hval, ht⟩
        simp only [reduceCtorEq, false_or]
        rw [hiff, ← parseShootedSeed_eq_none_iff]
        cases hp : parseShootedSeed val with
        | error e => simp
        | ok r =>
          cases r with
          | none => simp
          | some seed =>
            simp only [Except.ok.injEq, reduceCtorEq, iff_false]
            split <;> simp
    · simp [hns]


/-- C7: `ReadShootedSeed` returns `(nil, nil)` exactly for the shoots whose namespace is not
the garden namespace, whose annotations are nil, which lack the use-as-seed annotation, or
whose annotation value, split at `,`, has no fragment that is exactly `true`; in every other
case it returns a non-nil `ShootedSeed` or a non-nil error. A value made of the fragments
`true=x` and `TRUE` has no such fragment. -/
theorem C7_ReadShootedSeed_nil_iff_not_marked (shoot : Shoot) :
    (ReadShootedSeed shoot = .ok none ↔
      (shoot.Namespace ≠ GardenNamespace ∨ shoot.Annotations = none ∨
        (∃ annotations, shoot.Annotations = some annotations ∧
          annotations.lookup AnnotationShootUseAsSeed = none) ∨
        (∃ annotations val, shoot.Annotations = some annotations ∧
          annotations.lookup AnnotationShootUseAsSeed = some val ∧
          "true" ∉ strings.Split val ','))) ∧
    (¬ (shoot.Namespace ≠ GardenNamespace ∨ shoot.Annotations = none ∨
        (∃ annotations, shoot.Annotations = some annotations ∧
          annotations.lookup AnnotationShootUseAsSeed = none) ∨
        (∃ annotations val, shoot.Annotations = some annotations ∧
          annotations.lookup AnnotationShootUseAsSeed = some val ∧
          "true" ∉ strings.Split val ',')) →
      (∃ shootedSeed, ReadShootedSeed shoot = .ok (some shootedSeed)) ∨
        ∃ err, ReadShootedSeed shoot = .error err) ∧
    ReadShootedSeed
      { Namespace := GardenNamespace
        Annotations := some [(AnnotationShootUseAsSeed, "true=x,TRUE")] } = .ok none := by
  refine ⟨ReadShootedSeed_eq_none_iff shoot, ?_, rfl⟩
  intro hnot
  have hne : ReadShootedSeed shoot ≠ .ok none :=
    fun h => hnot ((ReadShootedSeed_eq_none_iff shoot).mp h)
  cases hr : ReadShootedSeed shoot with
  | error err => exact Or.inr ⟨err, rfl⟩
  | ok r =>
    cases r with
    | none => exact absurd hr hne
    | some shootedSeed => exact Or.inl ⟨shootedSeed, rfl⟩

/-- Witness of C7: a shoot of the garden namespace marked with `true,invisible` is read as a
shooted seed; with zero API server replicas it is rejected with an error. -/
theorem C7_ReadShootedSeed_nil_iff_not_marked_witness :
    ((∃ shootedSeed, ReadShootedSeed
        { Namespace := GardenNamespace
          Annotations := some [(AnnotationShootUseAsSeed, "true,invisible")] } =
          .ok (some shootedSeed)) ∨
      ∃ err, ReadShootedSeed
        { Namespace := GardenNamespace
          Annotations := some [(AnnotationShootUseAsSeed, "true,invisible")] } = .error err) ∧
    ReadShootedSeed
      { Namespace := GardenNamespace
        Annotations := some [(AnnotationShootUseAsSeed, "true,apiServer.replicas=0")] } =
      .error (.message "apiServer.replicas: Invalid value: 0: must be greater than 0") :=
  ⟨(C7_ReadShootedSeed_nil_iff_not_marked
      { Namespace := GardenNamespace
        Annotations := some [(AnnotationShootUseAsSeed, "true,invisible")] }).2.1
      (by
        intro h
        have := (ReadShootedSeed_eq_none_iff _).mpr h
        exact absurd this (by decide)),
   rfl⟩

/-! ## C8, C9: the Kubernetes versions offered by a cloud profile -/

theorem DetermineLatestKubernetesPatchVersion_of_two_candidates
    (compareVersions : String → String → String → Except Err Bool)
    (h1 : compareVersions "1.15.9" "~" "1.15.1" = .ok true)
    (h2 : compareVersions "1.15.10" "~" "1.15.1" = .ok true) :
    DetermineLatestKubernetesPatchVersion compareVersions
        { KubernetesVersions := [{ Version := "1.15.9" }, { Version := "1.15.10" }] } "1.15.1" =
      (true, "1.15.9", none) := by
  have hsort : sort.Strings ["1.15.9", "1.15.10"] = ["1.15.10", "1.15.9"] := by decide
  simp [DetermineLatestKubernetesPatchVersion, determineNextKubernetesVersions,
    determineNextKubernetesVersions.loop, h1, h2, hsort]

theorem DetermineNextKubernetesMinorVersion_of_two_candidates
    (compareVersions : String → String → String → Except Err Bool)
    (h1 : compareVersions "1.9.0" "^" "1.8.0" = .ok true)
    (h2 : compareVersions "1.10.0" "^" "1.8.0" = .ok true) :
    DetermineNextKubernetesMinorVersion compareVersions
        { KubernetesVersions := [{ Version := "1.9.0" }, { Version := "1.10.0" }] } "1.8.0" =
      (true, "1.10.0", none) := by
  have hsort : sort.Strings ["1.9.0", "1.10.0"] = ["1.10.0", "1.9.0"] := by decide
  simp [DetermineNextKubernetesMinorVersion, determineNextKubernetesVersions,
    determineNextKubernetesVersions.loop, h1, h2, hsort]

theorem DetermineNextKubernetesMinorVersion_of_patch_candidate
    (compareVersions : String → String → String → Except Err Bool)
    (h1 : compareVersions "1.15.2" "^" "1.15.1" = .ok true) :
    DetermineNextKubernetesMinorVersion compareVersions
        { KubernetesVersions := [{ Version := "1.15.2" }] } "1.15.1" =
      (true, "1.15.2", none) := by
  simp [DetermineNextKubernetesMinorVersion, determineNextKubernetesVersions,
    determineNextKubernetesVersions.loop, h1, sort.Strings, sort.insert]

/-- C8, the code at a failing input: the profile offers 1.15.9 and 1.15.10, both of which
differ from the current version 1.15.1 and meet the constraint `~1.15.1`; 1.15.10 is the
greater one in semantic-version order, yet `DetermineLatestKubernetesPatchVersion` returns
1.15.9, the last of the strings in lexicographic order. -/
theorem C8_DetermineLatestKubernetesPatchVersion_returns_lexicographic_last :
    DetermineLatestKubernetesPatchVersion CompareVersions
        { KubernetesVersions := [{ Version := "1.15.9" }, { Version := "1.15.10" }] } "1.15.1" =
      (true, "1.15.9", none) ∧
    CompareVersions "1.15.9" "~" "1.15.1" = .ok true ∧
    CompareVersions "1.15.10" "~" "1.15.1" = .ok true ∧
    "1.15.10" ≠ "1.15.1" ∧
    (∃ v w, parseSemVer "1.15.9" = some v ∧ parseSemVer "1.15.10" = some w ∧ v.lt w = true) := by
  refine ⟨DetermineLatestKubernetesPatchVersion_of_two_candidates CompareVersions
    (by decide) (by decide), by decide, by decide, by decide, ⟨1, 15, 9⟩, ⟨1, 15, 10⟩, ?_, ?_, ?_⟩ <;>
    decide

/-- C9, the code at two failing inputs: with the current version 1.8.0 and a profile that
offers 1.9.0 and 1.10.0, `DetermineNextKubernetesMinorVersion` returns 1.10.0, the first of
the strings in lexicographic order, although 1.9.0 has a smaller minor version that is
greater than the current one; with the current version 1.15.1 and a profile that offers
only 1.15.2 it returns 1.15.2, whose minor version is not greater than the current one. -/
theorem C9_DetermineNextKubernetesMinorVersion_returns_lexicographic_first :
    DetermineNextKubernetesMinorVersion CompareVersions
        { KubernetesVersions := [{ Version := "1.9.0" }, { Version := "1.10.0" }] } "1.8.0" =
      (true, "1.10.0", none) ∧
    (∃ c v w, parseSemVer "1.8.0" = some c ∧ parseSemVer "1.9.0" = some v ∧
      parseSemVer "1.10.0" = some w ∧ c.minor < v.minor ∧ v.minor < w.minor) ∧
    DetermineNextKubernetesMinorVersion CompareVersions
        { KubernetesVersions := [{ Version := "1.15.2" }] } "1.15.1" =
      (true, "1.15.2", none) ∧
    (∃ c v, parseSemVer "1.15.1" = some c ∧ parseSemVer "1.15.2" = some v ∧
      ¬ c.minor < v.minor) := by
  refine ⟨DetermineNextKubernetesMinorVersion_of_two_candidates CompareVersions
      (by decide) (by decide),
    ⟨⟨1, 8, 0⟩, ⟨1, 9, 0⟩, ⟨1, 10, 0⟩, ?_, ?_, ?_, ?_, ?_⟩,
    DetermineNextKubernetesMinorVersion_of_patch_candidate CompareVersions (by decide),
    ⟨⟨1, 15, 1⟩, ⟨1, 15, 2⟩, ?_, ?_, ?_⟩⟩ <;> decide

/-! ## C10: `ShootWantsClusterAutoscaler` -/

theorem ShootWantsClusterAutoscaler.loop_eq (workers : List Worker) :
    ShootWantsClusterAutoscaler.loop workers =
      (decide (∃ worker ∈ workers, worker.Maximum > worker.Minimum), none) := by
  induction workers with
  | nil => simp [ShootWantsClusterAutoscaler.loop]
  | cons w ws ih =>
    unfold ShootWantsClusterAutoscaler.loop
    by_cases h : w.Maximum > w.Minimum
    · simp [h]
    · simp [h, ih]

/-- C10, the code at a failing input: for a shoot whose only worker has the minimum 3 and the
maximum 1, a maximum different from the minimum, `ShootWantsClusterAutoscaler` returns
`(false, nil)`. What the code returns in general is `(true, nil)` exactly when some worker
has a maximum greater than its minimum, and never an error. -/
theorem C10_ShootWantsClusterAutoscaler_false_when_maximum_below_minimum :
    ShootWantsClusterAutoscaler
        { Namespace := "garden", Workers := [{ Minimum := 3, Maximum := 1 }] } = (false, none) ∧
    (∃ worker ∈ [({ Minimum := 3, Maximum := 1 } : Worker)], worker.Maximum ≠ worker.Minimum) ∧
    (∀ shoot : Shoot, ShootWantsClusterAutoscaler shoot =
      (decide (∃ worker ∈ shoot.Workers, worker.Maximum > worker.Minimum), none)) := by
  refine ⟨by decide, ⟨_, List.mem_singleton.mpr rfl, by decide⟩, ?_⟩
  intro shoot
  exact ShootWantsClusterAutoscaler.loop_eq shoot.Workers

/-! ## C11: `IsProblematicWebhook` -/

theorem IsProblematicWebhook.operations_iff (ops : List String) :
    IsProblematicWebhook.operations ops = true ↔
      ∃ op ∈ ops, op = Create ∨ op = Update ∨ op = OperationAll := by
  induction ops with
  | nil => simp [IsProblematicWebhook.operations]
  | cons op rest ih =>
    unfold IsProblematicWebhook.operations
    by_cases h : op = Create ∨ op = Update ∨ op = OperationAll
    · simp only [if_pos h, true_iff]
      exact ⟨op, List.mem_cons_self _ _, h⟩
    · rw [if_neg h, ih]
      constructor
      · rintro ⟨o, ho, h1⟩
        exact ⟨o, List.mem_cons_of_mem _ ho, h1⟩
      · rintro ⟨o, ho, h1⟩
        rcases List.mem_cons.mp ho with rfl | ho
        · exact absurd h1 h
        · exact ⟨o, ho, h1⟩

theorem IsProblematicWebhook.guard_iff (rule : RuleWithOperations) :
    (sets.Has (sets.NewString rule.APIGroups) GroupName &&
        sets.HasAny (sets.NewString rule.Resources) ["pods", "nodes"]) = true ↔
      GroupName ∈ rule.APIGroups ∧ ("pods" ∈ rule.Resources ∨ "nodes" ∈ rule.Resources) := by
  simp [sets.Has, sets.HasAny, sets.NewString]

theorem IsProblematicWebhook.rules_iff (rules : List RuleWithOperations) :
    IsProblematicWebhook.rules rules = true ↔
      ∃ rule ∈ rules, GroupName ∈ rule.APIGroups ∧
        ("pods" ∈ rule.Resources ∨ "nodes" ∈ rule.Resources) ∧
        ∃ op ∈ rule.Operations, op = Create ∨ op = Update ∨ op = OperationAll := by
  induction rules with
  | nil => simp [IsProblematicWebhook.rules]
  | cons rule rest ih =>
    unfold IsProblematicWebhook.rules
    simp only
    by_cases hg : (sets.Has (sets.NewString rule.APIGroups) GroupName &&
        sets.HasAny (sets.NewString rule.Resources) ["pods", "nodes"]) = true
    · rw [if_pos hg]
      by_cases ho : IsProblematicWebhook.operations rule.Operations = true
      · rw [if_pos ho]
        simp only [true_iff]
        exact ⟨rule, List.mem_cons_self _ _, ((IsProblematicWebhook.guard_iff rule).mp hg).1, ((IsProblematicWebhook.guard_iff rule).mp hg).2,
          (IsProblematicWebhook.operations_iff _).mp ho⟩
      · rw [if_neg ho, ih]
        constructor
        · rintro ⟨r, hr, h1⟩
          exact ⟨r, List.mem_cons_of_mem _ hr, h1⟩
        · rintro ⟨r, hr, h1⟩
          rcases List.mem_cons.mp hr with rfl | hr
          · exact absurd ((IsProblematicWebhook.operations_iff _).mpr h1.2.2) ho
          · exact ⟨r, hr, h1⟩
    · rw [if_neg hg, ih]
      constructor
      · rintro ⟨r, hr, h1⟩
        exact ⟨r, List.mem_cons_of_mem _ hr, h1⟩
      · rintro ⟨r, hr, h1⟩
        rcases List.mem_cons.mp hr with rfl | hr
        · exact absurd ((IsProblematicWebhook.guard_iff r).mpr ⟨h1.1, h1.2.1⟩) hg
        · exact ⟨r, hr, h1⟩

/-- What the code of `IsProblematicWebhook` computes: true if and only if the failure policy
of the webhook is nil or `Fail` and one of its rules lists the core API group among its
groups, `pods` or `nodes` among its resources and `CREATE`, `UPDATE` or `*` among its
operations; false for every webhook whose failure policy is `Ignore`. -/
theorem IsProblematicWebhook_iff_literal_match (webhook : Webhook) :
    (IsProblematicWebhook webhook = true ↔
      (webhook.FailurePolicy = none ∨ webhook.FailurePolicy = some Fail) ∧
        ∃ rule ∈ webhook.Rules, GroupName ∈ rule.APIGroups ∧
          ("pods" ∈ rule.Resources ∨ "nodes" ∈ rule.Resources) ∧
          ∃ op ∈ rule.Operations, op = Create ∨ op = Update ∨ op = OperationAll) ∧
    (webhook.FailurePolicy = some Ignore → IsProblematicWebhook webhook = false) := by
  constructor
  · unfold IsProblematicWebhook
    by_cases h : webhook.FailurePolicy ≠ none ∧ webhook.FailurePolicy ≠ some Fail
    · rw [if_pos h]
      constructor
      · intro h1; cases h1
      · rintro ⟨h1 | h1, _⟩
        · exact absurd h1 h.1
        · exact absurd h1 h.2
    · rw [if_neg h, IsProblematicWebhook.rules_iff]
      constructor
      · intro h1
        refine ⟨?_, h1⟩
        by_cases hn : webhook.FailurePolicy = none
        · exact Or.inl hn
        · right
          by_contra hf
          exact h ⟨hn, hf⟩
      · exact fun h1 => h1.2
  · intro hi
    unfold IsProblematicWebhook
    rw [if_pos]
    rw [hi]
    exact ⟨by simp, by decide⟩

/-- C11, the code at a failing input: a webhook with the failure policy `Fail` and the one
rule of operations `*`, API groups `*` and resources `*`. The rule applies to the pods of the
core API group with the operation `*`, yet `IsProblematicWebhook` returns false: the code
looks for the empty name of the core group among the groups and for `pods` or `nodes` among
the resources, and honours `*` for the operations only. In general the code returns true
exactly when the failure policy is nil or `Fail` and a rule lists these names themselves. -/
theorem C11_IsProblematicWebhook_false_on_catch_all_rule :
    sampleCatchAllWebhook.FailurePolicy = some Fail ∧
    (∃ rule ∈ sampleCatchAllWebhook.Rules,
      rule.AppliesTo GroupName "pods" = true ∧ OperationAll ∈ rule.Operations) ∧
    IsProblematicWebhook sampleCatchAllWebhook = false ∧
    (∀ webhook : Webhook, IsProblematicWebhook webhook = true ↔
      (webhook.FailurePolicy = none ∨ webhook.FailurePolicy = some Fail) ∧
        ∃ rule ∈ webhook.Rules, GroupName ∈ rule.APIGroups ∧
          ("pods" ∈ rule.Resources ∨ "nodes" ∈ rule.Resources) ∧
          ∃ op ∈ rule.Operations, op = Create ∨ op = Update ∨ op = OperationAll) :=
  ⟨rfl, ⟨_, List.mem_singleton.mpr rfl, by decide, by decide⟩, by decide,
    fun webhook => (IsProblematicWebhook_iff_literal_match webhook).1⟩

/-! ## C12: `MergeConditions` -/

theorem Condition.types_injective {l : List Condition} (hl : (l.map Condition.Type_).Nodup)
    {i j : Nat} {c d : Condition} (hi : l[i]? = some c) (hj : l[j]? = some d)
    (h : c.Type_ = d.Type_) : i = j := by
  have key : ∀ a b : Nat, ∀ x y : Condition, a < b → l[a]? = some x → l[b]? = some y →
      x.Type_ ≠ y.Type_ := by
    intro a b x y hab hx hy hxy
    have hb : b < (l.map Condition.Type_).length := by
      rw [List.length_map]
      exact (List.getElem?_eq_some_iff.mp hy).1
    refine List.nodup_iff_getElem?_ne_getElem?.mp hl a b hab hb ?_
    rw [List.getElem?_map, List.getElem?_map, hx, hy]
    simp [hxy]
  rcases Nat.lt_trichotomy i j with hlt | heq | hgt
  · exact absurd h (key i j c d hlt hi hj)
  · exact heq
  · exact absurd h.symm (key j i d c hgt hj hi)

theorem MergeConditions.indexOld_out (old : List Condition) :
    ∀ (i : Nat) (out : List Condition) (m : List (ConditionType × Nat)),
      (MergeConditions.indexOld old i out m).1 = out ++ old := by
  induction old with
  | nil => intro i out m; simp [MergeConditions.indexOld]
  | cons c rest ih =>
    intro i out m
    rw [MergeConditions.indexOld, ih]
    simp

theorem MergeConditions.indexOld_lookup_some (old : List Condition) :
    ∀ (i : Nat) (out : List Condition) (m : List (ConditionType × Nat)) (T : ConditionType)
      (idx : Nat), (MergeConditions.indexOld old i out m).2.lookup T = some idx →
        (∃ c, i ≤ idx ∧ old[idx - i]? = some c ∧ c.Type_ = T) ∨ m.lookup T = some idx := by
  induction old with
  | nil => intro i out m T idx h; exact Or.inr h
  | cons c rest ih =>
    intro i out m T idx h
    rw [MergeConditions.indexOld] at h
    rcases ih _ _ _ _ _ h with ⟨d, hle, hd, hT⟩ | hm
    · left
      refine ⟨d, by omega, ?_, hT⟩
      have : idx - i = (idx - (i + 1)) + 1 := by omega
      rw [this, List.getElem?_cons_succ]
      exact hd
    · rw [List.lookup_cons] at hm
      by_cases hT : (T == c.Type_) = true
      · rw [hT] at hm
        simp only [Option.some.injEq] at hm
        left
        refine ⟨c, by omega, ?_, (beq_iff_eq.mp hT).symm⟩
        rw [← hm]
        simp
      · simp only [hT] at hm
        exact Or.inr hm

theorem MergeConditions.indexOld_lookup_none (old : List Condition) :
    ∀ (i : Nat) (out : List Condition) (m : List (ConditionType × Nat)) (T : ConditionType),
      (MergeConditions.indexOld old i out m).2.lookup T = none →
        m.lookup T = none ∧ ∀ c ∈ old, c.Type_ ≠ T := by
  induction old with
  | nil => intro i out m T h; exact ⟨h, fun c hc => by cases hc⟩
  | cons c rest ih =>
    intro i out m T h
    rw [MergeConditions.indexOld] at h
    obtain ⟨hm, hrest⟩ := ih _ _ _ _ h
    rw [List.lookup_cons] at hm
    by_cases hT : (T == c.Type_) = true
    · rw [hT] at hm
      cases hm
    · simp only [hT] at hm
      refine ⟨hm, ?_⟩
      intro d hd
      rcases List.mem_cons.mp hd with rfl | hd
      · intro hdT
        exact hT (beq_iff_eq.mpr hdT.symm)
      · exact hrest d hd

theorem MergeConditions.indexOld_indexOf (old : List Condition) :
    IndexOf old (MergeConditions.indexOld old 0 [] []).2 := by
  constructor
  · intro T idx h
    rcases MergeConditions.indexOld_lookup_some old 0 [] [] T idx h with ⟨c, _, hc, hT⟩ | hm
    · exact ⟨c, by simpa using hc, hT⟩
    · simp at hm
  · intro T h
    exact (MergeConditions.indexOld_lookup_none old 0 [] [] T h).2

theorem MergeConditions.eq_mergeNew (old new : List Condition) :
    MergeConditions old new =
      MergeConditions.mergeNew (MergeConditions.indexOld old 0 [] []).2 new old := by
  unfold MergeConditions
  have h := MergeConditions.indexOld_out old 0 [] []
  rw [List.nil_append] at h
  generalize MergeConditions.indexOld old 0 [] [] = p at h
  obtain ⟨out, m⟩ := p
  simp only at h
  subst h
  rfl

/-- Part b: a position of old whose type no new condition has is left as it was. -/
theorem MergeConditions.mergeNew_keeps {old : List Condition} {m : List (ConditionType × Nat)}
    (hm : IndexOf old m) (i : Nat) (c : Condition) (hc : old[i]? = some c) :
    ∀ (new out : List Condition), (∀ n ∈ new, n.Type_ ≠ c.Type_) → out[i]? = some c →
      (MergeConditions.mergeNew m new out)[i]? = some c := by
  intro new
  induction new with
  | nil => intro out _ h; exact h
  | cons n rest ih =>
    intro out hn hout
    have hrest : ∀ n' ∈ rest, n'.Type_ ≠ c.Type_ := fun n' h' => hn n' (List.mem_cons_of_mem _ h')
    unfold MergeConditions.mergeNew
    cases hl : m.lookup n.Type_ with
    | none =>
      simp only
      apply ih _ hrest
      rw [List.getElem?_append_left (List.getElem?_eq_some_iff.mp hout).1]
      exact hout
    | some idx =>
      simp only
      apply ih _ hrest
      obtain ⟨d, hd, hdT⟩ := hm.found _ _ hl
      have hne : idx ≠ i := by
        rintro rfl
        rw [hc] at hd
        cases hd
        exact hn n (List.mem_cons_self _ _) hdT.symm
      rw [List.getElem?_set_ne hne]
      exact hout

/-- Part a: an entry of the result is a new condition, or an old one left at its place whose
type none of the new conditions seen so far has. -/
theorem MergeConditions.mergeNew_origin {old : List Condition} {m : List (ConditionType × Nat)}
    (hm : IndexOf old m) (hold : (old.map Condition.Type_).Nodup) :
    ∀ (new done out : List Condition),
      (∀ (p : Nat) (r : Condition), out[p]? = some r →
        r ∈ done ∨ (old[p]? = some r ∧ ∀ n ∈ done, n.Type_ ≠ r.Type_)) →
      ∀ (p : Nat) (r : Condition), (MergeConditions.mergeNew m new out)[p]? = some r →
        r ∈ done ++ new ∨ (old[p]? = some r ∧ ∀ n ∈ done ++ new, n.Type_ ≠ r.Type_) := by
  intro new
  induction new with
  | nil => intro done out h p r hr; simpa using h p r hr
  | cons n rest ih =>
    intro done out h p r hr
    unfold MergeConditions.mergeNew at hr
    have happ : done ++ n :: rest = (done ++ [n]) ++ rest := by simp
    rw [happ]
    cases hl : m.lookup n.Type_ with
    | none =>
      rw [hl] at hr
      simp only at hr
      refine ih (done ++ [n]) _ ?_ p r hr
      intro q s hs
      by_cases hq : q < out.length
      · rw [List.getElem?_append_left hq] at hs
        rcases h q s hs with hd | ⟨ho, hty⟩
        · exact Or.inl (List.mem_append_left _ hd)
        · right
          refine ⟨ho, ?_⟩
          intro n' hn'
          rcases List.mem_append.mp hn' with h1 | h1
          · exact hty n' h1
          · rw [List.mem_singleton.mp h1]
            exact fun e => hm.missing _ hl s (List.mem_iff_getElem?.mpr ⟨_, ho⟩) e.symm
      · left
        have hq' : out.length ≤ q := Nat.le_of_not_lt hq
        rw [List.getElem?_append_right hq'] at hs
        have : s = n := by
          cases hk : q - out.length with
          | zero => rw [hk] at hs; simpa using hs.symm
          | succ k => rw [hk] at hs; simp at hs
        rw [this]
        simp
    | some idx =>
      rw [hl] at hr
      simp only at hr
      refine ih (done ++ [n]) _ ?_ p r hr
      intro q s hs
      obtain ⟨d, hd, hdT⟩ := hm.found _ _ hl
      by_cases hq : idx = q
      · subst hq
        rw [List.getElem?_set] at hs
        simp only [if_true] at hs
        left
        split at hs
        · cases hs
          simp
        · cases hs
      · rw [List.getElem?_set_ne hq] at hs
        rcases h q s hs with hd' | ⟨ho, hty⟩
        · exact Or.inl (List.mem_append_left _ hd')
        · right
          refine ⟨ho, ?_⟩
          intro n' hn'
          rcases List.mem_append.mp hn' with h1 | h1
          · exact hty n' h1
          · rw [List.mem_singleton.mp h1]
            intro e
            exact hq (Condition.types_injective hold hd ho (hdT.trans e))

/-- Part c: a new condition put into the result stays there when the types of the new
conditions are pairwise distinct. -/
theorem MergeConditions.mergeNew_contains {old : List Condition} {m : List (ConditionType × Nat)}
    (hm : IndexOf old m) :
    ∀ (new done out : List Condition), (new.map Condition.Type_).Nodup →
      (∀ d ∈ done, ∀ n ∈ new, d.Type_ ≠ n.Type_) → old.length ≤ out.length →
      (∀ d ∈ done, ∃ p, out[p]? = some d ∧ (p < old.length → m.lookup d.Type_ = some p)) →
      ∀ d ∈ done ++ new, d ∈ MergeConditions.mergeNew m new out := by
  intro new
  induction new with
  | nil =>
    intro done out _ _ _ h d hd
    obtain ⟨p, hp, _⟩ := h d (by simpa using hd)
    exact List.mem_iff_getElem?.mpr ⟨_, hp⟩
  | cons n rest ih =>
    intro done out hnd hdisj hlen h d hd
    unfold MergeConditions.mergeNew
    have happ : done ++ n :: rest = (done ++ [n]) ++ rest := by simp
    rw [happ] at hd
    have hnd' : n.Type_ ∉ rest.map Condition.Type_ ∧ (rest.map Condition.Type_).Nodup :=
      List.nodup_cons.mp hnd
    have hdisj' : ∀ d ∈ done ++ [n], ∀ n' ∈ rest, d.Type_ ≠ n'.Type_ := by
      intro d hd n' hn'
      rcases List.mem_append.mp hd with h1 | h1
      · exact hdisj d h1 n' (List.mem_cons_of_mem _ hn')
      · rw [List.mem_singleton.mp h1]
        intro e
        exact hnd'.1 (List.mem_map.mpr ⟨n', hn', e.symm⟩)
    cases hl : m.lookup n.Type_ with
    | none =>
      simp only
      refine ih (done ++ [n]) _ hnd'.2 hdisj' (by simp; omega) ?_ d hd
      intro e he
      rcases List.mem_append.mp he with h1 | h1
      · obtain ⟨p, hp, hpl⟩ := h e h1
        refine ⟨p, ?_, hpl⟩
        rw [List.getElem?_append_left (List.getElem?_eq_some_iff.mp hp).1]
        exact hp
      · rw [List.mem_singleton.mp h1]
        exact ⟨out.length, List.getElem?_concat_length _ _, fun hlt => absurd hlt (by omega)⟩
    | some idx =>
      simp only
      obtain ⟨c, hc, hcT⟩ := hm.found _ _ hl
      have hidx : idx < old.length := (List.getElem?_eq_some_iff.mp hc).1
      refine ih (done ++ [n]) _ hnd'.2 hdisj' (by simp; omega) ?_ d hd
      intro e he
      rcases List.mem_append.mp he with h1 | h1
      · obtain ⟨p, hp, hpl⟩ := h e h1
        refine ⟨p, ?_, hpl⟩
        have hne : idx ≠ p := by
          rintro rfl
          have h2 := hpl hidx
          obtain ⟨c', hc', hcT'⟩ := hm.found _ _ h2
          rw [hc] at hc'
          cases hc'
          exact hdisj e h1 n (List.mem_cons_self _ _) (hcT'.symm.trans hcT)
        rw [List.getElem?_set_ne hne]
        exact hp
      · rw [List.mem_singleton.mp h1]
        refine ⟨idx, ?_, fun _ => hl⟩
        rw [List.getElem?_set]
        simp only [if_true]
        rw [if_pos (by omega)]

/-- C12, the claim as stated fails at two inputs: with two old conditions of one type only
the last is superseded, so the first stays in the result although its type occurs among the
new conditions; with two new conditions of the type of an old one the second overwrites the
first, which is then not in the result. -/
theorem C12_MergeConditions_duplicate_types_counterexample :
    ¬ SupersedesByType
        [sampleCondition "APIServerAvailable" "True" "first",
          sampleCondition "APIServerAvailable" "False" "second"]
        [sampleCondition "APIServerAvailable" "Unknown" "new"] ∧
    ¬ SupersedesByType
        [sampleCondition "APIServerAvailable" "True" "old"]
        [sampleCondition "APIServerAvailable" "False" "first",
          sampleCondition "APIServerAvailable" "Unknown" "second"] := by
  constructor
  · intro h
    have h1 := h.1 (sampleCondition "APIServerAvailable" "True" "first") (by decide) (by decide)
    revert h1
    decide
  · intro h
    have h1 := h.2.2 (sampleCondition "APIServerAvailable" "False" "first") (by decide)
    revert h1
    decide

/-- C12 as amended: `MergeConditions(old, new...)` supersedes existing conditions by type. For
every old and new list, every condition of old whose type does not occur in new is kept
unchanged at its original index; when no two conditions of old have the same type, every
condition of the result whose type occurs in new is equal to a condition of new; when no two
conditions of new have the same type, every condition of new occurs in the result. -/
theorem C12_MergeConditions_supersedes_by_type_when_types_distinct (old new : List Condition) :
    ((old.map Condition.Type_).Nodup →
      ∀ r ∈ MergeConditions old new, r.Type_ ∈ new.map Condition.Type_ → r ∈ new) ∧
    (∀ (i : Nat) (c : Condition), old[i]? = some c → c.Type_ ∉ new.map Condition.Type_ →
      (MergeConditions old new)[i]? = some c) ∧
    ((new.map Condition.Type_).Nodup → ∀ n ∈ new, n ∈ MergeConditions old new) := by
  have hm := MergeConditions.indexOld_indexOf old
  rw [MergeConditions.eq_mergeNew]
  refine ⟨?_, ?_, ?_⟩
  · intro hold r hr hty
    obtain ⟨p, hp⟩ := List.mem_iff_getElem?.mp hr
    have h := MergeConditions.mergeNew_origin hm hold new [] old
      (fun q s hs => Or.inr ⟨hs, fun n hn => by cases hn⟩) p r hp
    rw [List.nil_append] at h
    rcases h with h | ⟨_, h⟩
    · exact h
    · obtain ⟨n, hn, hnt⟩ := List.mem_map.mp hty
      exact absurd hnt (h n hn)
  · intro i c hc hty
    refine MergeConditions.mergeNew_keeps hm i c hc new old ?_ hc
    intro n hn e
    exact hty (List.mem_map.mpr ⟨n, hn, e⟩)
  · intro hnew n hn
    refine MergeConditions.mergeNew_contains hm new [] old hnew ?_ (Nat.le_refl _) ?_ n
      (by simpa using hn)
    · intro d hd; cases hd
    · intro d hd; cases hd

theorem C12_MergeConditions_supersedes_by_type_when_types_distinct_witness :
    (sampleOldConditions.map Condition.Type_).Nodup ∧
    (sampleNewConditions.map Condition.Type_).Nodup ∧
    MergeConditions sampleOldConditions sampleNewConditions =
      [sampleCondition "APIServerAvailable" "True" "a",
        sampleCondition "EveryNodeReady" "True" "c",
        sampleCondition "SystemComponentsHealthy" "Unknown" "d"] ∧
    (∀ r ∈ MergeConditions sampleOldConditions sampleNewConditions,
      r.Type_ ∈ sampleNewConditions.map Condition.Type_ → r ∈ sampleNewConditions) ∧
    (∀ n ∈ sampleNewConditions, n ∈ MergeConditions sampleOldConditions sampleNewConditions) :=
  ⟨by decide, by decide, by decide,
    (C12_MergeConditions_supersedes_by_type_when_types_distinct sampleOldConditions
      sampleNewConditions).1 (by decide),
    (C12_MergeConditions_supersedes_by_type_when_types_distinct sampleOldConditions
      sampleNewConditions).2.2 (by decide)⟩

/-! ## C13: `NewConditions` -/

theorem GetCondition_some (cs : List Condition) (t : ConditionType) (c : Condition)
    (h : GetCondition cs t = some c) : FirstOfType cs t c := by
  induction cs with
  | nil => cases h
  | cons d rest ih =>
    unfold GetCondition at h
    by_cases hd : d.Type_ = t
    · rw [if_pos hd] at h
      cases h
      exact ⟨0, List.getElem?_cons_zero, hd, fun i e hi _ => absurd hi (Nat.not_lt_zero i)⟩
    · rw [if_neg hd] at h
      obtain ⟨j, hj, hct, hfirst⟩ := ih h
      refine ⟨j + 1, by simpa using hj, hct, ?_⟩
      intro i e hi he
      cases i with
      | zero =>
        simp only [List.getElem?_cons_zero, Option.some.injEq] at he
        rw [← he]
        exact hd
      | succ i =>
        rw [List.getElem?_cons_succ] at he
        exact hfirst i e (by omega) he

theorem GetCondition_none (cs : List Condition) (t : ConditionType)
    (h : GetCondition cs t = none) : ∀ d ∈ cs, d.Type_ ≠ t := by
  induction cs with
  | nil => intro d hd; cases hd
  | cons e rest ih =>
    unfold GetCondition at h
    by_cases he : e.Type_ = t
    · rw [if_pos he] at h
      cases h
    · rw [if_neg he] at h
      intro d hd
      rcases List.mem_cons.mp hd with rfl | hd
      · exact he
      · exact ih h d hd

theorem NewConditions.loop_spec (Now : Clock) (cs : List Condition) (ts : List ConditionType) :
    ∀ (k : Nat) (acc : List Condition),
      ∃ l, NewConditions.loop Now cs ts k acc = acc ++ l ∧ List.Forall₂ (NewConditions.EntryFor Now cs) ts l := by
  induction ts with
  | nil => intro k acc; exact ⟨[], by simp [NewConditions.loop], List.Forall₂.nil⟩
  | cons t rest ih =>
    intro k acc
    unfold NewConditions.loop
    cases hg : GetCondition cs t with
    | some c =>
      simp only
      obtain ⟨l, hl, hf⟩ := ih k (acc ++ [c])
      refine ⟨c :: l, by rw [hl]; simp, List.Forall₂.cons ?_ hf⟩
      have h := GetCondition_some cs t c hg
      exact ⟨h.choose_spec.2.1, Or.inl h⟩
    | none =>
      simp only
      obtain ⟨l, hl, hf⟩ := ih (k + 1) (acc ++ [InitCondition Now k t])
      refine ⟨InitCondition Now k t :: l, by rw [hl]; simp, List.Forall₂.cons ?_ hf⟩
      exact ⟨rfl, Or.inr ⟨GetCondition_none cs t hg, rfl, rfl, k, rfl⟩⟩

/-- C13: for every condition list `cs` and every list of condition types `ts`,
`NewConditions(cs, ts...)` has exactly `len(ts)` entries and its entry number `i` has the
type `ts[i]`: it is equal to the first condition of `cs` with that type when one exists, and
otherwise `cs` has no condition of the type and the entry is made by `InitCondition`, with
the status `Unknown` and the reason `ConditionInitialized`. The function only reads `cs`. -/
theorem C13_NewConditions_one_entry_per_type_first_match_or_initialized (Now : Clock) (cs : List Condition) (ts : List ConditionType) :
    (NewConditions Now cs ts).length = ts.length ∧
    ∀ (i : Nat) (t : ConditionType), ts[i]? = some t →
      ∃ c, (NewConditions Now cs ts)[i]? = some c ∧ c.Type_ = t ∧
        (FirstOfType cs t c ∨
          ((∀ d ∈ cs, d.Type_ ≠ t) ∧ c.Status = ConditionUnknown ∧
            c.Reason = "ConditionInitialized" ∧ ∃ k : Nat, c = InitCondition Now k t)) := by
  obtain ⟨l, hl, hf⟩ := NewConditions.loop_spec Now cs ts 0 []
  rw [List.nil_append] at hl
  unfold NewConditions
  rw [hl]
  refine ⟨hf.length_eq.symm, ?_⟩
  intro i t ht
  obtain ⟨hi, hti⟩ := List.getElem?_eq_some_iff.mp ht
  have hi' : i < l.length := hf.length_eq ▸ hi
  refine ⟨l[i], List.getElem?_eq_getElem hi', ?_⟩
  have := (List.forall₂_iff_get.mp hf).2 i hi hi'
  simp only [List.get_eq_getElem] at this
  rw [hti] at this
  exact this

theorem C13_NewConditions_one_entry_per_type_first_match_or_initialized_witness :
    ["SystemComponentsHealthy", "EveryNodeReady"][1]? = some "EveryNodeReady" ∧
    ∃ c, (NewConditions sampleClock sampleOldConditions
        ["SystemComponentsHealthy", "EveryNodeReady"])[1]? = some c ∧
      c.Type_ = "EveryNodeReady" ∧
      (FirstOfType sampleOldConditions "EveryNodeReady" c ∨
        ((∀ d ∈ sampleOldConditions, d.Type_ ≠ "EveryNodeReady") ∧
          c.Status = ConditionUnknown ∧ c.Reason = "ConditionInitialized" ∧
          ∃ k : Nat, c = InitCondition sampleClock k "EveryNodeReady")) :=
  ⟨rfl,
    (C13_NewConditions_one_entry_per_type_first_match_or_initialized sampleClock
      sampleOldConditions ["SystemComponentsHealthy", "EveryNodeReady"]).2 1 "EveryNodeReady" rfl⟩

/-! ## C14: `HealthChecker.FailedCondition` -/

theorem Time.Sub_le_iff (t u : Time) (threshold : Duration) (hmin : minDuration ≤ threshold)
    (hmax : threshold < maxDuration) : Time.Sub t u ≤ threshold ↔ t - u ≤ threshold := by
  unfold Time.Sub
  by_cases h1 : t - u < minDuration
  · rw [if_pos h1]
    exact ⟨fun _ => le_trans (le_of_lt h1) hmin, fun _ => hmin⟩
  · rw [if_neg h1]
    by_cases h2 : maxDuration < t - u
    · rw [if_pos h2]
      exact ⟨fun h => absurd (lt_of_le_of_lt h hmax) (lt_irrefl _),
        fun h => absurd (lt_trans (lt_of_le_of_lt h hmax) h2) (lt_irrefl _)⟩
    · rw [if_neg h2]

theorem UpdatedCondition_updates (Now : Clock) (k : Nat) :
    UpdatesCondition (UpdatedCondition Now k) := by
  intro condition status reason message
  unfold UpdatedCondition
  by_cases h : condition.Status ≠ status
  · simp only [if_pos h, and_self]
  · simp only [if_neg h, and_self]

theorem HealthChecker.FailedCondition_cases (b : HealthChecker) (now : Time)
    (updatedCondition : Condition → ConditionStatus → String → String → Condition)
    (condition : Condition) (reason message : String) :
    b.FailedCondition now updatedCondition condition reason message =
      updatedCondition condition
        (if ∃ threshold, b.conditionThresholds condition.Type_ = some threshold ∧
            (condition.Status = ConditionTrue ∨
              (condition.Status = ConditionProgressing ∧
                Time.Sub now condition.LastTransitionTime ≤ threshold))
          then ConditionProgressing else ConditionFalse) reason message := by
  unfold HealthChecker.FailedCondition
  by_cases hT : condition.Status = ConditionTrue
  · rw [if_pos hT]
    cases hth : b.conditionThresholds condition.Type_ with
    | none => simp
    | some threshold => simp [hT]
  · rw [if_neg hT]
    by_cases hP : condition.Status = ConditionProgressing
    · rw [if_pos hP]
      cases hth : b.conditionThresholds condition.Type_ with
      | none => simp
      | some threshold =>
        by_cases hd : threshold < Time.Sub now condition.LastTransitionTime
        · have hc : ¬ ∃ th, some threshold = some th ∧ (condition.Status = ConditionTrue ∨
              (condition.Status = ConditionProgressing ∧
                Time.Sub now condition.LastTransitionTime ≤ th)) := by
            rintro ⟨th, hth1, h | ⟨_, h⟩⟩
            · exact hT h
            · cases hth1
              exact absurd h (not_le.mpr hd)
          rw [if_neg hc]
          simp only [gt_iff_lt, if_pos hd]
        · have hc : ∃ th, some threshold = some th ∧ (condition.Status = ConditionTrue ∨
              (condition.Status = ConditionProgressing ∧
                Time.Sub now condition.LastTransitionTime ≤ th)) :=
            ⟨threshold, rfl, Or.inr ⟨hP, not_lt.mp hd⟩⟩
          rw [if_pos hc]
          simp only [gt_iff_lt, if_neg hd]
    · rw [if_neg hP]
      simp [hT, hP]

/-- C14: `HealthChecker.FailedCondition`, for a helper `UpdatedCondition` that keeps the type
and sets the status, the reason and the message, returns a condition with the type of the
input and the given reason and message. Its status is `Progressing` exactly when a threshold
is configured for the type of the condition and either the status of the input is `True`, or
it is `Progressing` and the duration `Now().Sub(LastTransitionTime)` does not exceed the
threshold; in every other case the status is `False`. It is never `True` or `Unknown`. -/
theorem C14_FailedCondition_progressing_iff_within_threshold (b : HealthChecker) (now : Time)
    (updatedCondition : Condition → ConditionStatus → String → String → Condition)
    (hupdated : UpdatesCondition updatedCondition)
    (condition : Condition) (reason message : String) :
    (b.FailedCondition now updatedCondition condition reason message).Type_ = condition.Type_ ∧
    (b.FailedCondition now updatedCondition condition reason message).Reason = reason ∧
    (b.FailedCondition now updatedCondition condition reason message).Message = message ∧
    ((b.FailedCondition now updatedCondition condition reason message).Status =
        ConditionProgressing ↔
      ∃ threshold, b.conditionThresholds condition.Type_ = some threshold ∧
        (condition.Status = ConditionTrue ∨
          (condition.Status = ConditionProgressing ∧
            Time.Sub now condition.LastTransitionTime ≤ threshold))) ∧
    ((b.FailedCondition now updatedCondition condition reason message).Status ≠
        ConditionProgressing →
      (b.FailedCondition now updatedCondition condition reason message).Status =
        ConditionFalse) ∧
    (b.FailedCondition now updatedCondition condition reason message).Status ≠ ConditionTrue ∧
    (b.FailedCondition now updatedCondition condition reason message).Status ≠
      ConditionUnknown := by
  rw [HealthChecker.FailedCondition_cases]
  obtain ⟨h1, h2, h3, h4⟩ := hupdated condition
    (if ∃ threshold, b.conditionThresholds condition.Type_ = some threshold ∧
            (condition.Status = ConditionTrue ∨
              (condition.Status = ConditionProgressing ∧
                Time.Sub now condition.LastTransitionTime ≤ threshold))
          then ConditionProgressing else ConditionFalse) reason message
  rw [h2]
  refine ⟨h1, h3, h4, ?_⟩
  by_cases hc : ∃ threshold, b.conditionThresholds condition.Type_ = some threshold ∧
            (condition.Status = ConditionTrue ∨
              (condition.Status = ConditionProgressing ∧
                Time.Sub now condition.LastTransitionTime ≤ threshold))
  · rw [if_pos hc]
    exact ⟨⟨fun _ => hc, fun _ => rfl⟩, fun h => absurd rfl h, by decide, by decide⟩
  · rw [if_neg hc]
    exact ⟨⟨fun h => absurd h (by decide), fun h => absurd h hc⟩, fun _ => rfl, by decide,
      by decide⟩

theorem C14_FailedCondition_progressing_iff_within_threshold_witness :
    UpdatesCondition (UpdatedCondition sampleClock 0) ∧
    (sampleHealthChecker.FailedCondition 70000000000 (UpdatedCondition sampleClock 0)
      { Type_ := "APIServerAvailable", Status := ConditionProgressing, LastTransitionTime := 5 }
      "Unreachable" "no answer").Status ≠ ConditionProgressing ∧
    (sampleHealthChecker.FailedCondition 70000000000 (UpdatedCondition sampleClock 0)
      { Type_ := "APIServerAvailable", Status := ConditionProgressing, LastTransitionTime := 5 }
      "Unreachable" "no answer").Status = ConditionFalse :=
  ⟨UpdatedCondition_updates sampleClock 0, by decide,
    (C14_FailedCondition_progressing_iff_within_threshold sampleHealthChecker 70000000000
      (UpdatedCondition sampleClock 0) (UpdatedCondition_updates sampleClock 0)
      { Type_ := "APIServerAvailable", Status := ConditionProgressing, LastTransitionTime := 5 }
      "Unreachable" "no answer").2.2.2.2.1 (by decide)⟩

/-! ## C15: `DetermineLatestMachineImageVersion` -/

section
variable {V α : Type} (NewVersion : String → Except Err V) (GreaterThan : V → V → Bool)
  (Version : α → String) (imageName : String)

theorem StrictWeakOrder.asymm {V : Type} {GreaterThan : V → V → Bool}
    (hord : StrictWeakOrder GreaterThan) (a b : V) (h : GreaterThan a b = true) :
    GreaterThan b a = false := by
  cases hb : GreaterThan b a with
  | false => rfl
  | true =>
    have := hord.trans a b a h hb
    rw [hord.irrefl a] at this
    cases this

theorem StrictWeakOrder.greater_of_greater_of_not {V : Type} {GreaterThan : V → V → Bool}
    (hord : StrictWeakOrder GreaterThan) (a b c : V) (h : GreaterThan a c = true)
    (hbc : GreaterThan b c = false) : GreaterThan a b = true := by
  cases hab : GreaterThan a b with
  | true => rfl
  | false =>
    have := hord.notGreaterTrans a b c hab hbc
    rw [h] at this
    cases this

theorem DetermineLatestMachineImageVersion.loop_error (pre : List α) (entry : α)
    (post : List α) (err : Err)
    (hpre : ∀ y ∈ pre, ∃ u, NewVersion (Version y) = .ok u)
    (hentry : NewVersion (Version entry) = .error err) :
    ∀ (latest : Option V) (e : α),
      DetermineLatestMachineImageVersion.loop NewVersion GreaterThan Version imageName
          (pre ++ entry :: post) latest e =
        .error (machineImageVersionError (Version entry) imageName err.Error) := by
  induction pre with
  | nil =>
    intro latest e
    rw [List.nil_append, DetermineLatestMachineImageVersion.loop, hentry]
  | cons x rest ih =>
    intro latest e
    obtain ⟨u, hu⟩ := hpre x (List.mem_cons_self _ _)
    have hrest : ∀ y ∈ rest, ∃ u, NewVersion (Version y) = .ok u :=
      fun y hy => hpre y (List.mem_cons_of_mem _ hy)
    rw [List.cons_append, DetermineLatestMachineImageVersion.loop, hu]
    cases latest with
    | none => exact ih hrest _ _
    | some l =>
      simp only
      by_cases hg : GreaterThan u l = true
      · rw [if_pos hg]; exact ih hrest _ _
      · rw [if_neg hg]; exact ih hrest _ _

theorem DetermineLatestMachineImageVersion.loop_some (hord : StrictWeakOrder GreaterThan)
    (l : List α) (hl : ∀ y ∈ l, ∃ u, NewVersion (Version y) = .ok u) :
    ∀ (v : V) (e : α),
      (DetermineLatestMachineImageVersion.loop NewVersion GreaterThan Version imageName l
          (some v) e = .ok (some v, e) ∧
        ∀ y ∈ l, ∀ u : V, NewVersion (Version y) = .ok u → GreaterThan u v = false) ∨
      ∃ (i : Nat) (x : α) (w : V),
        DetermineLatestMachineImageVersion.loop NewVersion GreaterThan Version imageName l
          (some v) e = .ok (some w, x) ∧
        GreaterThan w v = true ∧ IsFirstLatest NewVersion GreaterThan Version l i x w := by
  induction l with
  | nil =>
    intro v e
    exact Or.inl ⟨rfl, fun y hy => by cases hy⟩
  | cons x rest ih =>
    intro v e
    obtain ⟨w, hw⟩ := hl x (List.mem_cons_self _ _)
    have hrest : ∀ y ∈ rest, ∃ u, NewVersion (Version y) = .ok u :=
      fun y hy => hl y (List.mem_cons_of_mem _ hy)
    rw [DetermineLatestMachineImageVersion.loop, hw]
    simp only
    cases hg : GreaterThan w v with
    | true =>
      simp only [if_true]
      right
      rcases ih hrest w x with ⟨hres, hall⟩ | ⟨i, x', w', hres, hgt, hi, hp, hmax, hbefore⟩
      · refine ⟨0, x, w, hres, hg, List.getElem?_cons_zero, hw, ?_, ?_⟩
        · intro y hy u hu
          rcases List.mem_cons.mp hy with rfl | hy
          · rw [hw] at hu
            cases hu
            exact hord.irrefl _
          · exact hall y hy u hu
        · intro j y u hj
          exact absurd hj (Nat.not_lt_zero j)
      · refine ⟨i + 1, x', w', hres, hord.trans _ _ _ hgt hg, ?_, hp, ?_, ?_⟩
        · rw [List.getElem?_cons_succ]; exact hi
        · intro y hy u hu
          rcases List.mem_cons.mp hy with rfl | hy
          · rw [hw] at hu
            cases hu
            exact hord.asymm _ _ hgt
          · exact hmax y hy u hu
        · intro j y u hj hy hu
          cases j with
          | zero =>
            simp only [List.getElem?_cons_zero, Option.some.injEq] at hy
            subst hy
            rw [hw] at hu
            cases hu
            exact hgt
          | succ j =>
            rw [List.getElem?_cons_succ] at hy
            exact hbefore j y u (by omega) hy hu
    | false =>
      simp only [Bool.false_eq_true, if_false]
      rcases ih hrest v e with ⟨hres, hall⟩ | ⟨i, x', w', hres, hgt, hi, hp, hmax, hbefore⟩
      · left
        refine ⟨hres, ?_⟩
        intro y hy u hu
        rcases List.mem_cons.mp hy with rfl | hy
        · rw [hw] at hu
          cases hu
          exact hg
        · exact hall y hy u hu
      · right
        have hww : GreaterThan w' w = true := hord.greater_of_greater_of_not _ _ _ hgt hg
        refine ⟨i + 1, x', w', hres, hgt, ?_, hp, ?_, ?_⟩
        · rw [List.getElem?_cons_succ]; exact hi
        · intro y hy u hu
          rcases List.mem_cons.mp hy with rfl | hy
          · rw [hw] at hu
            cases hu
            exact hord.asymm _ _ hww
          · exact hmax y hy u hu
        · intro j y u hj hy hu
          cases j with
          | zero =>
            simp only [List.getElem?_cons_zero, Option.some.injEq] at hy
            subst hy
            rw [hw] at hu
            cases hu
            exact hww
          | succ j =>
            rw [List.getElem?_cons_succ] at hy
            exact hbefore j y u (by omega) hy hu

theorem DetermineLatestMachineImageVersion.loop_ok (hord : StrictWeakOrder GreaterThan)
    (l : List α) (hl : ∀ y ∈ l, ∃ u, NewVersion (Version y) = .ok u) (zero : α) :
    (l = [] ∧
      DetermineLatestMachineImageVersion.loop NewVersion GreaterThan Version imageName l
        none zero = .ok (none, zero)) ∨
    ∃ (i : Nat) (x : α) (w : V),
      DetermineLatestMachineImageVersion.loop NewVersion GreaterThan Version imageName l
        none zero = .ok (some w, x) ∧
      IsFirstLatest NewVersion GreaterThan Version l i x w := by
  cases l with
  | nil => exact Or.inl ⟨rfl, rfl⟩
  | cons x rest =>
    right
    obtain ⟨w, hw⟩ := hl x (List.mem_cons_self _ _)
    have hrest : ∀ y ∈ rest, ∃ u, NewVersion (Version y) = .ok u :=
      fun y hy => hl y (List.mem_cons_of_mem _ hy)
    rw [DetermineLatestMachineImageVersion.loop, hw]
    simp only
    rcases DetermineLatestMachineImageVersion.loop_some NewVersion GreaterThan Version imageName
        hord rest hrest w x with ⟨hres, hall⟩ | ⟨i, x', w', hres, hgt, hi, hp, hmax, hbefore⟩
    · refine ⟨0, x, w, hres, List.getElem?_cons_zero, hw, ?_, ?_⟩
      · intro y hy u hu
        rcases List.mem_cons.mp hy with rfl | hy
        · rw [hw] at hu
          cases hu
          exact hord.irrefl _
        · exact hall y hy u hu
      · intro j y u hj
        exact absurd hj (Nat.not_lt_zero j)
    · refine ⟨i + 1, x', w', hres, ?_, hp, ?_, ?_⟩
      · rw [List.getElem?_cons_succ]; exact hi
      · intro y hy u hu
        rcases List.mem_cons.mp hy with rfl | hy
        · rw [hw] at hu
          cases hu
          exact hord.asymm _ _ hgt
        · exact hmax y hy u hu
      · intro j y u hj hy hu
        cases j with
        | zero =>
          simp only [List.getElem?_cons_zero, Option.some.injEq] at hy
          subst hy
          rw [hw] at hu
          cases hu
          exact hgt
        | succ j =>
          rw [List.getElem?_cons_succ] at hy
          exact hbefore j y u (by omega) hy hu

end

theorem sampleGreaterThan_strictWeakOrder : StrictWeakOrder sampleGreaterThan := by
  constructor
  · intro a
    simp [sampleGreaterThan, SemVer.lt]
  · intro a b c
    simp only [sampleGreaterThan, SemVer.lt, Bool.or_eq_true, Bool.and_eq_true,
      decide_eq_true_eq]
    omega
  · intro a b c
    simp only [sampleGreaterThan, SemVer.lt, Bool.or_eq_false_iff, Bool.and_eq_false_imp,
      decide_eq_false_iff_not, decide_eq_true_eq]
    omega

/-- C15: `DetermineLatestMachineImageVersion`, in the v1beta1 helper package and in the package
`garden/helper`, for a library of semantic versions whose `GreaterThan` is a strict weak
order. If every entry of `image.Versions` parses, it returns without error the zero value for
an empty list and otherwise an entry of `image.Versions` than whose semantic version no entry
has a greater one, the first such entry: every entry before it has a smaller version. If an
entry does not parse and all entries before it do, it returns the error made from that
version, the name of the image and the text of the parse error. -/
theorem C15_DetermineLatestMachineImageVersion_first_latest_or_parse_error {V : Type} (NewVersion : String → Except Err V) (GreaterThan : V → V → Bool)
    (hord : StrictWeakOrder GreaterThan) :
    (∀ image : MachineImage,
      ((∀ y ∈ image.Versions, ∃ u, NewVersion y.Version = .ok u) →
        (image.Versions = [] ∧
          DetermineLatestMachineImageVersion NewVersion GreaterThan image =
            (none, { Version := "" }, none)) ∨
        ∃ (i : Nat) (entry : ExpirableVersion) (v : V),
          DetermineLatestMachineImageVersion NewVersion GreaterThan image =
            (some v, entry, none) ∧
          IsFirstLatest NewVersion GreaterThan ExpirableVersion.Version image.Versions i
            entry v) ∧
      (∀ (pre : List ExpirableVersion) (entry : ExpirableVersion)
          (post : List ExpirableVersion) (err : Err),
        image.Versions = pre ++ entry :: post →
        (∀ y ∈ pre, ∃ u, NewVersion y.Version = .ok u) →
        NewVersion entry.Version = .error err →
        DetermineLatestMachineImageVersion NewVersion GreaterThan image =
          (none, { Version := "" },
            some (machineImageVersionError entry.Version image.Name err.Error)))) ∧
    (∀ image : garden.MachineImage,
      ((∀ y ∈ image.Versions, ∃ u, NewVersion y.Version = .ok u) →
        (image.Versions = [] ∧
          garden.DetermineLatestMachineImageVersion NewVersion GreaterThan image =
            ({ Version := "" }, none)) ∨
        ∃ (i : Nat) (entry : garden.MachineImageVersion) (v : V),
          garden.DetermineLatestMachineImageVersion NewVersion GreaterThan image =
            (entry, none) ∧
          IsFirstLatest NewVersion GreaterThan garden.MachineImageVersion.Version
            image.Versions i entry v) ∧
      (∀ (pre : List garden.MachineImageVersion) (entry : garden.MachineImageVersion)
          (post : List garden.MachineImageVersion) (err : Err),
        image.Versions = pre ++ entry :: post →
        (∀ y ∈ pre, ∃ u, NewVersion y.Version = .ok u) →
        NewVersion entry.Version = .error err →
        garden.DetermineLatestMachineImageVersion NewVersion GreaterThan image =
          ({ Version := "" },
            some (machineImageVersionError entry.Version image.Name err.Error)))) := by
  refine ⟨fun image => ⟨?_, ?_⟩, fun image => ⟨?_, ?_⟩⟩
  · intro hall
    unfold DetermineLatestMachineImageVersion
    rcases DetermineLatestMachineImageVersion.loop_ok NewVersion GreaterThan
        ExpirableVersion.Version image.Name hord image.Versions hall { Version := "" } with
      ⟨hnil, hres⟩ | ⟨i, x, w, hres, hfirst⟩
    · left
      rw [hres]
      exact ⟨hnil, rfl⟩
    · right
      rw [hres]
      exact ⟨i, x, w, rfl, hfirst⟩
  · intro pre entry post err hv hpre hentry
    unfold DetermineLatestMachineImageVersion
    rw [hv, DetermineLatestMachineImageVersion.loop_error NewVersion GreaterThan
      ExpirableVersion.Version image.Name pre entry post err hpre hentry]
  · intro hall
    unfold garden.DetermineLatestMachineImageVersion
    rcases DetermineLatestMachineImageVersion.loop_ok NewVersion GreaterThan
        garden.MachineImageVersion.Version image.Name hord image.Versions hall
        { Version := "" } with
      ⟨hnil, hres⟩ | ⟨i, x, w, hres, hfirst⟩
    · left
      rw [hres]
      exact ⟨hnil, rfl⟩
    · right
      rw [hres]
      exact ⟨i, x, w, rfl, hfirst⟩
  · intro pre entry post err hv hpre hentry
    unfold garden.DetermineLatestMachineImageVersion
    rw [hv, DetermineLatestMachineImageVersion.loop_error NewVersion GreaterThan
      garden.MachineImageVersion.Version image.Name pre entry post err hpre hentry]

theorem C15_DetermineLatestMachineImageVersion_first_latest_or_parse_error_witness :
    StrictWeakOrder sampleGreaterThan ∧
    DetermineLatestMachineImageVersion sampleNewVersion sampleGreaterThan sampleMachineImage =
      (some ⟨2191, 5, 0⟩, { Version := "2191.5.0", ExpirationDate := some "2020-01-01" }, none) ∧
    garden.DetermineLatestMachineImageVersion sampleNewVersion sampleGreaterThan
        garden.sampleMachineImage =
      ({ Version := "" },
        some (machineImageVersionError "latest" "coreos" "Invalid Semantic Version")) :=
  ⟨sampleGreaterThan_strictWeakOrder, by decide,
    ((C15_DetermineLatestMachineImageVersion_first_latest_or_parse_error sampleNewVersion sampleGreaterThan
      sampleGreaterThan_strictWeakOrder).2 garden.sampleMachineImage).2
      [{ Version := "2135.6.0" }] { Version := "latest" } [{ Version := "2191.5.0" }]
      (.message "Invalid Semantic Version") rfl
      (fun y hy => ⟨⟨2135, 6, 0⟩, by rw [List.mem_singleton.mp hy]; rfl⟩) rfl⟩

end Gardener
